import Mathlib

/-!
# Argument flattening of the redis client (`commands.go`)

A shallow embedding of `appendArgs`, `appendArg`, `appendStructField`,
`omitEmpty` and `isEmptyValue`, together with the part of Go's dynamic values
and of package `reflect` that these functions observe, and of the reply
decoders (`readReply`) of `probabilistic.go`, `timeseries_commands.go` and
`json.go` over an arbitrary reader, and of the command methods of `cmdable`
that build an argument list and hand the command to the dispatcher.

Modelling conventions:

* a Go slice is `Slice α`: `none` is the nil slice, `some xs` a non-nil slice
  holding `xs`; capacity and aliasing of backing arrays are not represented;
* a Go map is the list of its entries in the order in which a `range`
  statement visits them; Go leaves that order unspecified, so statements
  quantify over every list;
* a run-time panic is the `Except.error` outcome;
* a decoder takes the reader and its state and returns the `error` it
  returns in Go, the command it leaves behind and the next reader state;
* a command method returns `Sent`: the command it returns and the commands it
  handed to the dispatcher; a `time.Duration` is its number of nanoseconds.
-/

set_option autoImplicit false

namespace Redis

/-! ## Slices -/

/-- Go slice: `none` is `nil`, `some xs` is a non-nil slice with elements `xs`. -/
abbrev Slice (α : Type) := Option (List α)

namespace Slice

variable {α : Type}

/-- Elements of a slice; the nil slice has none. -/
def elems (s : Slice α) : List α := s.getD []

/-- Go `len(s)`. -/
def len (s : Slice α) : Nat := (elems s).length

/-- Go `append(s, xs...)`: with nothing to append the slice is returned as it is
(nil stays nil), otherwise the result is a non-nil slice. -/
def append (s : Slice α) (xs : List α) : Slice α :=
  match xs with
  | [] => s
  | x :: rest => some (elems s ++ x :: rest)

/-- Go `s[:len(s):len(s)]`: the same elements with the capacity clipped. -/
def clip (s : Slice α) : Slice α := s.map fun xs => xs.take xs.length

end Slice

/-! ## Dynamic values and the view `reflect` gives of them -/

/-- Go `reflect.Kind`. -/
inductive Kind where
  | Invalid | Bool
  | Int | Int8 | Int16 | Int32 | Int64
  | Uint | Uint8 | Uint16 | Uint32 | Uint64 | Uintptr
  | Float32 | Float64 | Complex64 | Complex128
  | Array | Chan | Func | Interface | Map | Pointer | Slice | String | Struct
  | UnsafePointer
  deriving DecidableEq, Repr

/-- Signed integer kinds. -/
inductive IntKind where
  | Int | Int8 | Int16 | Int32 | Int64
  deriving DecidableEq, Repr

/-- Unsigned integer kinds. -/
inductive UintKind where
  | Uint | Uint8 | Uint16 | Uint32 | Uint64 | Uintptr
  deriving DecidableEq, Repr

/-- Floating-point kinds. -/
inductive FloatKind where
  | Float32 | Float64
  deriving DecidableEq, Repr

/-- Complex kinds. -/
inductive ComplexKind where
  | Complex64 | Complex128
  deriving DecidableEq, Repr

/-- One field of a struct value as `appendStructField` sees it. -/
structure StructField (α : Type) where
  /-- Result of `typ.Field(i).Tag.Get("redis")`; empty when the key is absent. -/
  tag : String
  /-- Result of `v.Field(i).CanInterface()`: the field is exported. -/
  exported : Bool
  /-- The field's `reflect.Value`, `v.Field(i)`. -/
  value : α

/-- Go values, split by what the type switch of `appendArg` and `reflect`
tell apart.  The first group are the exact types named in the type switch;
the second group are the values of all other types, by kind.  A float is its
IEEE-754 bit pattern.  `marshaler v` is a value with the representation of `v`
whose dynamic type has `MarshalBinary` in its method set (every such value is
written with this wrapper).  `iface v` is a variable of interface type
holding `v`; it occurs as a struct field or pointer target, never as a
dynamic value itself. -/
inductive Value where
  /-- The nil interface value: it has no dynamic type. -/
  | nil
  /-- Type `[]string`. -/
  | stringSlice (xs : Option (List String))
  /-- Type `[]interface{}`. -/
  | ifaceSlice (xs : Option (List Value))
  /-- Type `map[string]interface{}`. -/
  | ifaceMap (entries : List (String × Value))
  /-- Type `map[string]string`. -/
  | stringMap (entries : List (String × String))
  /-- Type `int64`. -/
  | int64 (n : Int)
  /-- Type `time.Time`, a struct of the unexported fields `wall`, `ext`, `loc`. -/
  | time (wall : Nat) (ext : Int)
  /-- Type `time.Duration`, of kind `Int64`. -/
  | duration (n : Int)
  /-- Type `net.IP`, a byte slice. -/
  | ip (bytes : Option (List Nat))
  /-- Any value whose dynamic type implements `encoding.BinaryMarshaler`. -/
  | marshaler (v : Value)
  | bool (b : Bool)
  /-- Signed integers of every type other than `int64` and `time.Duration`. -/
  | int (k : IntKind) (n : Int)
  | uint (k : UintKind) (n : Nat)
  | float (k : FloatKind) (bits : Nat)
  | complex (k : ComplexKind) (re im : Nat)
  | string (s : String)
  | array (xs : List Value)
  /-- Slices of every type other than those listed above. -/
  | slice (xs : Option (List Value))
  /-- Maps of every type other than those listed above. -/
  | map (entries : List (Value × Value))
  /-- A nil pointer whose element type has kind `elem`. -/
  | nilPtr (elem : Kind)
  /-- A non-nil pointer to `v`. -/
  | ptrTo (v : Value)
  | struct (fields : List (StructField Value))
  | chan (isNil : Bool)
  | func (isNil : Bool)
  | unsafePointer (addr : Nat)
  | iface (v : Value)

namespace Value

/-- Go `reflect.Value.Kind`; the zero `reflect.Value` made from a nil
interface has kind `Invalid`. -/
def kind : Value → Kind
  | .nil => .Invalid
  | .stringSlice _ => .Slice
  | .ifaceSlice _ => .Slice
  | .ifaceMap _ => .Map
  | .stringMap _ => .Map
  | .int64 _ => .Int64
  | .time _ _ => .Struct
  | .duration _ => .Int64
  | .ip _ => .Slice
  | .marshaler v => kind v
  | .bool _ => .Bool
  | .int .Int _ => .Int
  | .int .Int8 _ => .Int8
  | .int .Int16 _ => .Int16
  | .int .Int32 _ => .Int32
  | .int .Int64 _ => .Int64
  | .uint .Uint _ => .Uint
  | .uint .Uint8 _ => .Uint8
  | .uint .Uint16 _ => .Uint16
  | .uint .Uint32 _ => .Uint32
  | .uint .Uint64 _ => .Uint64
  | .uint .Uintptr _ => .Uintptr
  | .float .Float32 _ => .Float32
  | .float .Float64 _ => .Float64
  | .complex .Complex64 _ _ => .Complex64
  | .complex .Complex128 _ _ => .Complex128
  | .string _ => .String
  | .array _ => .Array
  | .slice _ => .Slice
  | .map _ => .Map
  | .nilPtr _ => .Pointer
  | .ptrTo _ => .Pointer
  | .struct _ => .Struct
  | .chan _ => .Chan
  | .func _ => .Func
  | .unsafePointer _ => .UnsafePointer
  | .iface _ => .Interface

/-- Go `v.Type().Kind()`: `Type` panics on the zero `reflect.Value`. -/
def typeKind (v : Value) : Except String Kind :=
  match v with
  | .nil => .error "reflect: call of reflect.Value.Type on zero Value"
  | v => .ok (kind v)

/-- Go `reflect.Value.IsNil`, as consulted for the kinds `Interface` and
`Pointer`. -/
def isNil : Value → Bool
  | .marshaler v => isNil v
  | .nilPtr _ => true
  | .iface .nil => true
  | .stringSlice none => true
  | .ifaceSlice none => true
  | .ip none => true
  | .slice none => true
  | .chan b => b
  | .func b => b
  | _ => false

/-- Go `reflect.Value.Elem` of a pointer or interface. -/
def elem : Value → Value
  | .marshaler v => elem v
  | .ptrTo v => v
  | .iface v => v
  | _ => .nil

/-- Go `reflect.Value.Len` for arrays, maps, slices and strings (a string's
length is its number of bytes). -/
def len : Value → Nat
  | .stringSlice xs => Slice.len xs
  | .ifaceSlice xs => Slice.len xs
  | .ifaceMap es => es.length
  | .stringMap es => es.length
  | .ip bs => Slice.len bs
  | .marshaler v => len v
  | .string s => s.utf8ByteSize
  | .array xs => xs.length
  | .slice xs => Slice.len xs
  | .map es => es.length
  | _ => 0

/-- Go `reflect.Value.Bool`. -/
def getBool : Value → Bool
  | .bool b => b
  | .marshaler v => getBool v
  | _ => false

/-- Go `reflect.Value.Int`. -/
def getInt : Value → Int
  | .int64 n => n
  | .duration n => n
  | .int _ n => n
  | .marshaler v => getInt v
  | _ => 0

/-- Go `reflect.Value.Uint`. -/
def getUint : Value → Nat
  | .uint _ n => n
  | .marshaler v => getUint v
  | _ => 0

/-- Outcome of the comparison `v.Float() == 0`: the bit pattern is that of
`+0` or `-0`, i.e. every bit below the sign bit is clear. -/
def floatEqZero : Value → Bool
  | .float .Float32 bits => bits % 2 ^ 31 == 0
  | .float .Float64 bits => bits % 2 ^ 63 == 0
  | .marshaler v => floatEqZero v
  | _ => false

/-- Fields of a struct value, in declaration order (`v.Type().Field(i)` with
`v.Field(i)` for `i` below `NumField`).  The three fields of `time.Time` are
unexported and carry no tag. -/
def fields : Value → List (StructField Value)
  | .struct fs => fs
  | .marshaler v => fields v
  | .time wall ext =>
      [⟨"", false, .uint .Uint64 wall⟩, ⟨"", false, .int .Int64 ext⟩,
       ⟨"", false, .nilPtr .Struct⟩]
  | _ => []

/-- Go `reflect.Value.Interface`: the value as an `interface{}`; for a value
of interface kind this is the value held inside. -/
def toInterface : Value → Value
  | .iface v => v
  | v => v

end Value

/-! ## `strings.Cut` -/

/-- Split a character list around the first occurrence of `sep`. -/
def cutChars (sep : List Char) : List Char → Option (List Char × List Char)
  | [] => if sep = [] then some ([], []) else none
  | c :: cs =>
    if sep.isPrefixOf (c :: cs) then some ([], (c :: cs).drop sep.length)
    else
      match cutChars sep cs with
      | some (before, after) => some (c :: before, after)
      | none => none

/-- Go `strings.Cut(s, sep)`: the text before and after the first occurrence
of `sep` and `true`, or `(s, "", false)` when `sep` does not occur. -/
def Cut (s sep : String) : String × String × Bool :=
  match cutChars sep.data s.data with
  | some (before, after) => (⟨before⟩, ⟨after⟩, true)
  | none => (s, "", false)

/-! ## `commands.go` -/

/-- The loop of `omitEmpty`, run for at most `fuel` iterations. -/
def omitEmptyLoop : Nat → String → Bool
  | 0, _ => false
  | fuel + 1, opt =>
    if opt ≠ "" then
      let name := (Cut opt ",").1
      let opt := (Cut opt ",").2.1
      if name = "omitempty" then true else omitEmptyLoop fuel opt
    else false

/-- Go `omitEmpty(opt)`.  Every iteration removes at least one character from
`opt`, so `opt.length + 1` iterations are never exhausted. -/
def omitEmpty (opt : String) : Bool := omitEmptyLoop (opt.length + 1) opt

/-- Go `isEmptyValue(v)`. -/
def isEmptyValue (v : Value) : Bool :=
  match v.kind with
  | .Array | .Map | .Slice | .String => v.len == 0
  | .Bool => !v.getBool
  | .Int | .Int8 | .Int16 | .Int32 | .Int64 => v.getInt == 0
  | .Uint | .Uint8 | .Uint16 | .Uint32 | .Uint64 | .Uintptr => v.getUint == 0
  | .Float32 | .Float64 => v.floatEqZero
  | .Interface | .Pointer => v.isNil
  | _ => false

/-- One iteration of the loop of `appendStructField`, for the field `f`. -/
def appendField (dst : Slice Value) (f : StructField Value) : Slice Value :=
  let tag := f.tag
  if tag = "" ∨ tag = "-" then dst
  else
    let name := (Cut tag ",").1
    let opt := (Cut tag ",").2.1
    if name = "" then dst
    else
      let field := f.value
      if omitEmpty opt && isEmptyValue field then dst
      else if f.exported then Slice.append dst [.string name, field.toInterface]
      else dst

/-- Go `appendStructField(dst, v)`: the loop over the fields of `v` in
declaration order. -/
def appendStructField (dst : Slice Value) (v : Value) : Slice Value :=
  v.fields.foldl appendField dst

/-- Go `appendArg(dst, arg)`. -/
def appendArg (dst : Slice Value) (arg : Value) :
    Except String (Slice Value × Slice String) :=
  match arg with
  | .stringSlice a =>
    if Slice.len dst > 0 then
      .ok ((Slice.elems a).foldl (fun d s => Slice.append d [.string s]) dst, none)
    else .ok (none, Slice.clip a)
  | .ifaceSlice a =>
    if Slice.len dst > 0 then .ok (Slice.append dst (Slice.elems a), none)
    else .ok (Slice.clip a, none)
  | .ifaceMap m =>
    .ok (m.foldl (fun d e => Slice.append d [.string e.1, e.2]) dst, none)
  | .stringMap m =>
    if Slice.len dst > 0 then
      .ok (m.foldl (fun d e => Slice.append d [.string e.1, .string e.2]) dst, none)
    else
      .ok (none, m.foldl (fun s e => Slice.append s [e.1, e.2]) (some []))
  | .int64 n => .ok (Slice.append dst [.int64 n], none)
  | .time w e => .ok (Slice.append dst [.time w e], none)
  | .duration n => .ok (Slice.append dst [.duration n], none)
  | .marshaler v => .ok (Slice.append dst [.marshaler v], none)
  | .ip b => .ok (Slice.append dst [.ip b], none)
  | arg =>
    match arg.typeKind with
    | .error e => .error e
    | .ok k =>
      if k = .Pointer ∧ arg.isNil then .ok (dst, none)
      else
        let v := if k = .Pointer then arg.elem else arg
        match v.typeKind with
        | .error e => .error e
        | .ok k =>
          if k = .Struct then .ok (appendStructField dst v, none)
          else .ok (Slice.append dst [arg], none)

/-- Go `appendArgs(dst, src)`. -/
def appendArgs (dst : Slice Value) (src : Slice Value) :
    Except String (Slice Value × Slice String) :=
  match Slice.elems src with
  | [a] => appendArg dst a
  | _ =>
    if dst.isNone then .ok (src, none)
    else .ok (Slice.append dst (Slice.elems src), none)

/-- The token sequence a result of `appendArg` stands for: the interface
tokens followed by the string tokens. -/
def tokens (r : Slice Value × Slice String) : List Value :=
  Slice.elems r.1 ++ (Slice.elems r.2).map Value.string

/-! ## Notions of the specification

The definitions below follow the wording of the specification; the theorems
compare them with the code above. -/

/-- Arguments the specification passes through as a single token: the types
`int64`, `time.Time`, `time.Duration`, `net.IP`, every binary-marshalable
value, and every other value that is not a `[]string`, `[]interface{}`,
`map[string]interface{}`, `map[string]string`, struct or pointer.  The nil
interface has no dynamic type and is none of them. -/
def Value.isScalar : Value → Bool
  | .int64 _ => true
  | .time _ _ => true
  | .duration _ => true
  | .ip _ => true
  | .marshaler _ => true
  | .nil => false
  | .stringSlice _ => false
  | .ifaceSlice _ => false
  | .ifaceMap _ => false
  | .stringMap _ => false
  | .struct _ => false
  | .nilPtr _ => false
  | .ptrTo _ => false
  | _ => true

/-- Flattening as section 4.3, step 2 of the specification words it: every
argument, in order, is classified and expanded by `appendArg` onto the tokens
collected so far. -/
def expandEach (acc : List Value) : List Value → Except String (List Value)
  | [] => .ok acc
  | a :: rest =>
    match appendArg (some acc) a with
    | .error e => .error e
    | .ok r => expandEach (tokens r) rest

/-- Consecutive token pairs of a token list: positions `2i` and `2i+1`. -/
def pairs : List Value → List (Value × Value)
  | a :: b :: rest => (a, b) :: pairs rest
  | _ => []

/-- The token pair a map entry stands for. -/
def entryPair (e : String × Value) : Value × Value := (.string e.1, e.2)

/-- The token pair an entry of a `map[string]string` stands for. -/
def stringEntryPair (e : String × String) : Value × Value := (.string e.1, .string e.2)

/-- The comma-separated items of a modifier list. -/
def splitOnComma : List Char → List (List Char)
  | [] => [[]]
  | c :: cs =>
    if c = ',' then [] :: splitOnComma cs
    else
      match splitOnComma cs with
      | [] => [[c]]
      | w :: ws => (c :: w) :: ws

namespace StructField

/-- Wire name of a field: the tag text before the first comma. -/
def name (f : StructField Value) : String := (Cut f.tag ",").1

/-- Modifier list of a field: the tag text after the first comma. -/
def opt (f : StructField Value) : String := (Cut f.tag ",").2.1

/-- A field is emitted when it has a tag other than `-`, a non-empty wire
name, is exported, and is not suppressed by `omitempty`. -/
def emitted (f : StructField Value) : Bool :=
  decide (f.tag ≠ "") && decide (f.tag ≠ "-") && decide (name f ≠ "") &&
    !(omitEmpty (opt f) && isEmptyValue f.value) && f.exported

/-- The two tokens of an emitted field: wire name, then value. -/
def pair (f : StructField Value) : List Value :=
  [.string (name f), f.value.toInterface]

end StructField

mutual
/-- The value is the zero value of its Go type. -/
def Value.isZero : Value → Bool
  | .nil => true
  | .stringSlice xs => xs.isNone
  | .ifaceSlice xs => xs.isNone
  | .ifaceMap es => es.isEmpty
  | .stringMap es => es.isEmpty
  | .int64 n => n == 0
  | .time wall ext => wall == 0 && ext == 0
  | .duration n => n == 0
  | .ip bs => bs.isNone
  | .marshaler v => Value.isZero v
  | .bool b => !b
  | .int _ n => n == 0
  | .uint _ n => n == 0
  | .float _ bits => bits == 0
  | .complex _ re im => re == 0 && im == 0
  | .string s => s == ""
  | .array xs => allZero xs
  | .slice xs => xs.isNone
  | .map es => es.isEmpty
  | .nilPtr _ => true
  | .ptrTo _ => false
  | .struct fs => allZeroFields fs
  | .chan b => b
  | .func b => b
  | .unsafePointer a => a == 0
  | .iface v => match v with
    | .nil => true
    | _ => false
/-- Every element of an array is a zero value. -/
def allZero : List Value → Bool
  | [] => true
  | x :: xs => Value.isZero x && allZero xs
/-- Every field of a struct is a zero value. -/
def allZeroFields : List (StructField Value) → Bool
  | [] => true
  | f :: fs => Value.isZero f.value && allZeroFields fs
end

/-- Values that "skip-if-default" treats as empty, in the words of the
specification: an empty container or string, false, a numeric zero, an absent
pointer or interface. -/
def Value.isDefault : Value → Bool
  | .stringSlice xs => (Slice.elems xs).isEmpty
  | .ifaceSlice xs => (Slice.elems xs).isEmpty
  | .ip bs => (Slice.elems bs).isEmpty
  | .slice xs => (Slice.elems xs).isEmpty
  | .ifaceMap es => es.isEmpty
  | .stringMap es => es.isEmpty
  | .map es => es.isEmpty
  | .array xs => xs.isEmpty
  | .string s => s == ""
  | .bool b => !b
  | .int64 n => n == 0
  | .duration n => n == 0
  | .int _ n => n == 0
  | .uint _ n => n == 0
  | .float .Float32 bits => bits % 2 ^ 31 == 0
  | .float .Float64 bits => bits % 2 ^ 63 == 0
  | .nilPtr _ => true
  | .iface .nil => true
  | .marshaler v => Value.isDefault v
  | _ => false

/-- Values that must survive `omitempty`: a non-empty array, map, slice or
string, `true`, a non-zero number, a non-nil interface or pointer. -/
def Value.isSet : Value → Bool
  | .stringSlice xs => !(Slice.elems xs).isEmpty
  | .ifaceSlice xs => !(Slice.elems xs).isEmpty
  | .ip bs => !(Slice.elems bs).isEmpty
  | .slice xs => !(Slice.elems xs).isEmpty
  | .ifaceMap es => !es.isEmpty
  | .stringMap es => !es.isEmpty
  | .map es => !es.isEmpty
  | .array xs => !xs.isEmpty
  | .string s => s != ""
  | .bool b => b
  | .int64 n => n != 0
  | .duration n => n != 0
  | .int _ n => n != 0
  | .uint _ n => n != 0
  | .float .Float32 bits => bits % 2 ^ 31 != 0
  | .float .Float64 bits => bits % 2 ^ 63 != 0
  | .complex .Complex64 re im => re % 2 ^ 31 != 0 || im % 2 ^ 31 != 0
  | .complex .Complex128 re im => re % 2 ^ 63 != 0 || im % 2 ^ 63 != 0
  | .ptrTo _ => true
  | .iface .nil => false
  | .iface _ => true
  | .marshaler v => Value.isSet v
  | _ => false

/-! ## Reply decoding: errors and the reader -/

/-- Go `error` values as the code tells them apart: `Nil` is the protocol-nil
error `redis: nil` and `EOF` is `io.EOF`, the two sentinels that are compared
with `==`; every other error is known by its message.  The nil `error` is
`none : Option GoError`. -/
inductive GoError where
  | Nil
  | EOF
  | other (msg : String)
  deriving DecidableEq, Repr

/-- Modelled from the spec: the reply type tag that `PeekReplyType` reports
(`ReplyShape` of section 3); the constants `proto.RespArray` etc. are not among
the sources.  `array` stands for `proto.RespArray`. -/
inductive ReplyShape where
  | array | map | scalarString | scalarInteger | scalarFloat | nil | error
  deriving DecidableEq, Repr

/-- A `float64`, as its IEEE-754 bit pattern; `0` is the zero value `+0`. -/
abbrev Float64 := Nat

/-- Modelled from the spec: the primitives of the low-level reader
`proto.Reader` (section 6), which is not among the sources.  `σ` is the state
of the reader (the unread part of the reply stream); every primitive returns
its outcome together with the state it leaves behind.  Decoders are stated for
an arbitrary reader. -/
structure Reader (σ : Type) where
  PeekReplyType : σ → Except GoError ReplyShape × σ
  ReadArrayLen : σ → Except GoError Int × σ
  ReadMapLen : σ → Except GoError Int × σ
  ReadInt : σ → Except GoError Int × σ
  ReadFloat : σ → Except GoError Float64 × σ
  ReadString : σ → Except GoError String × σ
  ReadReply : σ → Except GoError Value × σ

/-- What a call of `readReply` leaves behind: the returned `error`, the
command, and the state of the reader. -/
structure Outcome (C σ : Type) where
  err : Option GoError
  cmd : C
  rd : σ

/-! ## `probabilistic.go`: composite decoders -/

/-- Go `x, err = rd.Read…()` inside the key switch, followed by the check
`if err != nil { return err }`: on success the field is set through `set`. -/
def assignField {α R σ : Type} (r : Except GoError α × σ) (set : α → R) :
    Except GoError R × σ :=
  match r with
  | (.error e, s) => (.error e, s)
  | (.ok v, s) => (.ok (set v), s)

/-- The loop `for f := 0; f < n; f++` common to `BFInfoCmd`, `CFInfoCmd`,
`CMSInfoCmd`, `TopKInfoCmd` and `TDigestInfoCmd`: read a key, run the key
switch `readField` on the local `result`, stop at the first error. -/
def readInfoFields {σ R : Type} (rd : Reader σ)
    (readField : String → R → σ → Except GoError R × σ) :
    Nat → R → σ → Except GoError R × σ
  | 0, result, s => (.ok result, s)
  | k + 1, result, s =>
    match rd.ReadString s with
    | (.error e, s) => (.error e, s)
    | (.ok key, s) =>
      match readField key result s with
      | (.error e, s) => (.error e, s)
      | (.ok result, s) => readInfoFields rd readField k result s

/-- The body common to the `readReply` methods of the five composite decoders:
read the map length, fill the local `result` (starting from the zero value
`zero`), and store it in the command's `val` only after the loop. -/
def readInfoReply {σ R : Type} (rd : Reader σ)
    (readField : String → R → σ → Except GoError R × σ) (zero val : R) (s : σ) :
    Outcome R σ :=
  match rd.ReadMapLen s with
  | (.error e, s) => ⟨some e, val, s⟩
  | (.ok n, s) =>
    match readInfoFields rd readField n.toNat zero s with
    | (.error e, s) => ⟨some e, val, s⟩
    | (.ok result, s) => ⟨none, result, s⟩

/-- Go `BFInfo`. -/
structure BFInfo where
  Capacity : Int
  Size : Int
  Filters : Int
  ItemsInserted : Int
  ExpansionRate : Int
  deriving DecidableEq, Repr

/-- Go `BFInfoCmd`, reduced to its `val`. -/
structure BFInfoCmd where
  val : BFInfo
  deriving DecidableEq, Repr

/-- The key switch of `BFInfoCmd.readReply`. -/
def BFInfoCmd.readField {σ : Type} (rd : Reader σ) (key : String) (result : BFInfo) (s : σ) :
    Except GoError BFInfo × σ :=
  if key = "Capacity" then assignField (rd.ReadInt s) fun v => { result with Capacity := v }
  else if key = "Size" then assignField (rd.ReadInt s) fun v => { result with Size := v }
  else if key = "Number of filters" then
    assignField (rd.ReadInt s) fun v => { result with Filters := v }
  else if key = "Number of items inserted" then
    assignField (rd.ReadInt s) fun v => { result with ItemsInserted := v }
  else if key = "Expansion rate" then
    assignField (rd.ReadInt s) fun v => { result with ExpansionRate := v }
  else (.error (.other ("redis: BLOOM.INFO unexpected key " ++ key)), s)

/-- Go `(*BFInfoCmd).readReply`. -/
def BFInfoCmd.readReply {σ : Type} (rd : Reader σ) (cmd : BFInfoCmd) (s : σ) :
    Outcome BFInfoCmd σ :=
  let out := readInfoReply rd (BFInfoCmd.readField rd) ⟨0, 0, 0, 0, 0⟩ cmd.val s
  ⟨out.err, { cmd with val := out.cmd }, out.rd⟩

/-- Go `CFInfo`. -/
structure CFInfo where
  Size : Int
  NumBuckets : Int
  NumFilters : Int
  NumItemsInserted : Int
  NumItemsDeleted : Int
  BucketSize : Int
  ExpansionRate : Int
  MaxIteration : Int
  deriving DecidableEq, Repr

/-- Go `CFInfoCmd`, reduced to its `val`. -/
structure CFInfoCmd where
  val : CFInfo
  deriving DecidableEq, Repr

/-- The key switch of `CFInfoCmd.readReply`. -/
def CFInfoCmd.readField {σ : Type} (rd : Reader σ) (key : String) (result : CFInfo) (s : σ) :
    Except GoError CFInfo × σ :=
  if key = "Size" then assignField (rd.ReadInt s) fun v => { result with Size := v }
  else if key = "Number of buckets" then
    assignField (rd.ReadInt s) fun v => { result with NumBuckets := v }
  else if key = "Number of filters" then
    assignField (rd.ReadInt s) fun v => { result with NumFilters := v }
  else if key = "Number of items inserted" then
    assignField (rd.ReadInt s) fun v => { result with NumItemsInserted := v }
  else if key = "Number of items deleted" then
    assignField (rd.ReadInt s) fun v => { result with NumItemsDeleted := v }
  else if key = "Bucket size" then
    assignField (rd.ReadInt s) fun v => { result with BucketSize := v }
  else if key = "Expansion rate" then
    assignField (rd.ReadInt s) fun v => { result with ExpansionRate := v }
  else if key = "Max iterations" then
    assignField (rd.ReadInt s) fun v => { result with MaxIteration := v }
  else (.error (.other ("redis: CF.INFO unexpected key " ++ key)), s)

/-- Go `(*CFInfoCmd).readReply`. -/
def CFInfoCmd.readReply {σ : Type} (rd : Reader σ) (cmd : CFInfoCmd) (s : σ) :
    Outcome CFInfoCmd σ :=
  let out := readInfoReply rd (CFInfoCmd.readField rd) ⟨0, 0, 0, 0, 0, 0, 0, 0⟩ cmd.val s
  ⟨out.err, { cmd with val := out.cmd }, out.rd⟩

/-- Go `CMSInfo`. -/
structure CMSInfo where
  Width : Int
  Depth : Int
  Count : Int
  deriving DecidableEq, Repr

/-- Go `CMSInfoCmd`, reduced to its `val`. -/
structure CMSInfoCmd where
  val : CMSInfo
  deriving DecidableEq, Repr

/-- The key switch of `CMSInfoCmd.readReply`. -/
def CMSInfoCmd.readField {σ : Type} (rd : Reader σ) (key : String) (result : CMSInfo) (s : σ) :
    Except GoError CMSInfo × σ :=
  if key = "width" then assignField (rd.ReadInt s) fun v => { result with Width := v }
  else if key = "depth" then assignField (rd.ReadInt s) fun v => { result with Depth := v }
  else if key = "count" then assignField (rd.ReadInt s) fun v => { result with Count := v }
  else (.error (.other ("redis: CMS.INFO unexpected key " ++ key)), s)

/-- Go `(*CMSInfoCmd).readReply`. -/
def CMSInfoCmd.readReply {σ : Type} (rd : Reader σ) (cmd : CMSInfoCmd) (s : σ) :
    Outcome CMSInfoCmd σ :=
  let out := readInfoReply rd (CMSInfoCmd.readField rd) ⟨0, 0, 0⟩ cmd.val s
  ⟨out.err, { cmd with val := out.cmd }, out.rd⟩

/-- Go `TopKInfo`. -/
structure TopKInfo where
  K : Int
  Width : Int
  Depth : Int
  Decay : Float64
  deriving DecidableEq, Repr

/-- Go `TopKInfoCmd`, reduced to its `val`. -/
structure TopKInfoCmd where
  val : TopKInfo
  deriving DecidableEq, Repr

/-- The key switch of `TopKInfoCmd.readReply`. -/
def TopKInfoCmd.readField {σ : Type} (rd : Reader σ) (key : String) (result : TopKInfo)
    (s : σ) : Except GoError TopKInfo × σ :=
  if key = "k" then assignField (rd.ReadInt s) fun v => { result with K := v }
  else if key = "width" then assignField (rd.ReadInt s) fun v => { result with Width := v }
  else if key = "depth" then assignField (rd.ReadInt s) fun v => { result with Depth := v }
  else if key = "decay" then assignField (rd.ReadFloat s) fun v => { result with Decay := v }
  else (.error (.other ("redis: topk.info unexpected key " ++ key)), s)

/-- Go `(*TopKInfoCmd).readReply`. -/
def TopKInfoCmd.readReply {σ : Type} (rd : Reader σ) (cmd : TopKInfoCmd) (s : σ) :
    Outcome TopKInfoCmd σ :=
  let out := readInfoReply rd (TopKInfoCmd.readField rd) ⟨0, 0, 0, 0⟩ cmd.val s
  ⟨out.err, { cmd with val := out.cmd }, out.rd⟩

/-- Go `TDigestInfo`. -/
structure TDigestInfo where
  Compression : Int
  Capacity : Int
  MergedNodes : Int
  UnmergedNodes : Int
  MergedWeight : Int
  UnmergedWeight : Int
  Observations : Int
  TotalCompressions : Int
  MemoryUsage : Int
  deriving DecidableEq, Repr

/-- Go `TDigestInfoCmd`, reduced to its `val`. -/
structure TDigestInfoCmd where
  val : TDigestInfo
  deriving DecidableEq, Repr

/-- The key switch of `TDigestInfoCmd.readReply`. -/
def TDigestInfoCmd.readField {σ : Type} (rd : Reader σ) (key : String)
    (result : TDigestInfo) (s : σ) : Except GoError TDigestInfo × σ :=
  if key = "Compression" then
    assignField (rd.ReadInt s) fun v => { result with Compression := v }
  else if key = "Capacity" then assignField (rd.ReadInt s) fun v => { result with Capacity := v }
  else if key = "Merged nodes" then
    assignField (rd.ReadInt s) fun v => { result with MergedNodes := v }
  else if key = "Unmerged nodes" then
    assignField (rd.ReadInt s) fun v => { result with UnmergedNodes := v }
  else if key = "Merged weight" then
    assignField (rd.ReadInt s) fun v => { result with MergedWeight := v }
  else if key = "Unmerged weight" then
    assignField (rd.ReadInt s) fun v => { result with UnmergedWeight := v }
  else if key = "Observations" then
    assignField (rd.ReadInt s) fun v => { result with Observations := v }
  else if key = "Total compressions" then
    assignField (rd.ReadInt s) fun v => { result with TotalCompressions := v }
  else if key = "Memory usage" then
    assignField (rd.ReadInt s) fun v => { result with MemoryUsage := v }
  else (.error (.other ("redis: tdigest.info unexpected key " ++ key)), s)

/-- Go `(*TDigestInfoCmd).readReply`. -/
def TDigestInfoCmd.readReply {σ : Type} (rd : Reader σ) (cmd : TDigestInfoCmd) (s : σ) :
    Outcome TDigestInfoCmd σ :=
  let out := readInfoReply rd (TDigestInfoCmd.readField rd) ⟨0, 0, 0, 0, 0, 0, 0, 0, 0⟩ cmd.val s
  ⟨out.err, { cmd with val := out.cmd }, out.rd⟩

/-- Go `ScanDump`. -/
structure ScanDump where
  Iter : Int
  Data : String
  deriving DecidableEq, Repr

/-- Go `ScanDumpCmd`, reduced to its `val`. -/
structure ScanDumpCmd where
  val : ScanDump
  deriving DecidableEq, Repr

/-- The loop of `ScanDumpCmd.readReply`, run `k` more times on `cmd.val`. -/
def ScanDumpCmd.loop {σ : Type} (rd : Reader σ) :
    Nat → ScanDump → σ → Option GoError × ScanDump × σ
  | 0, val, s => (none, val, s)
  | k + 1, val, s =>
    match rd.ReadInt s with
    | (.error e, s) => (some e, val, s)
    | (.ok iter, s) =>
      match rd.ReadString s with
      | (.error e, s) => (some e, val, s)
      | (.ok data, s) => ScanDumpCmd.loop rd k { val with Data := data, Iter := iter } s

/-- Go `(*ScanDumpCmd).readReply`. -/
def ScanDumpCmd.readReply {σ : Type} (rd : Reader σ) (cmd : ScanDumpCmd) (s : σ) :
    Outcome ScanDumpCmd σ :=
  match rd.ReadMapLen s with
  | (.error e, s) => ⟨some e, cmd, s⟩
  | (.ok n, s) =>
    match ScanDumpCmd.loop rd n.toNat ⟨0, ""⟩ s with
    | (err, val, s) => ⟨err, { cmd with val := val }, s⟩

/-! ## `timeseries_commands.go` -/

/-- Go `TSTimestampValue`. -/
structure TSTimestampValue where
  Timestamp : Int
  Value : Float64
  deriving DecidableEq, Repr

/-- Go `TSTimestampValueCmd`, reduced to its `val`. -/
structure TSTimestampValueCmd where
  val : TSTimestampValue
  deriving DecidableEq, Repr

/-- The loop of `TSTimestampValueCmd.readReply`, run `k` more times on
`cmd.val`.  `parseFloat value` is `strconv.ParseFloat(value, 64)`: the float it
returns is stored before the error is looked at. -/
def TSTimestampValueCmd.loop {σ : Type} (rd : Reader σ)
    (parseFloat : String → Float64 × Option GoError) :
    Nat → TSTimestampValue → σ → Option GoError × TSTimestampValue × σ
  | 0, val, s => (none, val, s)
  | k + 1, val, s =>
    match rd.ReadInt s with
    | (.error e, s) => (some e, val, s)
    | (.ok timestamp, s) =>
      match rd.ReadString s with
      | (.error e, s) => (some e, val, s)
      | (.ok value, s) =>
        let val := { val with Timestamp := timestamp }
        let val := { val with Value := (parseFloat value).1 }
        match (parseFloat value).2 with
        | some e => (some e, val, s)
        | none => TSTimestampValueCmd.loop rd parseFloat k val s

/-- Go `(*TSTimestampValueCmd).readReply`. -/
def TSTimestampValueCmd.readReply {σ : Type} (rd : Reader σ)
    (parseFloat : String → Float64 × Option GoError) (cmd : TSTimestampValueCmd) (s : σ) :
    Outcome TSTimestampValueCmd σ :=
  match rd.ReadMapLen s with
  | (.error e, s) => ⟨some e, cmd, s⟩
  | (.ok n, s) =>
    match TSTimestampValueCmd.loop rd parseFloat n.toNat ⟨0, 0⟩ s with
    | (err, val, s) => ⟨err, { cmd with val := val }, s⟩

/-- Go `TSTimestampValueSliceCmd`, reduced to its `val`. -/
structure TSTimestampValueSliceCmd where
  val : Slice TSTimestampValue
  deriving DecidableEq, Repr

/-- The loop of `TSTimestampValueSliceCmd.readReply` from index `i`, run `k`
more times on the elements of `cmd.val`.  The result of the inner
`rd.ReadArrayLen()` is discarded, error included. -/
def TSTimestampValueSliceCmd.loop {σ : Type} (rd : Reader σ)
    (parseFloat : String → Float64 × Option GoError) :
    Nat → Nat → List TSTimestampValue → σ → Option GoError × List TSTimestampValue × σ
  | 0, _, val, s => (none, val, s)
  | k + 1, i, val, s =>
    match rd.ReadInt (rd.ReadArrayLen s).2 with
    | (.error e, s) => (some e, val, s)
    | (.ok timestamp, s) =>
      match rd.ReadString s with
      | (.error e, s) => (some e, val, s)
      | (.ok value, s) =>
        let val := val.set i { val.getD i ⟨0, 0⟩ with Timestamp := timestamp }
        let val := val.set i { val.getD i ⟨0, 0⟩ with Value := (parseFloat value).1 }
        match (parseFloat value).2 with
        | some e => (some e, val, s)
        | none => TSTimestampValueSliceCmd.loop rd parseFloat k (i + 1) val s

/-- Go `(*TSTimestampValueSliceCmd).readReply`; `make` panics on a negative
length. -/
def TSTimestampValueSliceCmd.readReply {σ : Type} (rd : Reader σ)
    (parseFloat : String → Float64 × Option GoError) (cmd : TSTimestampValueSliceCmd)
    (s : σ) : Except String (Outcome TSTimestampValueSliceCmd σ) :=
  match rd.ReadArrayLen s with
  | (.error e, s) => .ok ⟨some e, cmd, s⟩
  | (.ok n, s) =>
    if n < 0 then .error "panic: runtime error: makeslice: len out of range"
    else
      match TSTimestampValueSliceCmd.loop rd parseFloat n.toNat 0
          (List.replicate n.toNat ⟨0, 0⟩) s with
      | (err, val, s) => .ok ⟨err, { cmd with val := some val }, s⟩

/-! ## `json.go` -/

/-- Go `JSONCmd`: `err` is `baseCmd.err`. -/
structure JSONCmd where
  err : Option GoError
  val : String
  expanded : Value

/-- The loop of the array branch of `JSONCmd.readReply` from index `i`, run `k`
more times on the local slice `expanded`. -/
def JSONCmd.readExpanded {σ : Type} (rd : Reader σ) :
    Nat → Nat → List Value → σ → Except GoError (List Value) × σ
  | 0, _, expanded, s => (.ok expanded, s)
  | k + 1, i, expanded, s =>
    match rd.ReadReply s with
    | (.error e, s) => (.error e, s)
    | (.ok v, s) => JSONCmd.readExpanded rd k (i + 1) (expanded.set i v) s

/-- Go `(*JSONCmd).readReply`; `make` panics on a negative length. -/
def JSONCmd.readReply {σ : Type} (rd : Reader σ) (cmd : JSONCmd) (s : σ) :
    Except String (Outcome JSONCmd σ) :=
  if cmd.err = some .Nil then .ok ⟨some .Nil, { cmd with val := "" }, s⟩
  else
    match rd.PeekReplyType s with
    | (.error e, s) => .ok ⟨some e, cmd, s⟩
    | (.ok readType, s) =>
      if readType = .array then
        match rd.ReadArrayLen s with
        | (.error e, s) => .ok ⟨some e, cmd, s⟩
        | (.ok size, s) =>
          if size < 0 then .error "panic: runtime error: makeslice: len out of range"
          else
            match JSONCmd.readExpanded rd size.toNat 0 (List.replicate size.toNat .nil) s with
            | (.error e, s) => .ok ⟨some e, cmd, s⟩
            | (.ok expanded, s) =>
              .ok ⟨none, { cmd with expanded := .ifaceSlice (some expanded) }, s⟩
      else
        match rd.ReadString s with
        | (.error e, s) =>
          if e ≠ .Nil then .ok ⟨some e, cmd, s⟩
          else .ok ⟨none, { cmd with val := "" }, s⟩
        | (.ok str, s) =>
          if str = "" then .ok ⟨none, { cmd with val := "" }, s⟩
          else .ok ⟨none, { cmd with val := str }, s⟩

/-- Go `JSONSliceCmd`: `err` is `baseCmd.err`. -/
structure JSONSliceCmd where
  err : Option GoError
  val : Slice Value

/-- The loop of the string-list branch of `JSONSliceCmd.readReply` from index
`i`, run `k` more times on the elements of `cmd.val`. -/
def JSONSliceCmd.readStrings {σ : Type} (rd : Reader σ) :
    Nat → Nat → List Value → σ → Option GoError × List Value × σ
  | 0, _, val, s => (none, val, s)
  | k + 1, i, val, s =>
    match rd.ReadString s with
    | (.error e, s) =>
      if e = .Nil then JSONSliceCmd.readStrings rd k (i + 1) (val.set i (.string "")) s
      else (some e, val, s)
    | (.ok str, s) => JSONSliceCmd.readStrings rd k (i + 1) (val.set i (.string str)) s

/-- Go `(*JSONSliceCmd).readReply`; the type assertion `response.([]interface{})`
panics on any other dynamic type, `make` on a negative length. -/
def JSONSliceCmd.readReply {σ : Type} (rd : Reader σ) (cmd : JSONSliceCmd) (s : σ) :
    Except String (Outcome JSONSliceCmd σ) :=
  if cmd.err = some .Nil then .ok ⟨some .Nil, { cmd with val := none }, s⟩
  else
    match rd.PeekReplyType s with
    | (.error e, s) => .ok ⟨some e, cmd, s⟩
    | (.ok readType, s) =>
      if readType = .array then
        match rd.ReadReply s with
        | (.error _, s) => .ok ⟨none, cmd, s⟩
        | (.ok response, s) =>
          match response with
          | .ifaceSlice xs => .ok ⟨none, { cmd with val := xs }, s⟩
          | _ => .error "panic: interface conversion: interface \x7b\x7d is not []interface \x7b\x7d"
      else
        match rd.ReadArrayLen s with
        | (.error e, s) => .ok ⟨some e, cmd, s⟩
        | (.ok n, s) =>
          if n < 0 then .error "panic: runtime error: makeslice: len out of range"
          else
            match JSONSliceCmd.readStrings rd n.toNat 0 (List.replicate n.toNat .nil) s with
            | (err, val, s) => .ok ⟨err, { cmd with val := some val }, s⟩

/-- Go `IntPointerSliceCmd`, reduced to its `val`; a `*int64` is an optional
integer. -/
structure IntPointerSliceCmd where
  val : Slice (Option Int)
  deriving DecidableEq, Repr

/-- The loop of `IntPointerSliceCmd.readReply` from index `i`, run `k` more
times on the elements of `cmd.val`. -/
def IntPointerSliceCmd.loop {σ : Type} (rd : Reader σ) :
    Nat → Nat → List (Option Int) → σ → Option GoError × List (Option Int) × σ
  | 0, _, val, s => (none, val, s)
  | k + 1, i, val, s =>
    match rd.ReadInt s with
    | (.error e, s) =>
      if e ≠ .Nil then (some e, val, s)
      else IntPointerSliceCmd.loop rd k (i + 1) val s
    | (.ok v, s) => IntPointerSliceCmd.loop rd k (i + 1) (val.set i (some v)) s

/-- Go `(*IntPointerSliceCmd).readReply`; `make` panics on a negative length. -/
def IntPointerSliceCmd.readReply {σ : Type} (rd : Reader σ) (cmd : IntPointerSliceCmd)
    (s : σ) : Except String (Outcome IntPointerSliceCmd σ) :=
  match rd.ReadArrayLen s with
  | (.error e, s) => .ok ⟨some e, cmd, s⟩
  | (.ok n, s) =>
    if n < 0 then .error "panic: runtime error: makeslice: len out of range"
    else
      match IntPointerSliceCmd.loop rd (List.replicate n.toNat (none : Option Int)).length 0
          (List.replicate n.toNat none) s with
      | (err, val, s) => .ok ⟨err, { cmd with val := some val }, s⟩

/-! ## A reader over a recorded reply -/

/-- Modelled from the spec: one item of a recorded reply stream, as the
primitives of the reader meet it.  `arrayLen` and `mapLen` are the headers of
an array and of a map reply, `array` is a whole array reply taken in one piece
by `ReadReply`, `null` is the wire-level null, and `broken shape msg` is a reply
that starts like `shape` but whose reading fails with the I/O error `msg`. -/
inductive Frame where
  | arrayLen (n : Int)
  | mapLen (n : Int)
  | int (n : Int)
  | float (bits : Float64)
  | text (s : String)
  | null
  | array (xs : Option (List Value))
  | broken (shape : ReplyShape) (msg : String)

/-- Modelled from the spec: the reply type a frame shows to `PeekReplyType`. -/
def Frame.shape : Frame → ReplyShape
  | .arrayLen _ => .array
  | .mapLen _ => .map
  | .int _ => .scalarInteger
  | .float _ => .scalarFloat
  | .text _ => .scalarString
  | .null => .nil
  | .array _ => .array
  | .broken shape _ => shape

/-- Modelled from the spec: a consuming primitive on a recorded stream.  The
next frame is taken; a null gives `Nil`, a broken frame its I/O error, a frame
of the wrong type a parse error, the end of the stream `EOF`. -/
def scriptRead {α : Type} (pick : Frame → Option α) (what : String) :
    List Frame → Except GoError α × List Frame
  | [] => (.error (.other "EOF"), [])
  | .null :: rest => (.error .Nil, rest)
  | .broken _ msg :: rest => (.error (.other msg), rest)
  | f :: rest =>
    match pick f with
    | some v => (.ok v, rest)
    | none => (.error (.other ("redis: can't parse " ++ what ++ " reply")), rest)

/-- Modelled from the spec: the reader over a recorded reply stream. -/
def scriptReader : Reader (List Frame) where
  PeekReplyType := fun s =>
    match s with
    | [] => (.error (.other "EOF"), [])
    | f :: rest => (.ok f.shape, f :: rest)
  ReadArrayLen := scriptRead (fun f => match f with | .arrayLen n => some n | _ => none) "array"
  ReadMapLen := scriptRead (fun f => match f with | .mapLen n => some n | _ => none) "map"
  ReadInt := scriptRead (fun f => match f with | .int n => some n | _ => none) "int"
  ReadFloat := scriptRead (fun f => match f with | .float x => some x | _ => none) "float"
  ReadString := scriptRead (fun f => match f with | .text t => some t | _ => none) "string"
  ReadReply := scriptRead (fun f =>
    match f with
    | .array xs => some (.ifaceSlice xs)
    | .int n => some (.int64 n)
    | .text t => some (.string t)
    | _ => none) "any"

/-- A sample of `strconv.ParseFloat(s, 64)` on the texts used in the examples:
`"1.5"` parses to the float 1.5, every other text is a syntax error returned
together with the float 0. -/
def sampleParseFloat (s : String) : Float64 × Option GoError :=
  if s = "1.5" then (0x3FF8000000000000, none)
  else (0, some (.other ("strconv.ParseFloat: parsing " ++ s ++ ": invalid syntax")))

/-! ## Notions of the specification: replies as the reader delivers them -/

/-- From state `s` the reader hands out the map entries `ps` pair by pair:
each key as a text, each value as an integer. -/
def deliversPairs {σ : Type} (rd : Reader σ) : List (String × Int) → σ → Prop
  | [], _ => True
  | (k, v) :: ps, s =>
    (rd.ReadString s).1 = .ok k
      ∧ (rd.ReadInt (rd.ReadString s).2).1 = .ok v
      ∧ deliversPairs rd ps (rd.ReadInt (rd.ReadString s).2).2

/-- The integer of the last pair of `ps` carrying `key`, and `0` when no pair
carries it. -/
def lastValue (key : String) (ps : List (String × Int)) : Int :=
  ps.foldl (fun acc p => if p.1 = key then p.2 else acc) 0

/-- Keys that `BFInfoCmd` recognises. -/
def BFInfo.keys : List String :=
  ["Capacity", "Size", "Number of filters", "Number of items inserted", "Expansion rate"]

/-- Keys that `CFInfoCmd` recognises. -/
def CFInfo.keys : List String :=
  ["Size", "Number of buckets", "Number of filters", "Number of items inserted",
    "Number of items deleted", "Bucket size", "Expansion rate", "Max iterations"]

/-- Keys that `CMSInfoCmd` recognises. -/
def CMSInfo.keys : List String := ["width", "depth", "count"]

/-- Keys that `TopKInfoCmd` recognises. -/
def TopKInfo.keys : List String := ["k", "width", "depth", "decay"]

/-- Keys that `TDigestInfoCmd` recognises. -/
def TDigestInfo.keys : List String :=
  ["Compression", "Capacity", "Merged nodes", "Unmerged nodes", "Merged weight",
    "Unmerged weight", "Observations", "Total compressions", "Memory usage"]

/-- From state `s` the reader hands out the array elements `elems` one by one:
an integer for a present element, the protocol nil for an absent one. -/
def deliversInts {σ : Type} (rd : Reader σ) : List (Option Int) → σ → Prop
  | [], _ => True
  | some v :: es, s => (rd.ReadInt s).1 = .ok v ∧ deliversInts rd es (rd.ReadInt s).2
  | none :: es, s => (rd.ReadInt s).1 = .error .Nil ∧ deliversInts rd es (rd.ReadInt s).2

/-- Reading the next (integer, text) pair from state `s` fails with the error
`e`: at the integer, or at the text that follows it. -/
def pairReadFails {σ : Type} (rd : Reader σ) (s : σ) (e : GoError) : Prop :=
  (rd.ReadInt s).1 = .error e
    ∨ ((∃ v, (rd.ReadInt s).1 = .ok v) ∧ (rd.ReadString (rd.ReadInt s).2).1 = .error e)

/-- The next (integer, text) pair read from state `s` is the timestamp `t` and
a text that `parseFloat` rejects with the error `e`, returning the float `x`. -/
def pairParseFails {σ : Type} (rd : Reader σ) (parseFloat : String → Float64 × Option GoError)
    (s : σ) (t : Int) (x : Float64) (e : GoError) : Prop :=
  (rd.ReadInt s).1 = .ok t
    ∧ ∃ text, (rd.ReadString (rd.ReadInt s).2).1 = .ok text
      ∧ parseFloat text = (x, some e)

/-! ## Command handles and dispatch -/

/-- Modelled from the spec: the command handle of section 3 (`baseCmd`, whose
declaration is not among the sources): the command name, the first and second
positional slots kept apart from the argument tail, the tail as interface
tokens or as string tokens, the first key position, the error and, for a
status command, the reply text. -/
structure Command where
  cmd : String
  firstArg : String
  secondArg : String
  args : Slice Value
  argsS : Slice String
  keyPos : Nat
  err : Option GoError
  val : String

/-- Modelled from the spec: a constructor `New…Cmd(ctx, args...)`, following
`NewBFInfoCmd`. -/
def newCmd (args : Slice Value) : Command := ⟨"", "", "", args, none, 0, none, ""⟩

/-- Modelled from the spec: a constructor `New…Cmd2(ctx, cmd, firstArg, args)`,
following `NewBFInfoCmd2`. -/
def newCmd2 (cmd firstArg : String) (args : Slice Value) : Command :=
  ⟨cmd, firstArg, "", args, none, 0, none, ""⟩

/-- Modelled from the spec: a constructor
`New…Cmd3(ctx, cmd, firstArg, secondArg, args)`, following `NewBFInfoCmd3`. -/
def newCmd3 (cmd firstArg secondArg : String) (args : Slice Value) : Command :=
  ⟨cmd, firstArg, secondArg, args, none, 0, none, ""⟩

/-- Modelled from the spec: a constructor
`New…Cmd3S(ctx, cmd, firstArg, secondArg, argsS)` taking string tokens,
following `NewJSONSliceCmd2S`. -/
def newCmd3S (cmd firstArg secondArg : String) (argsS : Slice String) : Command :=
  ⟨cmd, firstArg, secondArg, none, argsS, 0, none, ""⟩

/-- The dispatcher `c` of `cmdable`: called as `c(ctx, cmd)` it processes the
command and leaves its result or error in it.  It is a parameter. -/
abbrev Dispatcher := Command → Command

/-- What a command method leaves behind: the command it returns and the
commands it handed to the dispatcher, in order, as they were at the call. -/
structure Sent where
  cmd : Command
  dispatched : List Command

/-- Go `_ = c(ctx, cmd); return cmd`. -/
def dispatch (c : Dispatcher) (cmd : Command) : Sent := ⟨c cmd, [cmd]⟩

/-- Go `cmd.SetErr(err); return cmd` without a call of the dispatcher. -/
def reject (cmd : Command) (err : GoError) : Sent := ⟨{ cmd with err := some err }, []⟩

/-! ## `bitmap_commands.go` -/

/-- Go `BitCount`. -/
structure BitCount where
  Start : Int
  End : Int
  Unit : String
  deriving DecidableEq, Repr

/-- Go `BitCountIndexByte`. -/
def BitCountIndexByte : String := "BYTE"

/-- Go `BitCountIndexBit`. -/
def BitCountIndexBit : String := "BIT"

/-- Go `cmdable.BitCount`; `bitCount` is a pointer, `none` when nil. -/
def cmdable.BitCount (c : Dispatcher) (key : String) (bitCount : Option BitCount) : Sent :=
  match bitCount with
  | none => dispatch c (newCmd2 "bitcount" key none)
  | some b =>
    let args := Slice.append none [.int64 b.Start, .int64 b.End]
    if b.Unit ≠ "" then
      if b.Unit ≠ BitCountIndexByte ∧ b.Unit ≠ BitCountIndexBit then
        reject (newCmd none) (.other "redis: invalid bitcount index")
      else dispatch c (newCmd2 "bitcount" key (Slice.append args [.string b.Unit]))
    else dispatch c (newCmd2 "bitcount" key args)

/-- Go `cmdable.BitPos`. -/
def cmdable.BitPos (c : Dispatcher) (key : String) (bit : Int) (pos : List Int) :
    Except String Sent :=
  let args := Slice.append (some []) [.int64 bit]
  match pos with
  | [] => .ok (dispatch c (newCmd2 "bitpos" key args))
  | [p0] => .ok (dispatch c (newCmd2 "bitpos" key (Slice.append args [.int64 p0])))
  | [p0, p1] =>
    .ok (dispatch c (newCmd2 "bitpos" key
      (Slice.append (Slice.append args [.int64 p0]) [.int64 p1])))
  | _ => .error "too many arguments"

/-- The loop `for i := 0; i < len(values); i += 2` of `BitFieldRO`, run for at
most `fuel` iterations from index `i`. -/
def cmdable.BitFieldRO.loop (values : List Value) : Nat → Nat → Slice Value → Slice Value
  | 0, _, args => args
  | fuel + 1, i, args =>
    if i < values.length then
      cmdable.BitFieldRO.loop values fuel (i + 2)
        (Slice.append args [.string "GET", values.getD i .nil, values.getD (i + 1) .nil])
    else args

/-- Go `cmdable.BitFieldRO`.  The index grows by 2 in every iteration, so
`len(values)` iterations are never exhausted. -/
def cmdable.BitFieldRO (c : Dispatcher) (key : String) (values : List Value) :
    Except String Sent :=
  if values.length % 2 ≠ 0 then
    .error "BitFieldRO: invalid number of arguments, must be even"
  else
    .ok (dispatch c (newCmd2 "BITFIELD_RO" key
      (cmdable.BitFieldRO.loop values values.length 0 (some []))))

/-! ## `commands.go`: durations, `ClientSetInfo`, `MemoryUsage` -/

/-- Go `time.Millisecond`, in nanoseconds. -/
def Millisecond : Int := 1000000

/-- Go `time.Second`, in nanoseconds. -/
def Second : Int := 1000000000

/-- Go `KeepTTL`. -/
def KeepTTL : Int := -1

/-- Go `usePrecise(dur)`; `%` truncates toward zero. -/
def usePrecise (dur : Int) : Bool := dur < Second || dur.tmod Second != 0

/-- Go `formatMs(ctx, dur)`, without the log line; `/` truncates toward zero. -/
def formatMs (dur : Int) : Int :=
  if dur > 0 ∧ dur < Millisecond then 1 else dur.tdiv Millisecond

/-- Go `formatSec(ctx, dur)`, without the log line. -/
def formatSec (dur : Int) : Int :=
  if dur > 0 ∧ dur < Second then 1 else dur.tdiv Second

/-- Modelled from the spec: `LibraryInfo`, whose declaration is not among the
sources; both fields are pointers to strings, `none` when nil. -/
structure LibraryInfo where
  LibName : Option String
  LibVer : Option String
  deriving DecidableEq, Repr

/-- Go `LibraryInfo.Validate`. -/
def LibraryInfo.Validate (info : LibraryInfo) : Option GoError :=
  if info.LibName ≠ none ∧ info.LibVer ≠ none then
    some (.other "both LibName and LibVer cannot be set at the same time")
  else if info.LibName = none ∧ info.LibVer = none then
    some (.other "at least one of LibName and LibVer should be set")
  else none

/-- The text of a Go `error`. -/
def GoError.Error : GoError → String
  | .Nil => "redis: nil"
  | .EOF => "EOF"
  | .other msg => msg

/-- Go `statefulCmdable.ClientSetInfo`; `version` is the text
`internal.ReplaceSpaces(runtime.Version())`. -/
def statefulCmdable.ClientSetInfo (c : Dispatcher) (version : String) (info : LibraryInfo) :
    Except String Sent :=
  match info.Validate with
  | some err => .error err.Error
  | none =>
    match info.LibName with
    | some name =>
      .ok (dispatch c (newCmd3S "client" "setinfo" "LIB-NAME"
        (some ["go-redis(" ++ name ++ "," ++ version ++ ")"])))
    | none =>
      match info.LibVer with
      | some ver => .ok (dispatch c (newCmd3S "client" "setinfo" "LIB-VER" (some [ver])))
      | none => .error "panic: runtime error: invalid memory address or nil pointer dereference"

/-- Go `cmdable.MemoryUsage`. -/
def cmdable.MemoryUsage (c : Dispatcher) (key : String) (samples : List Int) :
    Except String Sent :=
  match samples with
  | [] => .ok (dispatch c { newCmd3 "memory" "usage" key none with keyPos := 2 })
  | [n] =>
    .ok (dispatch c { newCmd3 "memory" "usage" key
      (Slice.append none [.string "SAMPLES", .int .Int n]) with keyPos := 2 })
  | _ => .error "MemoryUsage expects single sample count"

/-! ## `string_commands.go` -/

/-- Go `cmdable.Set`; `expiration` is a `time.Duration` in nanoseconds. -/
def cmdable.Set (c : Dispatcher) (key : String) (value : Value) (expiration : Int) : Sent :=
  let args : Slice Value := some [value]
  let args :=
    if expiration > 0 then
      if usePrecise expiration then
        Slice.append args [.string "px", .int64 (formatMs expiration)]
      else Slice.append args [.string "ex", .int64 (formatSec expiration)]
    else if expiration = KeepTTL then Slice.append args [.string "keepttl"]
    else args
  dispatch c (newCmd2 "set" key args)

/-! ## `sortedset_commands.go` -/

/-- Go `Z`. -/
structure Z where
  Score : Float64
  Member : Value

/-- Go `ZAddArgs`. -/
structure ZAddArgs where
  NX : Bool
  XX : Bool
  LT : Bool
  GT : Bool
  Ch : Bool
  Members : List Z

/-- Go `cmdable.zAddArgs`. -/
def cmdable.zAddArgs (args : ZAddArgs) (incr : Bool) : Slice Value :=
  let a : Slice Value := some []
  let a :=
    if args.NX then Slice.append a [.string "nx"]
    else
      let a := if args.XX then Slice.append a [.string "xx"] else a
      if args.GT then Slice.append a [.string "gt"]
      else if args.LT then Slice.append a [.string "lt"]
      else a
  let a := if args.Ch then Slice.append a [.string "ch"] else a
  let a := if incr then Slice.append a [.string "incr"] else a
  args.Members.foldl
    (fun a m => Slice.append (Slice.append a [.float .Float64 m.Score]) [m.Member]) a

/-- Go `cmdable.ZPopMax`. -/
def cmdable.ZPopMax (c : Dispatcher) (key : String) (count : List Int) : Except String Sent :=
  match count with
  | [] => .ok (dispatch c (newCmd2 "zpopmax" key none))
  | [n] => .ok (dispatch c (newCmd2 "zpopmax" key (Slice.append none [.int64 n])))
  | _ => .error "too many arguments"

/-- Go `cmdable.ZPopMin`. -/
def cmdable.ZPopMin (c : Dispatcher) (key : String) (count : List Int) : Except String Sent :=
  match count with
  | [] => .ok (dispatch c (newCmd2 "zpopmin" key none))
  | [n] => .ok (dispatch c (newCmd2 "zpopmin" key (Slice.append none [.int64 n])))
  | _ => .error "too many arguments"

/-- Go `ZRangeArgs`. -/
structure ZRangeArgs where
  Key : String
  Start : Value
  Stop : Value
  ByScore : Bool
  ByLex : Bool
  Rev : Bool
  Offset : Int
  Count : Int

/-- Go `ZRangeArgs.appendArgs`. -/
def ZRangeArgs.appendArgs (z : ZRangeArgs) (args : Slice Value) : Slice Value :=
  let args :=
    if z.Rev && (z.ByScore || z.ByLex) then Slice.append args [.string z.Key, z.Stop, z.Start]
    else Slice.append args [.string z.Key, z.Start, z.Stop]
  let args :=
    if z.ByScore then Slice.append args [.string "byscore"]
    else if z.ByLex then Slice.append args [.string "bylex"]
    else args
  let args := if z.Rev then Slice.append args [.string "rev"] else args
  if z.Offset ≠ 0 ∨ z.Count ≠ 0 then
    Slice.append args [.string "limit", .int64 z.Offset, .int64 z.Count]
  else args

/-! ## `geo_commands.go` -/

/-- Modelled from the spec: `GeoRadiusQuery`, whose declaration is not among the
sources.  `Store` and `StoreDist` are the fields `geo_commands.go` reads; the
other options are kept as the opaque list `options`. -/
structure GeoRadiusQuery where
  Store : String
  StoreDist : String
  options : List Value

/-- Go `cmdable.GeoRadius`; `query` is a pointer, `none` when nil. -/
def cmdable.GeoRadius (c : Dispatcher) (key : String) (longitude latitude : Float64)
    (query : Option GeoRadiusQuery) : Except String Sent :=
  let args := Slice.append (some [])
    [.float .Float64 longitude, .float .Float64 latitude]
  let cmd := newCmd2 "georadius_ro" key args
  match query with
  | none => .error "panic: runtime error: invalid memory address or nil pointer dereference"
  | some q =>
    if q.Store ≠ "" ∨ q.StoreDist ≠ "" then
      .ok (reject cmd (.other "GeoRadius does not support Store or StoreDist"))
    else .ok (dispatch c cmd)

/-- Go `cmdable.GeoRadiusStore`; `geoLocationArgs` is not among the sources and
is a parameter. -/
def cmdable.GeoRadiusStore (c : Dispatcher)
    (geoLocationArgs : GeoRadiusQuery → Slice Value → Slice Value) (key : String)
    (longitude latitude : Float64) (query : Option GeoRadiusQuery) : Except String Sent :=
  let args := Slice.append (some [])
    [.float .Float64 longitude, .float .Float64 latitude]
  match query with
  | none => .error "panic: runtime error: invalid memory address or nil pointer dereference"
  | some q =>
    let args := geoLocationArgs q args
    let cmd := newCmd2 "georadius" key args
    if q.Store = "" ∧ q.StoreDist = "" then
      .ok (reject cmd (.other "GeoRadiusStore requires Store or StoreDist"))
    else .ok (dispatch c cmd)

/-- Go `cmdable.GeoRadiusByMember`. -/
def cmdable.GeoRadiusByMember (c : Dispatcher) (key member : String)
    (query : Option GeoRadiusQuery) : Except String Sent :=
  let cmd := newCmd3 "georadiusbymember_ro" key member (some [])
  match query with
  | none => .error "panic: runtime error: invalid memory address or nil pointer dereference"
  | some q =>
    if q.Store ≠ "" ∨ q.StoreDist ≠ "" then
      .ok (reject cmd (.other "GeoRadiusByMember does not support Store or StoreDist"))
    else .ok (dispatch c cmd)

/-- Go `cmdable.GeoRadiusByMemberStore`. -/
def cmdable.GeoRadiusByMemberStore (c : Dispatcher)
    (geoLocationArgs : GeoRadiusQuery → Slice Value → Slice Value) (key member : String)
    (query : Option GeoRadiusQuery) : Except String Sent :=
  match query with
  | none => .error "panic: runtime error: invalid memory address or nil pointer dereference"
  | some q =>
    let args := geoLocationArgs q (some [])
    let cmd := newCmd3 "georadiusbymember" key member args
    if q.Store = "" ∧ q.StoreDist = "" then
      .ok (reject cmd (.other "GeoRadiusByMemberStore requires Store or StoreDist"))
    else .ok (dispatch c cmd)

/-! ## `json.go`: `JSONSetMode` -/

/-- The argument `value interface{}` of `JSONSetMode` as its type switch sees
it: a `string`, a `[]byte` (written as the string with the same bytes), or a
value of any other type. -/
inductive JSONArg where
  | str (s : String)
  | bytes (b : String)
  | other (v : Value)

/-- Go `cmdable.JSONSetMode`.  `marshal` is `json.Marshal` (its bytes written as
a string) and `toUpper` is `strings.ToUpper`; the conversions `[]byte(v)` and
`util.BytesToString` keep the bytes. -/
def cmdable.JSONSetMode (c : Dispatcher) (marshal : Value → Except GoError String)
    (toUpper : String → String) (key path : String) (value : JSONArg) (mode : String) :
    Except String Sent :=
  let r : String × Option GoError :=
    match value with
    | .str v => (v, none)
    | .bytes v => (v, none)
    | .other v =>
      match marshal v with
      | .ok b => (b, none)
      | .error e => ("", some e)
  let args : Slice String := some [r.1]
  let args : Except String (Slice String) :=
    if mode ≠ "" then
      if toUpper mode = "XX" ∨ toUpper mode = "NX" then
        .ok (Slice.append args [toUpper mode])
      else .error "redis: JSON.SET mode must be NX or XX"
    else .ok args
  match args with
  | .error p => .error p
  | .ok args =>
    let cmd := newCmd3S "JSON.SET" key path args
    match r.2 with
    | some err => .ok (reject cmd err)
    | none => .ok (dispatch c cmd)

/-- Go `cmdable.JSONSet`. -/
def cmdable.JSONSet (c : Dispatcher) (marshal : Value → Except GoError String)
    (toUpper : String → String) (key path : String) (value : JSONArg) : Except String Sent :=
  cmdable.JSONSetMode c marshal toUpper key path value ""

/-- A sample of `strings.ToUpper` on ASCII text. -/
def sampleToUpper (s : String) : String := ⟨s.data.map Char.toUpper⟩

/-- A sample of `json.Marshal`: a function value is an unsupported type, every
other value is written as the text `null`. -/
def sampleMarshal : Value → Except GoError String
  | .func _ => .error (.other "json: unsupported type: func()")
  | _ => .ok "null"

/-- A dispatcher for the examples: the server answers `OK`. -/
def sampleDispatcher : Dispatcher := fun cmd => { cmd with val := "OK" }

/-- From state `s` to state `t` the reader hands out the samples `es` element
by element: after the inner array length of the element, whose outcome is not
looked at, a timestamp and a value text that `parseFloat` accepts. -/
def deliversSamples {σ : Type} (rd : Reader σ) (parseFloat : String → Float64 × Option GoError) :
    List TSTimestampValue → σ → σ → Prop
  | [], s, t => s = t
  | e :: es, s, t =>
    (rd.ReadInt (rd.ReadArrayLen s).2).1 = .ok e.Timestamp
      ∧ ∃ text, (rd.ReadString (rd.ReadInt (rd.ReadArrayLen s).2).2).1 = .ok text
        ∧ parseFloat text = (e.Value, none)
        ∧ deliversSamples rd parseFloat es
            (rd.ReadString (rd.ReadInt (rd.ReadArrayLen s).2).2).2 t

/-- The method returned a command that holds an error and was not handed to
the dispatcher. -/
def Sent.rejected (s : Sent) : Prop := s.dispatched = [] ∧ s.cmd.err ≠ none

/-! ## `string_commands.go`: `GetEx`, `SetNX`, `SetXX` -/

/-- Go `cmdable.GetEx`. -/
def cmdable.GetEx (c : Dispatcher) (key : String) (expiration : Int) : Sent :=
  let args : Slice Value := none
  let args :=
    if expiration > 0 then
      if usePrecise expiration then
        Slice.append args [.string "px", .int64 (formatMs expiration)]
      else Slice.append args [.string "ex", .int64 (formatSec expiration)]
    else if expiration = 0 then Slice.append args [.string "persist"]
    else args
  dispatch c (newCmd2 "getex" key args)

/-- Go `cmdable.SetNX`; the `switch expiration` has the cases `0`, `KeepTTL`
and `default`. -/
def cmdable.SetNX (c : Dispatcher) (key : String) (value : Value) (expiration : Int) : Sent :=
  let cmd :=
    if expiration = 0 then newCmd2 "setnx" key (some [value])
    else if expiration = KeepTTL then
      newCmd2 "set" key (some [value, .string "keepttl", .string "nx"])
    else if usePrecise expiration then
      newCmd2 "set" key (some [value, .string "px", .int64 (formatMs expiration), .string "nx"])
    else
      newCmd2 "set" key (some [value, .string "ex", .int64 (formatSec expiration), .string "nx"])
  dispatch c cmd

/-- Go `cmdable.SetXX`. -/
def cmdable.SetXX (c : Dispatcher) (key : String) (value : Value) (expiration : Int) : Sent :=
  let cmd :=
    if expiration = 0 then newCmd2 "set" key (some [value, .string "xx"])
    else if expiration = KeepTTL then
      newCmd2 "set" key (some [value, .string "keepttl", .string "xx"])
    else if usePrecise expiration then
      newCmd2 "set" key (some [value, .string "px", .int64 (formatMs expiration), .string "xx"])
    else
      newCmd2 "set" key (some [value, .string "ex", .int64 (formatSec expiration), .string "xx"])
  dispatch c cmd

/-- The duration, in nanoseconds, that the expiry tokens `unit`, `n` of `SET`
denote: `n` seconds after `ex`, `n` milliseconds after `px`. -/
def expiryNanos (unit : String) (n : Int) : Int :=
  if unit = "ex" then n * Second else n * Millisecond

/-! ## `json.go`: `JSONGet`, `JSONGetWithArgs` -/

/-- Go `newJSONCmd2Both(ctx, cmd, firstArg, args, argsS)`: a command with both
an interface tail and a string tail. -/
def newCmd2Both (cmd firstArg : String) (args : Slice Value) (argsS : Slice String) : Command :=
  ⟨cmd, firstArg, "", args, argsS, 0, none, ""⟩

/-- A Go variadic parameter `xs ...T` as the callee sees it: nil when no
argument is passed. -/
def variadic {α : Type} (xs : List α) : Slice α :=
  match xs with
  | [] => none
  | x :: rest => some (x :: rest)

/-- Go `JSONGetArgs`. -/
structure JSONGetArgs where
  Indent : String
  Newline : String
  Space : String
  deriving DecidableEq, Repr

/-- Go `cmdable.JSONGet`. -/
def cmdable.JSONGet (c : Dispatcher) (key : String) (paths : List String) : Sent :=
  dispatch c (newCmd2Both "JSON.GET" key none (variadic paths))

/-- Go `cmdable.JSONGetWithArgs`; `options` is a pointer, `none` when nil.  The
loop over `paths` stands inside `if options != nil`. -/
def cmdable.JSONGetWithArgs (c : Dispatcher) (key : String) (options : Option JSONGetArgs)
    (paths : List String) : Sent :=
  let args : Slice Value := none
  let args :=
    match options with
    | none => args
    | some o =>
      let args :=
        if o.Indent ≠ "" then Slice.append args [.string "INDENT", .string o.Indent] else args
      let args :=
        if o.Newline ≠ "" then Slice.append args [.string "NEWLINE", .string o.Newline] else args
      let args :=
        if o.Space ≠ "" then Slice.append args [.string "SPACE", .string o.Space] else args
      paths.foldl (fun a path => Slice.append a [.string path]) args
  dispatch c (newCmd2Both "JSON.GET" key args none)

/-- The tokens a command carries after its positional slots: the interface
tail followed by the string tail. -/
def Command.tail (cmd : Command) : List Value :=
  Slice.elems cmd.args ++ (Slice.elems cmd.argsS).map Value.string

/-! ## `probabilistic.go`: `CF.RESERVE`, `CMS.MERGE` -/

/-- Go `cmdable.CFReserveExpansion`. -/
def cmdable.CFReserveExpansion (c : Dispatcher) (key : String) (capacity expansion : Int) :
    Sent :=
  dispatch c (newCmd2 "CF.RESERVE" key
    (some [.int64 capacity, .string "EXPANSION", .int64 expansion]))

/-- Go `cmdable.CFReserveBucketSize`. -/
def cmdable.CFReserveBucketSize (c : Dispatcher) (key : String) (capacity bucketsize : Int) :
    Sent :=
  dispatch c (newCmd2 "CF.RESERVE" key
    (some [.int64 capacity, .string "BUCKETSIZE", .int64 bucketsize]))

/-- Go `cmdable.CFReserveMaxIterations`.  It calls the variadic constructor
`NewStatusCmd(ctx, args...)` with the three arguments `"CF.RESERVE"`, `key` and
the slice `[]interface{}{capacity, "MAXITERATIONS", maxiterations}`. -/
def cmdable.CFReserveMaxIterations (c : Dispatcher) (key : String)
    (capacity maxiterations : Int) : Sent :=
  dispatch c (newCmd (some [.string "CF.RESERVE", .string key,
    .ifaceSlice (some [.int64 capacity, .string "MAXITERATIONS", .int64 maxiterations])]))

/-- The loop `for k, w := range sourceKeys` of `CMSMergeWithWeight` over the
entries in range order, with the counter `i`. -/
def cmdable.CMSMergeWithWeight.loop (n : Nat) :
    List (String × Int) → Nat → List Value → List Value
  | [], _, args => args
  | (k, w) :: rest, i, args =>
    cmdable.CMSMergeWithWeight.loop n rest (i + 1)
      ((args.set (1 + i) (.string k)).set (1 + n + 1 + i) (.int64 w))

/-- Go `cmdable.CMSMergeWithWeight`; `sourceKeys` is the map, given by its
entries in range order.  `make` gives `1+n+1+n` nil interface values, and every
index written lies below that length. -/
def cmdable.CMSMergeWithWeight (c : Dispatcher) (destKey : String)
    (sourceKeys : List (String × Int)) : Sent :=
  let n := sourceKeys.length
  let args : Slice Value :=
    if n > 0 then
      let args := List.replicate (1 + n + 1 + n) Value.nil
      let args := args.set 0 (.int .Int n)
      let args := args.set (1 + n) (.string "WEIGHTS")
      some (cmdable.CMSMergeWithWeight.loop n sourceKeys 0 args)
    else some [.int .Int 0]
  dispatch c (newCmd2 "CMS.MERGE" destKey args)

/-! ## `commands.go`: `MODULE LOADEX`, `shutdown` -/

/-- Go `ModuleLoadexConfig`; `Conf` is the map, given by its entries in range
order. -/
structure ModuleLoadexConfig where
  Path : String
  Conf : List (String × Value)
  Args : Option (List Value)

/-- Go `ModuleLoadexConfig.toArgs`. -/
def ModuleLoadexConfig.toArgs (c : ModuleLoadexConfig) : Slice Value :=
  let args : Slice Value := some [.string "MODULE", .string "LOADEX", .string c.Path]
  let args := c.Conf.foldl (fun a kv => Slice.append a [.string "CONFIG", .string kv.1, kv.2]) args
  (Slice.elems c.Args).foldl (fun a arg => Slice.append a [.string "ARGS", arg]) args

/-- The argument list the documented grammar
`MODULE LOADEX path [CONFIG name value ...] [ARGS args [args ...]]` asks for. -/
def ModuleLoadexConfig.grammar (c : ModuleLoadexConfig) : List Value :=
  [.string "MODULE", .string "LOADEX", .string c.Path]
    ++ c.Conf.flatMap (fun kv => [.string "CONFIG", .string kv.1, kv.2])
    ++ (match Slice.elems c.Args with
        | [] => []
        | a :: rest => .string "ARGS" :: a :: rest)

/-- Go `cmdable.ModuleLoadex`, with the variadic constructor
`NewStringCmd(ctx, conf.toArgs()...)`. -/
def cmdable.ModuleLoadex (c : Dispatcher) (conf : ModuleLoadexConfig) : Sent :=
  dispatch c (newCmd conf.toArgs)

/-- Go `cmdable.shutdown`; `cmd.Err()` returns the field `err`. -/
def cmdable.shutdown (c : Dispatcher) (modifier : String) : Sent :=
  let sent := dispatch c (newCmd2 "shutdown" modifier none)
  let cmd := sent.cmd
  let cmd :=
    match cmd.err with
    | some err => if err = .EOF then { cmd with err := none } else cmd
    | none => { cmd with err := some (.other cmd.val), val := "" }
  ⟨cmd, sent.dispatched⟩

/-- Go `cmdable.Shutdown`. -/
def cmdable.Shutdown (c : Dispatcher) : Sent := cmdable.shutdown c ""

/-- Go `cmdable.ShutdownSave`. -/
def cmdable.ShutdownSave (c : Dispatcher) : Sent := cmdable.shutdown c "save"

/-- Go `cmdable.ShutdownNoSave`. -/
def cmdable.ShutdownNoSave (c : Dispatcher) : Sent := cmdable.shutdown c "nosave"

/-! ## Auxiliary lemmas -/

namespace Slice

variable {α β : Type}

@[simp] theorem elems_none : elems (none : Slice α) = [] := rfl

@[simp] theorem elems_some (xs : List α) : elems (some xs : Slice α) = xs := rfl

@[simp] theorem elems_append (s : Slice α) (xs : List α) :
    elems (append s xs) = elems s ++ xs := by
  cases xs <;> simp [append]

@[simp] theorem elems_clip (s : Slice α) : elems (clip s) = elems s := by
  cases s <;> simp [clip, elems]

theorem clip_eq (s : Slice α) : clip s = s := by
  cases s <;> simp [clip]

theorem len_eq_zero_elems {s : Slice α} (h : ¬ len s > 0) : elems s = [] := by
  simpa [len] using h

theorem elems_foldl_one (f : β → α) (xs : List β) (dst : Slice α) :
    elems (xs.foldl (fun d x => append d [f x]) dst) = elems dst ++ xs.map f := by
  induction xs generalizing dst with
  | nil => simp
  | cons x xs ih => simp [ih]

theorem elems_foldl_two (f g : β → α) (xs : List β) (dst : Slice α) :
    elems (xs.foldl (fun d x => append d [f x, g x]) dst)
      = elems dst ++ xs.flatMap fun x => [f x, g x] := by
  induction xs generalizing dst with
  | nil => simp
  | cons x xs ih => simp [ih]

end Slice

theorem appendField_eq (dst : Slice Value) (f : StructField Value) :
    appendField dst f = if f.emitted then Slice.append dst f.pair else dst := by
  unfold appendField StructField.emitted StructField.pair StructField.name StructField.opt
  by_cases h1 : f.tag = ""
  · simp [h1]
  by_cases h2 : f.tag = "-"
  · simp [h2]
  by_cases h3 : (Cut f.tag ",").1 = ""
  · simp [h1, h2, h3]
  by_cases h4 : (omitEmpty (Cut f.tag ",").2.1 && isEmptyValue f.value) = true
  · simp [h1, h2, h3, h4]
  · cases h5 : f.exported <;> simp [h1, h2, h3, h4, h5]

theorem elems_appendField (dst : Slice Value) (f : StructField Value) :
    Slice.elems (appendField dst f)
      = Slice.elems dst ++ if f.emitted then f.pair else [] := by
  rw [appendField_eq]
  split <;> simp

theorem elems_foldl_appendField (fs : List (StructField Value)) (dst : Slice Value) :
    Slice.elems (fs.foldl appendField dst)
      = Slice.elems dst ++ (fs.filter StructField.emitted).flatMap StructField.pair := by
  induction fs generalizing dst with
  | nil => simp
  | cons f fs ih =>
    rw [List.foldl_cons, ih, elems_appendField]
    by_cases h : f.emitted = true <;> simp [h]

theorem appendStructField_split (dst : Slice Value) (pre post : List (StructField Value))
    (f : StructField Value) :
    appendStructField dst (.struct (pre ++ f :: post))
      = appendStructField (appendField (appendStructField dst (.struct pre)) f)
          (.struct post) := by
  simp [appendStructField, Value.fields, List.foldl_append]

theorem appendArg_scalar (dst : Slice Value) (a : Value) (h : a.isScalar = true) :
    appendArg dst a = .ok (Slice.append dst [a], none) := by
  cases a <;> simp [Value.isScalar] at h <;>
    first
    | rfl
    | (rename_i k _; cases k <;> rfl)
    | (rename_i k _ _; cases k <;> rfl)

theorem appendStructField_skip (dst : Slice Value) (pre post : List (StructField Value))
    (f : StructField Value) (h : appendField (appendStructField dst (.struct pre)) f
      = appendStructField dst (.struct pre)) :
    appendStructField dst (.struct (pre ++ f :: post))
      = appendStructField dst (.struct (pre ++ post)) := by
  rw [appendStructField_split, h]
  simp [appendStructField, Value.fields, List.foldl_append]

theorem appendArgs_one (dst src : Slice Value) (a : Value) (h : Slice.elems src = [a]) :
    appendArgs dst src = appendArg dst a := by
  simp [appendArgs, h]

theorem appendArgs_many (dst src : Slice Value) (h : ∀ a, Slice.elems src ≠ [a]) :
    ∃ r, appendArgs dst src = .ok r ∧ tokens r = Slice.elems dst ++ Slice.elems src := by
  unfold appendArgs
  split
  · rename_i a ha
    exact absurd ha (h a)
  · cases dst with
    | none => exact ⟨_, rfl, by simp [tokens]⟩
    | some d => exact ⟨_, rfl, by simp [tokens]⟩

theorem appendArg_ifaceSlice (dst : Slice Value) (a : Option (List Value)) :
    ∃ r, appendArg dst (.ifaceSlice a) = .ok r ∧ tokens r = Slice.elems dst ++ Slice.elems a := by
  unfold appendArg
  by_cases h : Slice.len dst > 0
  · exact ⟨_, if_pos h, by simp [tokens]⟩
  · exact ⟨_, if_neg h, by simp [tokens, Slice.len_eq_zero_elems h]⟩

theorem appendArg_stringSlice (dst : Slice Value) (a : Option (List String)) :
    ∃ r, appendArg dst (.stringSlice a) = .ok r
      ∧ tokens r = Slice.elems dst ++ (Slice.elems a).map Value.string := by
  unfold appendArg
  by_cases h : Slice.len dst > 0
  · exact ⟨_, if_pos h, by simp [tokens, Slice.elems_foldl_one]⟩
  · exact ⟨_, if_neg h, by simp [tokens, Slice.len_eq_zero_elems h]⟩

theorem expandEach_scalars (acc l : List Value) (h : ∀ a ∈ l, a.isScalar = true) :
    expandEach acc l = .ok (acc ++ l) := by
  induction l generalizing acc with
  | nil => simp [expandEach]
  | cons a l ih =>
    have ha : a.isScalar = true := h a (List.mem_cons_self a l)
    rw [expandEach, appendArg_scalar _ _ ha]
    simp only [tokens, Slice.elems_append, Slice.elems_some, Slice.elems_none, List.map_nil,
      List.append_nil]
    rw [ih _ fun b hb => h b (List.mem_cons_of_mem a hb)]
    simp

theorem pairs_flatMap {β : Type} (f g : β → Value) (es : List β) :
    pairs (es.flatMap fun e => [f e, g e]) = es.map fun e => (f e, g e) := by
  induction es with
  | nil => rfl
  | cons e es ih =>
    show pairs (f e :: g e :: es.flatMap fun e => [f e, g e]) = _
    simp [pairs, ih]

theorem getElem?_flatMap_two {β : Type} (f g : β → Value) (es : List β) (i : Nat) :
    (es.flatMap fun e => [f e, g e])[2 * i]? = es[i]?.map f
      ∧ (es.flatMap fun e => [f e, g e])[2 * i + 1]? = es[i]?.map g := by
  induction es generalizing i with
  | nil => simp
  | cons e es ih =>
    cases i with
    | zero => simp
    | succ i =>
      have h1 : 2 * (i + 1) = 2 * i + 1 + 1 := by ring
      rw [h1]
      simpa using ih i

theorem tokens_ifaceMap (es : List (String × Value)) :
    ∃ r, appendArg none (.ifaceMap es) = .ok r
      ∧ tokens r = es.flatMap fun e => [Value.string e.1, e.2] := by
  refine ⟨_, rfl, ?_⟩
  simp [tokens, Slice.elems_foldl_two (fun e : String × Value => Value.string e.1) fun e => e.2]

theorem tokens_stringMap (es : List (String × String)) :
    ∃ r, appendArg none (.stringMap es) = .ok r
      ∧ tokens r = es.flatMap fun e => [Value.string e.1, Value.string e.2] := by
  refine ⟨_, rfl, ?_⟩
  simp only [tokens, Slice.elems_none, List.nil_append]
  rw [Slice.elems_foldl_two (fun e : String × String => e.1) fun e => e.2]
  induction es with
  | nil => rfl
  | cons e es ih => simpa using ih

/-! ## Flattening one slice against flattening its elements -/

/-- C1, as stated, fails: for `xs = []interface{}{[]string{"a", "b"}}` and a
nil prefix, `xs` passed as one slice argument gives the single token
`[]string{"a", "b"}`, while its one element passed as the positional argument
is itself expanded into the two tokens `a`, `b`. -/
theorem appendArgs_nested_slice_differs :
    appendArgs none (some [.ifaceSlice (some [.stringSlice (some ["a", "b"])])])
        = .ok (some [.stringSlice (some ["a", "b"])], none)
      ∧ appendArgs none (some [.stringSlice (some ["a", "b"])])
        = .ok (none, some ["a", "b"])
      ∧ tokens (some [.stringSlice (some ["a", "b"])], none)
        ≠ tokens (none, some ["a", "b"]) := by
  refine ⟨rfl, rfl, ?_⟩
  intro h
  have hlen := congrArg List.length h
  simp [tokens] at hlen

/-- C1, amended: for every prefix `dst`, flattening a `[]interface{}` `xs` passed
as one slice argument yields the same tokens, in the same order, as flattening
its elements passed as separate positional arguments `src`, provided `xs` does
not consist of exactly one element that is itself expanded (when `xs` has
exactly one element, that element is a pass-through scalar); for a `[]string`
the two always agree.  String tokens count after the interface tokens, and in
both cases the tokens are `dst` followed by the elements. -/
theorem appendArgs_slice_eq_positional (dst xs src : Slice Value)
    (hsrc : Slice.elems src = Slice.elems xs)
    (h : ∀ x, Slice.elems xs = [x] → x.isScalar = true) :
    (∃ r1 r2, appendArgs dst (some [.ifaceSlice xs]) = .ok r1
        ∧ appendArgs dst src = .ok r2
        ∧ tokens r1 = tokens r2
        ∧ tokens r1 = Slice.elems dst ++ Slice.elems xs)
      ∧ ∀ (ss : Option (List String)) (ssrc : Slice Value),
          Slice.elems ssrc = (Slice.elems ss).map Value.string →
          ∃ r1 r2, appendArgs dst (some [.stringSlice ss]) = .ok r1
            ∧ appendArgs dst ssrc = .ok r2
            ∧ tokens r1 = tokens r2
            ∧ tokens r1 = Slice.elems dst ++ (Slice.elems ss).map Value.string := by
  constructor
  · obtain ⟨r1, h1, t1⟩ := appendArg_ifaceSlice dst xs
    rw [appendArgs_one dst (some [.ifaceSlice xs]) _ rfl]
    by_cases hone : ∃ x, Slice.elems xs = [x]
    · obtain ⟨x, hx⟩ := hone
      refine ⟨r1, (Slice.append dst [x], none), h1, ?_, ?_, t1⟩
      · rw [appendArgs_one dst src x (hsrc.trans hx), appendArg_scalar dst x (h x hx)]
      · rw [t1, hx]
        simp [tokens]
    · obtain ⟨r2, h2, t2⟩ := appendArgs_many dst src fun a ha => hone ⟨a, hsrc ▸ ha⟩
      exact ⟨r1, r2, h1, h2, by rw [t1, t2, hsrc], t1⟩
  · intro ss ssrc hs
    obtain ⟨r1, h1, t1⟩ := appendArg_stringSlice dst ss
    rw [appendArgs_one dst (some [.stringSlice ss]) _ rfl]
    by_cases hone : ∃ x, Slice.elems ssrc = [x]
    · obtain ⟨x, hx⟩ := hone
      have hmap : (Slice.elems ss).map Value.string = [x] := hs ▸ hx
      have hsc : x.isScalar = true := by
        cases hss : Slice.elems ss with
        | nil => simp [hss] at hmap
        | cons s rest =>
          rw [hss] at hmap
          simp only [List.map_cons, List.cons.injEq] at hmap
          rw [← hmap.1]
          rfl
      refine ⟨r1, (Slice.append dst [x], none), h1, ?_, ?_, t1⟩
      · rw [appendArgs_one dst ssrc x hx, appendArg_scalar dst x hsc]
      · rw [t1, hmap]
        simp [tokens]
    · obtain ⟨r2, h2, t2⟩ := appendArgs_many dst ssrc fun a ha => hone ⟨a, ha⟩
      exact ⟨r1, r2, h1, h2, by rw [t1, t2, hs], t1⟩

/-- Witness for C1 (amended): prefix `hset, myhash` and `xs` holding the single
scalar `int64(5)`. -/
theorem appendArgs_slice_eq_positional_witness :
    ∃ r1 r2, appendArgs (some [.string "hset", .string "myhash"])
          (some [.ifaceSlice (some [.int64 5])]) = .ok r1
      ∧ appendArgs (some [.string "hset", .string "myhash"]) (some [.int64 5]) = .ok r2
      ∧ tokens r1 = tokens r2
      ∧ tokens r1 = [.string "hset", .string "myhash", .int64 5] :=
  (appendArgs_slice_eq_positional (some [.string "hset", .string "myhash"])
    (some [.int64 5]) (some [.int64 5]) rfl
    (fun x hx => by
      have hx5 : x = Value.int64 5 := by
        simpa using (List.cons.inj hx).1.symm
      rw [hx5]; rfl)).1

/-! ## Several arguments -/

/-- C2, as stated, fails: with the two arguments `"f"` and `[]string{"a", "b"}`
`appendArgs` returns the two arguments themselves, whereas classifying and
expanding each argument in order gives the three tokens `f`, `a`, `b`. -/
theorem appendArgs_many_not_expanded :
    appendArgs none (some [.string "f", .stringSlice (some ["a", "b"])])
        = .ok (some [.string "f", .stringSlice (some ["a", "b"])], none)
      ∧ expandEach [] [.string "f", .stringSlice (some ["a", "b"])]
        = .ok [.string "f", .string "a", .string "b"]
      ∧ tokens (some [.string "f", .stringSlice (some ["a", "b"])], none)
        ≠ [.string "f", .string "a", .string "b"] := by
  refine ⟨rfl, rfl, ?_⟩
  intro h
  have hlen := congrArg List.length h
  simp [tokens] at hlen

/-- C2, amended: for every argument list with two or more arguments,
`appendArgs` does not classify the arguments: its output is `dst` followed by
the arguments themselves, one token each, in order.  This is the concatenation
of the individual expansions whenever every argument is a pass-through
scalar. -/
theorem appendArgs_many_verbatim (dst src : Slice Value) (h : 2 ≤ Slice.len src) :
    ∃ r, appendArgs dst src = .ok r
      ∧ tokens r = Slice.elems dst ++ Slice.elems src
      ∧ ((∀ a ∈ Slice.elems src, a.isScalar = true) →
          expandEach (Slice.elems dst) (Slice.elems src) = .ok (tokens r)) := by
  have hmany : ∀ a, Slice.elems src ≠ [a] := by
    intro a ha
    simp [Slice.len, ha] at h
  obtain ⟨r, hr, ht⟩ := appendArgs_many dst src hmany
  exact ⟨r, hr, ht, fun hs => by rw [ht]; exact expandEach_scalars _ _ hs⟩

/-- Witness for C2 (amended): prefix `hset, myhash` and the arguments
`"key1"`, `"value1"`. -/
theorem appendArgs_many_verbatim_witness :
    ∃ r, appendArgs (some [.string "hset", .string "myhash"])
          (some [.string "key1", .string "value1"]) = .ok r
      ∧ tokens r = [.string "hset", .string "myhash", .string "key1", .string "value1"]
      ∧ ((∀ a ∈ [Value.string "key1", Value.string "value1"], a.isScalar = true) →
          expandEach [.string "hset", .string "myhash"]
            [.string "key1", .string "value1"] = .ok (tokens r)) :=
  appendArgs_many_verbatim (some [.string "hset", .string "myhash"])
    (some [.string "key1", .string "value1"]) (by decide)

/-! ## Maps -/

theorem map_tokens_spec {β : Type} (f g : β → Value) (m es : List β) (h : es.Perm m) :
    (es.flatMap fun e => [f e, g e]).length = 2 * m.length
      ∧ (pairs (es.flatMap fun e => [f e, g e])).Perm (m.map fun e => (f e, g e))
      ∧ ∀ i, i < m.length → ∃ e ∈ m,
          (es.flatMap fun e => [f e, g e])[2 * i]? = some (f e)
            ∧ (es.flatMap fun e => [f e, g e])[2 * i + 1]? = some (g e) := by
  refine ⟨?_, ?_, ?_⟩
  · rw [← h.length_eq]
    clear h
    induction es with
    | nil => rfl
    | cons e es ih => simp [List.flatMap_cons, ih]; ring
  · rw [pairs_flatMap]
    exact h.map _
  · intro i hi
    have hi2 : i < es.length := h.length_eq ▸ hi
    refine ⟨es[i], h.subset (List.getElem_mem hi2), ?_⟩
    have := getElem?_flatMap_two f g es i
    simpa [List.getElem?_eq_getElem hi2] using this

/-- C3: for a map `m` of type `map[string]interface{}` (and likewise for a map
`sm` of type `map[string]string`), whatever the order `es` in which the entries
are visited, `appendArg(nil, m)` returns exactly `2 * len(m)` tokens; the tokens
at positions `2i` and `2i+1` are a key of `m` and the value `m` holds for it;
and the token pairs are the entries of `m`, each exactly once. -/
theorem appendArg_map_pairs (m es : List (String × Value)) (sm ses : List (String × String))
    (h : es.Perm m) (hs : ses.Perm sm) :
    (∃ r, appendArg none (.ifaceMap es) = .ok r
        ∧ (tokens r).length = 2 * m.length
        ∧ (pairs (tokens r)).Perm (m.map entryPair)
        ∧ ∀ i, i < m.length → ∃ e ∈ m,
            (tokens r)[2 * i]? = some (.string e.1) ∧ (tokens r)[2 * i + 1]? = some e.2)
      ∧ ∃ r, appendArg none (.stringMap ses) = .ok r
        ∧ (tokens r).length = 2 * sm.length
        ∧ (pairs (tokens r)).Perm (sm.map stringEntryPair)
        ∧ ∀ i, i < sm.length → ∃ e ∈ sm,
            (tokens r)[2 * i]? = some (.string e.1)
              ∧ (tokens r)[2 * i + 1]? = some (.string e.2) := by
  constructor
  · obtain ⟨r, hr, ht⟩ := tokens_ifaceMap es
    have hspec := map_tokens_spec (fun e : String × Value => Value.string e.1)
      (fun e => e.2) m es h
    exact ⟨r, hr, by rw [ht]; exact hspec.1, by rw [ht]; exact hspec.2.1,
      by rw [ht]; exact hspec.2.2⟩
  · obtain ⟨r, hr, ht⟩ := tokens_stringMap ses
    have hspec := map_tokens_spec (fun e : String × String => Value.string e.1)
      (fun e => Value.string e.2) sm ses hs
    exact ⟨r, hr, by rw [ht]; exact hspec.1, by rw [ht]; exact hspec.2.1,
      by rw [ht]; exact hspec.2.2⟩

/-- Witness for C3: the map `{"a": 1, "b": 2}` visited in the order `b`, `a`
gives 4 tokens holding the pairs `(a, 1)` and `(b, 2)`. -/
theorem appendArg_map_pairs_witness :
    ∃ r, appendArg none (.ifaceMap [("b", .int .Int 2), ("a", .int .Int 1)]) = .ok r
      ∧ (tokens r).length = 2 * [("a", Value.int .Int 1), ("b", Value.int .Int 2)].length
      ∧ (pairs (tokens r)).Perm
          ([("a", Value.int .Int 1), ("b", Value.int .Int 2)].map entryPair)
      ∧ ∀ i, i < [("a", Value.int .Int 1), ("b", Value.int .Int 2)].length →
          ∃ e ∈ [("a", Value.int .Int 1), ("b", Value.int .Int 2)],
            (tokens r)[2 * i]? = some (.string e.1) ∧ (tokens r)[2 * i + 1]? = some e.2 :=
  (appendArg_map_pairs [("a", .int .Int 1), ("b", .int .Int 2)]
    [("b", .int .Int 2), ("a", .int .Int 1)] [("a", "1"), ("b", "2")]
    [("b", "2"), ("a", "1")] (List.Perm.swap _ _ _) (List.Perm.swap _ _ _)).1

/-! ## Struct fields -/

/-- C4: for every struct value `v` and every prefix `dst`,
`appendStructField(dst, v)` is `dst` followed, for the emitted fields of `v` in
declaration order, by the field's tag name and then the field's value; the
number of appended tokens is twice the number of emitted fields. -/
theorem appendStructField_emits (dst : Slice Value) (v : Value) :
    Slice.elems (appendStructField dst v)
        = Slice.elems dst ++ (v.fields.filter StructField.emitted).flatMap StructField.pair
      ∧ (Slice.elems (appendStructField dst v)).length
        = (Slice.elems dst).length + 2 * (v.fields.filter StructField.emitted).length := by
  have h := elems_foldl_appendField v.fields dst
  refine ⟨h, ?_⟩
  unfold appendStructField
  rw [h, List.length_append]
  congr 1
  induction v.fields.filter StructField.emitted with
  | nil => rfl
  | cons f fs ih => simp [List.flatMap_cons, StructField.pair, ih]; ring

/-- Witness for C4: a struct with fields tagged `key1` and `key2` holding
`value1` and `value2` yields `key1, value1, key2, value2` after the prefix. -/
theorem appendStructField_emits_witness :
    Slice.elems (appendStructField (some [.string "hset", .string "myhash"])
        (.struct [⟨"key1", true, .string "value1"⟩, ⟨"key2", true, .string "value2"⟩]))
      = [.string "hset", .string "myhash", .string "key1", .string "value1",
          .string "key2", .string "value2"] :=
  (appendStructField_emits (some [.string "hset", .string "myhash"])
    (.struct [⟨"key1", true, .string "value1"⟩, ⟨"key2", true, .string "value2"⟩])).1.trans
    rfl

/-- C5: a field that has no redis tag, or whose redis tag is exactly `-`,
contributes no token, whatever its value: its loop iteration leaves the tokens
unchanged, and the struct yields the same output as the struct without that
field. -/
theorem appendStructField_untagged (dst : Slice Value) (pre post : List (StructField Value))
    (f : StructField Value) (h : f.tag = "" ∨ f.tag = "-") :
    appendField dst f = dst
      ∧ appendStructField dst (.struct (pre ++ f :: post))
        = appendStructField dst (.struct (pre ++ post)) := by
  have hskip : ∀ d, appendField d f = d := by
    intro d
    unfold appendField
    simp [h]
  exact ⟨hskip dst, appendStructField_skip dst pre post f (hskip _)⟩

/-- Witness for C5: between `key1` and `key2` a field tagged `-` holding
`"secret"`. -/
theorem appendStructField_untagged_witness :
    appendField none ⟨"-", true, .string "secret"⟩ = none
      ∧ appendStructField none (.struct ([⟨"key1", true, .string "value1"⟩]
          ++ ⟨"-", true, .string "secret"⟩ :: [⟨"key2", true, .string "value2"⟩]))
        = appendStructField none (.struct ([⟨"key1", true, .string "value1"⟩]
          ++ [⟨"key2", true, .string "value2"⟩])) :=
  appendStructField_untagged none [⟨"key1", true, .string "value1"⟩]
    [⟨"key2", true, .string "value2"⟩] ⟨"-", true, .string "secret"⟩ (Or.inr rfl)

/-! ## `omitempty` -/

theorem utf8ByteSize_beq_zero (s : String) : (s.utf8ByteSize == 0) = (s == "") := by
  cases s with
  | mk cs =>
    cases cs with
    | nil => rfl
    | cons c cs =>
      have hpos := Char.utf8Size_pos c
      have h1 : (String.mk (c :: cs)).utf8ByteSize ≠ 0 := by
        simp only [String.utf8ByteSize, String.utf8ByteSize.go]
        omega
      have h2 : String.mk (c :: cs) ≠ "" := by
        intro h
        have := congrArg String.data h
        simp at this
      rw [beq_eq_false_iff_ne.mpr h1, beq_eq_false_iff_ne.mpr h2]

theorem slice_len_beq_zero {α : Type} (s : Slice α) :
    (Slice.len s == 0) = (Slice.elems s).isEmpty := by
  cases h : Slice.elems s <;> simp [Slice.len, h]

theorem list_length_beq_zero {α : Type} (l : List α) : (l.length == 0) = l.isEmpty := by
  cases l <;> simp

theorem isEmptyValue_marshaler (v : Value) : isEmptyValue (.marshaler v) = isEmptyValue v :=
  rfl

theorem isEmptyValue_eq_isDefault (v : Value) : isEmptyValue v = v.isDefault := by
  match v with
  | .marshaler v =>
    rw [isEmptyValue_marshaler, isEmptyValue_eq_isDefault v]
    rfl
  | .nil => rfl
  | .stringSlice xs => exact slice_len_beq_zero xs
  | .ifaceSlice xs => exact slice_len_beq_zero xs
  | .ip xs => exact slice_len_beq_zero xs
  | .slice xs => exact slice_len_beq_zero xs
  | .ifaceMap es => exact list_length_beq_zero es
  | .stringMap es => exact list_length_beq_zero es
  | .map es => exact list_length_beq_zero es
  | .array xs => exact list_length_beq_zero xs
  | .string s => exact utf8ByteSize_beq_zero s
  | .int64 _ => rfl
  | .time _ _ => rfl
  | .duration _ => rfl
  | .bool _ => rfl
  | .int k _ => cases k <;> rfl
  | .uint k _ => cases k <;> rfl
  | .float k _ => cases k <;> rfl
  | .complex k _ _ => cases k <;> rfl
  | .nilPtr _ => rfl
  | .ptrTo _ => rfl
  | .struct _ => rfl
  | .chan _ => rfl
  | .func _ => rfl
  | .unsafePointer _ => rfl
  | .iface w => cases w <;> rfl

theorem isDefault_of_isSet (v : Value) (h : v.isSet = true) : v.isDefault = false := by
  match v with
  | .marshaler v =>
    have h1 : v.isSet = true := h
    exact isDefault_of_isSet v h1
  | .nil => simp [Value.isSet] at h
  | .stringSlice xs => simpa [Value.isSet, Value.isDefault] using h
  | .ifaceSlice xs => simpa [Value.isSet, Value.isDefault] using h
  | .ip xs => simpa [Value.isSet, Value.isDefault] using h
  | .slice xs => simpa [Value.isSet, Value.isDefault] using h
  | .ifaceMap es => simpa [Value.isSet, Value.isDefault] using h
  | .stringMap es => simpa [Value.isSet, Value.isDefault] using h
  | .map es => simpa [Value.isSet, Value.isDefault] using h
  | .array xs => simpa [Value.isSet, Value.isDefault] using h
  | .string s => simpa [Value.isSet, Value.isDefault] using h
  | .int64 _ => simpa [Value.isSet, Value.isDefault] using h
  | .time _ _ => rfl
  | .duration _ => simpa [Value.isSet, Value.isDefault] using h
  | .bool _ => simpa [Value.isSet, Value.isDefault] using h
  | .int k _ => simpa [Value.isSet, Value.isDefault] using h
  | .uint k _ => simpa [Value.isSet, Value.isDefault] using h
  | .float k _ => cases k <;> simpa [Value.isSet, Value.isDefault] using h
  | .complex k _ _ => rfl
  | .nilPtr _ => simp [Value.isSet] at h
  | .ptrTo _ => rfl
  | .struct _ => rfl
  | .chan _ => rfl
  | .func _ => rfl
  | .unsafePointer _ => rfl
  | .iface w => cases w <;> first | rfl | simp [Value.isSet] at h

theorem omitEmpty_empty : omitEmpty "" = false := rfl

theorem tag_of_opt_ne_empty (tag : String) (h : (Cut tag ",").2.1 ≠ "") :
    tag ≠ "" ∧ tag ≠ "-" := by
  constructor
  · rintro rfl
    exact h rfl
  · rintro rfl
    exact h rfl

theorem cutChars_comma_none (cs : List Char) (h : ',' ∉ cs) : cutChars [','] cs = none := by
  induction cs with
  | nil => rfl
  | cons c cs ih =>
    have hc : c ≠ ',' := fun e => h (e ▸ List.mem_cons_self c cs)
    have hcs : ',' ∉ cs := fun m => h (List.mem_cons_of_mem c m)
    have hp : List.isPrefixOf [','] (c :: cs) = false := by
      simp [List.isPrefixOf, Ne.symm hc]
    simp [cutChars, hp, ih hcs]

theorem cutChars_comma_some (a b : List Char) (h : ',' ∉ a) :
    cutChars [','] (a ++ ',' :: b) = some (a, b) := by
  induction a with
  | nil => simp [cutChars, List.isPrefixOf]
  | cons c a ih =>
    have hc : c ≠ ',' := fun e => h (e ▸ List.mem_cons_self c a)
    have ha : ',' ∉ a := fun m => h (List.mem_cons_of_mem c m)
    have hp : List.isPrefixOf [','] (c :: (a ++ ',' :: b)) = false := by
      simp [List.isPrefixOf, Ne.symm hc]
    simp [cutChars, hp, ih ha]

theorem cutChars_comma_cases (cs : List Char) :
    (',' ∉ cs ∧ cutChars [','] cs = none)
      ∨ ∃ a b, cs = a ++ ',' :: b ∧ ',' ∉ a ∧ cutChars [','] cs = some (a, b) := by
  by_cases h : ',' ∈ cs
  · right
    obtain ⟨a, b, hab, hna⟩ := List.eq_append_cons_of_mem h
    exact ⟨a, b, hab, hna, hab ▸ cutChars_comma_some a b hna⟩
  · exact Or.inl ⟨h, cutChars_comma_none cs h⟩

theorem splitOnComma_ne_nil (cs : List Char) : splitOnComma cs ≠ [] := by
  induction cs with
  | nil => simp [splitOnComma]
  | cons c cs ih =>
    unfold splitOnComma
    split
    · simp
    · split <;> simp

theorem splitOnComma_no_comma (cs : List Char) (h : ',' ∉ cs) : splitOnComma cs = [cs] := by
  induction cs with
  | nil => rfl
  | cons c cs ih =>
    have hc : c ≠ ',' := fun e => h (e ▸ List.mem_cons_self c cs)
    have hcs : ',' ∉ cs := fun m => h (List.mem_cons_of_mem c m)
    simp [splitOnComma, hc, ih hcs]

theorem splitOnComma_append (a b : List Char) (h : ',' ∉ a) :
    splitOnComma (a ++ ',' :: b) = a :: splitOnComma b := by
  induction a with
  | nil => simp [splitOnComma]
  | cons c a ih =>
    have hc : c ≠ ',' := fun e => h (e ▸ List.mem_cons_self c a)
    have ha : ',' ∉ a := fun m => h (List.mem_cons_of_mem c m)
    simp [splitOnComma, hc, ih ha]

/-- The text before the first comma and the text after it. -/
theorem Cut_comma (a b : List Char) (h : ',' ∉ a) :
    Cut ⟨a ++ ',' :: b⟩ "," = (⟨a⟩, ⟨b⟩, true) := by
  have hc : cutChars [','] (a ++ ',' :: b) = some (a, b) := cutChars_comma_some a b h
  show (match cutChars [','] (a ++ ',' :: b) with
    | some (before, after) => ((⟨before⟩ : String), (⟨after⟩ : String), true)
    | none => (⟨a ++ ',' :: b⟩, "", false)) = _
  rw [hc]

theorem Cut_no_comma (cs : List Char) (h : ',' ∉ cs) : Cut ⟨cs⟩ "," = (⟨cs⟩, "", false) := by
  have hc : cutChars [','] cs = none := cutChars_comma_none cs h
  show (match cutChars [','] cs with
    | some (before, after) => ((⟨before⟩ : String), (⟨after⟩ : String), true)
    | none => (⟨cs⟩, "", false)) = _
  rw [hc]

theorem omitEmptyLoop_empty (fuel : Nat) : omitEmptyLoop fuel "" = false := by
  cases fuel <;> rfl

theorem string_length_data (s : String) : s.data.length = s.length := by
  cases s
  rfl

theorem omitEmptyLoop_spec (fuel : Nat) (cs : List Char) (h : cs.length < fuel) :
    omitEmptyLoop fuel ⟨cs⟩ = decide ("omitempty".data ∈ splitOnComma cs) := by
  induction fuel generalizing cs with
  | zero => omega
  | succ fuel ih =>
    cases cs with
    | nil => rfl
    | cons c rest =>
      have hne : (String.mk (c :: rest)) ≠ "" := by
        intro e
        have := congrArg String.data e
        simp at this
      rcases cutChars_comma_cases (c :: rest) with ⟨hno, -⟩ | ⟨a, b, hab, hna, -⟩
      · have hcut := Cut_no_comma (c :: rest) hno
        simp only [omitEmptyLoop, hne, ne_eq, not_false_eq_true, if_true, hcut]
        rw [splitOnComma_no_comma _ hno]
        by_cases hname : (String.mk (c :: rest)) = "omitempty"
        · have hd : "omitempty".data = c :: rest := (congrArg String.data hname).symm
          rw [if_pos hname]
          exact (decide_eq_true (List.mem_singleton.mpr hd)).symm
        · have hd : ¬ "omitempty".data = c :: rest := fun e => hname (by rw [← e])
          rw [if_neg hname, omitEmptyLoop_empty]
          exact (decide_eq_false fun m => hd (List.mem_singleton.mp m)).symm
      · have hcut := Cut_comma a b hna
        have hlen : b.length < fuel := by
          have := congrArg List.length hab
          simp only [List.length_cons, List.length_append] at this h
          omega
        rw [hab]
        have hne2 : (String.mk (a ++ ',' :: b)) ≠ "" := hab ▸ hne
        simp only [omitEmptyLoop, hne2, ne_eq, not_false_eq_true, if_true, hcut]
        rw [splitOnComma_append a b hna, ih b hlen]
        by_cases hname : (String.mk a) = "omitempty"
        · have hd : "omitempty".data = a := (congrArg String.data hname).symm
          rw [if_pos hname]
          exact (decide_eq_true (hd ▸ List.mem_cons_self _ _)).symm
        · have hd : ¬ "omitempty".data = a := fun e => hname (by rw [← e])
          rw [if_neg hname]
          exact decide_eq_decide.mpr
            ⟨fun m => List.mem_cons_of_mem _ m, fun m => (List.mem_cons.mp m).resolve_left hd⟩

/-- The modifier list carries `omitempty` exactly when one of its
comma-separated items is the text `omitempty`. -/
theorem omitEmpty_iff (opt : String) :
    omitEmpty opt = true ↔ "omitempty".data ∈ splitOnComma opt.data := by
  unfold omitEmpty
  have h := omitEmptyLoop_spec (opt.length + 1) opt.data
    (by rw [string_length_data]; exact Nat.lt_succ_self _)
  have ho : (⟨opt.data⟩ : String) = opt := rfl
  rw [ho] at h
  rw [h]
  exact decide_eq_true_iff

/-- More iterations than `omitEmpty` allows never change the outcome. -/
theorem omitEmptyLoop_fuel (fuel : Nat) (opt : String) (h : opt.length < fuel) :
    omitEmptyLoop fuel opt = omitEmpty opt := by
  have ho : (⟨opt.data⟩ : String) = opt := rfl
  have h1 := omitEmptyLoop_spec fuel opt.data (by rw [string_length_data]; exact h)
  have h2 := omitEmptyLoop_spec (opt.length + 1) opt.data
    (by rw [string_length_data]; exact Nat.lt_succ_self _)
  rw [ho] at h1 h2
  rw [omitEmpty, h1, h2]

/-- C6, as stated, fails for struct-typed and fixed-size array fields: a field
tagged `name2,omitempty` holding the zero `time.Time` (a struct), or the zero
value of `[2]int`, is still emitted. -/
theorem omitempty_keeps_zero_struct_and_array :
    omitEmpty "omitempty" = true
      ∧ Value.isZero (.time 0 0) = true
      ∧ appendStructField none (.struct [⟨"name1", true, .string "value1"⟩,
          ⟨"name2,omitempty", true, .time 0 0⟩])
        = some [.string "name1", .string "value1", .string "name2", .time 0 0]
      ∧ Value.isZero (.array [.int .Int 0, .int .Int 0]) = true
      ∧ appendStructField none (.struct [⟨"name1", true, .string "value1"⟩,
          ⟨"name2,omitempty", true, .array [.int .Int 0, .int .Int 0]⟩])
        = some [.string "name1", .string "value1", .string "name2",
            .array [.int .Int 0, .int .Int 0]] :=
  ⟨rfl, rfl, rfl, rfl, rfl⟩

/-- C6, amended: for every field whose redis tag carries the omitempty modifier
and whose current value is empty in the sense of `isEmptyValue` (a zero-length
array, map, slice or string, `false`, an integer or floating-point zero, a nil
interface or pointer), `appendStructField` emits no token for that field: its
loop iteration leaves the tokens unchanged and the struct yields the same
output as the struct without the field. -/
theorem appendStructField_omits_default (dst : Slice Value)
    (pre post : List (StructField Value)) (f : StructField Value)
    (hopt : omitEmpty f.opt = true) (hdef : f.value.isDefault = true) :
    appendField dst f = dst
      ∧ appendStructField dst (.struct (pre ++ f :: post))
        = appendStructField dst (.struct (pre ++ post)) := by
  have hskip : ∀ d, appendField d f = d := by
    intro d
    rw [appendField_eq]
    have he : f.emitted = false := by
      simp [StructField.emitted, hopt, isEmptyValue_eq_isDefault, hdef]
    simp [he]
  exact ⟨hskip dst, appendStructField_skip dst pre post f (hskip _)⟩

/-- Witness for C6 (amended): fields tagged `name1` and `name2,omitempty` with
`name2` holding the empty string yield exactly `name1, value1`. -/
theorem appendStructField_omits_default_witness :
    (appendField none ⟨"name2,omitempty", true, .string ""⟩ = none
      ∧ appendStructField none (.struct ([⟨"name1", true, .string "value1"⟩]
          ++ ⟨"name2,omitempty", true, .string ""⟩ :: []))
        = appendStructField none (.struct ([⟨"name1", true, .string "value1"⟩] ++ [])))
      ∧ appendStructField none (.struct [⟨"name1", true, .string "value1"⟩,
          ⟨"name2,omitempty", true, .string ""⟩])
        = some [.string "name1", .string "value1"] :=
  ⟨appendStructField_omits_default none [⟨"name1", true, .string "value1"⟩] []
    ⟨"name2,omitempty", true, .string ""⟩ rfl rfl, rfl⟩

/-- C7: the omitempty modifier suppresses a field only when its value is empty
or zero.  For a field with a non-empty tag name: if it is exported, carries
omitempty and holds a non-empty array, map, slice or string, `true`, a non-zero
number or a non-nil interface or pointer, its (name, value) pair is appended
(in the loop iteration and in the output of the whole struct); and if it does
not carry omitempty, whether it is emitted does not depend on its value (only
on the tag being `-` and on the field being exported). -/
theorem omitempty_suppresses_only_empty (dst : Slice Value)
    (pre post : List (StructField Value)) (tag : String) (v : Value)
    (hname : (Cut tag ",").1 ≠ "") :
    (omitEmpty (Cut tag ",").2.1 = true → v.isSet = true →
        appendField dst ⟨tag, true, v⟩
            = Slice.append dst [.string (Cut tag ",").1, v.toInterface]
          ∧ appendStructField dst (.struct (pre ++ ⟨tag, true, v⟩ :: post))
            = appendStructField (Slice.append (appendStructField dst (.struct pre))
                [.string (Cut tag ",").1, v.toInterface]) (.struct post))
      ∧ (omitEmpty (Cut tag ",").2.1 = false → ∀ (w : Value) (exported : Bool),
          appendField dst ⟨tag, exported, w⟩
            = if tag = "-" ∨ exported = false then dst
              else Slice.append dst [.string (Cut tag ",").1, w.toInterface]) := by
  have htag : tag ≠ "" := by
    rintro rfl
    exact hname rfl
  constructor
  · intro hopt hset
    have hopt_ne : (Cut tag ",").2.1 ≠ "" := by
      intro e
      rw [e] at hopt
      exact Bool.false_ne_true hopt
    have hdash : tag ≠ "-" := (tag_of_opt_ne_empty tag hopt_ne).2
    have hdef : isEmptyValue v = false := by
      rw [isEmptyValue_eq_isDefault]
      exact isDefault_of_isSet v hset
    have hfield : ∀ d, appendField d ⟨tag, true, v⟩
        = Slice.append d [.string (Cut tag ",").1, v.toInterface] := by
      intro d
      simp [appendField, htag, hdash, hname, hdef]
    exact ⟨hfield dst, by rw [appendStructField_split, hfield]⟩
  · intro hopt w exported
    by_cases hdash : tag = "-"
    · simp [appendField, hdash]
    · cases exported <;> simp [appendField, htag, hdash, hname, hopt]

/-- Witness for C7: a field tagged `name2,omitempty` holding `"x"`, after a
field tagged `name1`. -/
theorem omitempty_suppresses_only_empty_witness :
    (Cut "name2,omitempty" ",").1 ≠ ""
      ∧ appendField none ⟨"name2,omitempty", true, .string "x"⟩
        = some [.string "name2", .string "x"]
      ∧ appendStructField none (.struct ([⟨"name1", true, .string "value1"⟩]
          ++ ⟨"name2,omitempty", true, .string "x"⟩ :: []))
        = some [.string "name1", .string "value1", .string "name2", .string "x"] :=
  ⟨by decide,
    ((omitempty_suppresses_only_empty none [⟨"name1", true, .string "value1"⟩] []
      "name2,omitempty" (.string "x") (by decide)).1 rfl rfl).1,
    ((omitempty_suppresses_only_empty none [⟨"name1", true, .string "value1"⟩] []
      "name2,omitempty" (.string "x") (by decide)).1 rfl rfl).2⟩

/-! ## The `-` tag and the empty name -/

/-- C8, as stated, fails: the tag `-,omitempty` has the name part `-` followed
by a modifier, yet the field is emitted under the wire name `-`. -/
theorem dash_with_modifier_is_emitted :
    Cut "-,omitempty" "," = ("-", "omitempty", true)
      ∧ appendStructField none (.struct [⟨"-,omitempty", true, .string "x"⟩])
        = some [.string "-", .string "x"] :=
  ⟨rfl, rfl⟩

/-- C8, amended: a struct field whose redis tag has an empty name part (the
text before the first comma), whatever modifiers follow it, or whose whole tag
is exactly `-`, contributes no token. -/
theorem appendStructField_empty_name (dst : Slice Value)
    (pre post : List (StructField Value)) (f : StructField Value)
    (h : f.name = "" ∨ f.tag = "-") :
    appendField dst f = dst
      ∧ appendStructField dst (.struct (pre ++ f :: post))
        = appendStructField dst (.struct (pre ++ post)) := by
  have hskip : ∀ d, appendField d f = d := by
    intro d
    rw [appendField_eq]
    have he : f.emitted = false := by
      rcases h with h | h <;> simp [StructField.emitted, h]
    simp [he]
  exact ⟨hskip dst, appendStructField_skip dst pre post f (hskip _)⟩

/-- Witness for C8 (amended): the tag `,omitempty` has an empty name part. -/
theorem appendStructField_empty_name_witness :
    appendField none ⟨",omitempty", true, .string "x"⟩ = none
      ∧ appendStructField none (.struct ([⟨"key1", true, .string "value1"⟩]
          ++ ⟨",omitempty", true, .string "x"⟩ :: []))
        = appendStructField none (.struct ([⟨"key1", true, .string "value1"⟩] ++ [])) :=
  appendStructField_empty_name none [⟨"key1", true, .string "value1"⟩] []
    ⟨",omitempty", true, .string "x"⟩ (Or.inl rfl)

/-! ## Nil arguments -/

/-- C9: for every prefix `dst`, a nil pointer (to a struct type or to any other
type) that is not binary-marshalable makes `appendArg` return `dst` unchanged,
with no string tokens and without failing. -/
theorem appendArg_nil_pointer (dst : Slice Value) (k : Kind) :
    appendArg dst (.nilPtr k) = .ok (dst, none)
      ∧ tokens (dst, none) = Slice.elems dst :=
  ⟨rfl, by simp [tokens]⟩

/-- C10: for every prefix `dst`, `appendArg(dst, nil)` with the untyped nil
fails with the panic of `reflect.Value.Type`; it never returns a token list. -/
theorem appendArg_untyped_nil_panics (dst : Slice Value) :
    appendArg dst .nil = .error "reflect: call of reflect.Value.Type on zero Value"
      ∧ ∀ r, appendArg dst .nil ≠ .ok r :=
  ⟨rfl, fun r h => by
    have he : appendArg dst .nil
        = .error "reflect: call of reflect.Value.Type on zero Value" := rfl
    rw [he] at h
    exact Except.noConfusion h⟩


/-! ## Pass-through arguments, slices, pointers to structs, unexported fields -/

/-- C11: for every prefix `dst` and every argument `a` whose dynamic type is
`int64`, `time.Time`, `time.Duration`, `net.IP` or implements
`encoding.BinaryMarshaler`, and for every other argument that is not a
`[]string`, `[]interface{}`, `map[string]interface{}`, `map[string]string`,
struct or pointer, `appendArg(dst, a)` is `dst` followed by the single token
`a`; in particular a `time.Time` is not projected field by field and a `net.IP`
is not expanded element by element.  (The untyped nil has no dynamic type and
is not such an argument.) -/
theorem appendArg_pass_through (dst : Slice Value) (a : Value) (h : a.isScalar = true) :
    appendArg dst a = .ok (Slice.append dst [a], none)
      ∧ tokens (Slice.append dst [a], none) = Slice.elems dst ++ [a]
      ∧ (∀ wall ext, appendArg dst (.time wall ext)
          = .ok (Slice.append dst [.time wall ext], none))
      ∧ (∀ bytes, appendArg dst (.ip bytes) = .ok (Slice.append dst [.ip bytes], none)) :=
  ⟨appendArg_scalar dst a h, by simp [tokens], fun _ _ => rfl, fun _ => rfl⟩

/-- Witness for C11: the `net.IP` 127.0.0.1 after the prefix `set, key`. -/
theorem appendArg_pass_through_witness :
    appendArg (some [.string "set", .string "key"]) (.ip (some [127, 0, 0, 1]))
        = .ok (some [.string "set", .string "key", .ip (some [127, 0, 0, 1])], none) :=
  (appendArg_pass_through (some [.string "set", .string "key"])
    (.ip (some [127, 0, 0, 1])) rfl).1

/-- C12: for every slice argument (a `[]interface{}` `xs` or a `[]string` `ss`)
and every prefix `dst`, the tokens of `appendArg(dst, s)` are `dst` followed by
the elements of the slice in order.  With an empty `dst` (nil, or non-nil of
length 0) the fast path returns the slice itself; with a non-empty `dst` the
copying path appends to `dst`; the two agree on content and order. -/
theorem appendArg_slice_paths_agree (dst : Slice Value) (d : Value) (ds : List Value)
    (xs : Option (List Value)) (ss : Option (List String)) :
    (∃ r, appendArg dst (.ifaceSlice xs) = .ok r
        ∧ tokens r = Slice.elems dst ++ Slice.elems xs)
      ∧ (∃ r, appendArg dst (.stringSlice ss) = .ok r
        ∧ tokens r = Slice.elems dst ++ (Slice.elems ss).map Value.string)
      ∧ appendArg none (.ifaceSlice xs) = .ok (xs, none)
      ∧ appendArg (some []) (.ifaceSlice xs) = .ok (xs, none)
      ∧ appendArg none (.stringSlice ss) = .ok (none, ss)
      ∧ appendArg (some []) (.stringSlice ss) = .ok (none, ss)
      ∧ appendArg (some (d :: ds)) (.ifaceSlice xs)
        = .ok (Slice.append (some (d :: ds)) (Slice.elems xs), none)
      ∧ (∃ r, appendArg (some (d :: ds)) (.stringSlice ss) = .ok (r, none)
        ∧ Slice.elems r = (d :: ds) ++ (Slice.elems ss).map Value.string) := by
  refine ⟨appendArg_ifaceSlice dst xs, appendArg_stringSlice dst ss, ?_, ?_, ?_, ?_, ?_, ?_⟩
  · simp [appendArg, Slice.len, Slice.clip_eq]
  · simp [appendArg, Slice.len, Slice.clip_eq]
  · simp [appendArg, Slice.len, Slice.clip_eq]
  · simp [appendArg, Slice.len, Slice.clip_eq]
  · simp [appendArg, Slice.len]
  · refine ⟨(Slice.elems ss).foldl (fun d s => Slice.append d [.string s]) (some (d :: ds)),
      ?_, ?_⟩
    · simp [appendArg, Slice.len]
    · simp [Slice.elems_foldl_one]

/-- C13, the claim fails: for the struct `s` with the one field `f` holding
`v`, which is not a pass-through kind, `appendArg(nil, s)` gives the two tokens
`f`, `v`, but when the pointer type of `s` has `MarshalBinary` in its method set
(a pointer receiver, as with `url.URL`), the non-nil pointer `&s` matches the
`encoding.BinaryMarshaler` case of the type switch and `appendArg(nil, &s)`
gives the pointer itself as one token. -/
theorem appendArg_marshaler_pointer_one_token :
    Value.isScalar (.struct [⟨"f", true, .string "v"⟩]) = false
      ∧ appendArg none (.struct [⟨"f", true, .string "v"⟩])
        = .ok (appendStructField none (.struct [⟨"f", true, .string "v"⟩]), none)
      ∧ appendArg none (.struct [⟨"f", true, .string "v"⟩])
        = .ok (some [.string "f", .string "v"], none)
      ∧ appendArg none (.marshaler (.ptrTo (.struct [⟨"f", true, .string "v"⟩])))
        = .ok (some [.marshaler (.ptrTo (.struct [⟨"f", true, .string "v"⟩]))], none)
      ∧ appendArg none (.marshaler (.ptrTo (.struct [⟨"f", true, .string "v"⟩])))
        ≠ appendArg none (.struct [⟨"f", true, .string "v"⟩]) := by
  refine ⟨rfl, rfl, rfl, rfl, ?_⟩
  intro h
  have h2 : (some [Value.marshaler (.ptrTo (.struct [⟨"f", true, .string "v"⟩]))] : Slice Value)
      = some [.string "f", .string "v"] := congrArg Prod.fst (Except.ok.inj h)
  exact absurd (congrArg List.length (Option.some.inj h2)) (by decide)

/-- C13, amended: for every struct value `s` that is not a pass-through kind
and every prefix `dst`, passing a non-nil pointer to `s` whose pointer type is
not a pass-through kind either gives the same result as passing `s` itself,
which is the output of `appendStructField(dst, s)` with no string tokens; a
non-nil pointer to `s` whose type implements `encoding.BinaryMarshaler` is
appended to `dst` as one token. -/
theorem appendArg_struct_pointer (dst : Slice Value) (fs : List (StructField Value)) :
    appendArg dst (.ptrTo (.struct fs)) = appendArg dst (.struct fs)
      ∧ appendArg dst (.struct fs) = .ok (appendStructField dst (.struct fs), none)
      ∧ appendArg dst (.marshaler (.ptrTo (.struct fs)))
        = .ok (Slice.append dst [.marshaler (.ptrTo (.struct fs))], none) :=
  ⟨rfl, rfl, rfl⟩

/-- C14: an unexported field that carries a redis tag contributes no token,
whatever its tag and value, and every other field is emitted exactly as if the
unexported field were absent.  The loop iteration cannot fail: `Interface()`,
the one call that panics on an unexported field, is made only under the
`CanInterface()` guard. -/
theorem appendStructField_unexported (dst : Slice Value)
    (pre post : List (StructField Value)) (f : StructField Value)
    (h : f.exported = false) :
    appendField dst f = dst
      ∧ appendStructField dst (.struct (pre ++ f :: post))
        = appendStructField dst (.struct (pre ++ post)) := by
  have hskip : ∀ d, appendField d f = d := by
    intro d
    rw [appendField_eq]
    have he : f.emitted = false := by
      simp [StructField.emitted, h]
    simp [he]
  exact ⟨hskip dst, appendStructField_skip dst pre post f (hskip _)⟩

/-- Witness for C14: an unexported field tagged `secret` between `key1` and
`key2`. -/
theorem appendStructField_unexported_witness :
    appendField none ⟨"secret", false, .string "x"⟩ = none
      ∧ appendStructField none (.struct ([⟨"key1", true, .string "value1"⟩]
          ++ ⟨"secret", false, .string "x"⟩ :: [⟨"key2", true, .string "value2"⟩]))
        = appendStructField none (.struct ([⟨"key1", true, .string "value1"⟩]
          ++ [⟨"key2", true, .string "value2"⟩])) :=
  appendStructField_unexported none [⟨"key1", true, .string "value1"⟩]
    [⟨"key2", true, .string "value2"⟩] ⟨"secret", false, .string "x"⟩ rfl

/-! ## Composite decoders -/

theorem readInfoReply_err {σ R : Type} (rd : Reader σ)
    (readField : String → R → σ → Except GoError R × σ) (zero val : R) (s : σ)
    (h : (readInfoReply rd readField zero val s).err ≠ none) :
    (readInfoReply rd readField zero val s).cmd = val := by
  unfold readInfoReply at h ⊢
  split
  · rfl
  · split
    · rfl
    · rename_i h1 _ _ _ h2
      simp [h1, h2] at h

theorem readInfoFields_add {σ R : Type} (rd : Reader σ)
    (readField : String → R → σ → Except GoError R × σ) (j m : Nat) (r : R) (s : σ) :
    readInfoFields rd readField (j + m) r s
      = match readInfoFields rd readField j r s with
        | (.ok r1, s1) => readInfoFields rd readField m r1 s1
        | (.error e, s1) => (.error e, s1) := by
  induction j generalizing r s with
  | zero => simp [readInfoFields]
  | succ j ih =>
    rw [Nat.add_right_comm]
    simp only [readInfoFields]
    split
    · rfl
    · split
      · rfl
      · exact ih _ _

theorem readInfoFields_bad_key {σ R : Type} (rd : Reader σ)
    (readField : String → R → σ → Except GoError R × σ) (n j : Nat) (r0 r : R)
    (s1 s2 s3 : σ) (key : String) (e : GoError) (hj : j < n)
    (hpre : readInfoFields rd readField j r0 s1 = (.ok r, s2))
    (hkey : rd.ReadString s2 = (.ok key, s3))
    (hbad : readField key r s3 = (.error e, s3)) :
    readInfoFields rd readField n r0 s1 = (.error e, s3) := by
  obtain ⟨m, rfl⟩ : ∃ m, n = j + (m + 1) := ⟨n - j - 1, by omega⟩
  rw [readInfoFields_add, hpre]
  simp [readInfoFields, hkey, hbad]

theorem readInfoReply_bad_key {σ R : Type} (rd : Reader σ)
    (readField : String → R → σ → Except GoError R × σ) (zero val r : R) (n : Int) (j : Nat)
    (s0 s1 s2 s3 : σ) (key : String) (e : GoError)
    (hlen : rd.ReadMapLen s0 = (.ok n, s1)) (hj : j < n.toNat)
    (hpre : readInfoFields rd readField j zero s1 = (.ok r, s2))
    (hkey : rd.ReadString s2 = (.ok key, s3))
    (hbad : readField key r s3 = (.error e, s3)) :
    readInfoReply rd readField zero val s0 = ⟨some e, val, s3⟩ := by
  unfold readInfoReply
  rw [hlen]
  simp only
  rw [readInfoFields_bad_key rd readField n.toNat j zero r s1 s2 s3 key e hj hpre hkey hbad]

theorem BFInfoCmd_readField_unknown {σ : Type} (rd : Reader σ) (key : String) (r : BFInfo)
    (s : σ) (h : key ∉ BFInfo.keys) :
    BFInfoCmd.readField rd key r s
      = (.error (.other ("redis: BLOOM.INFO unexpected key " ++ key)), s) := by
  simp only [BFInfo.keys, List.mem_cons, List.mem_singleton, List.not_mem_nil, not_or,
    or_false] at h
  obtain ⟨h1, h2, h3, h4, h5⟩ := h
  simp only [BFInfoCmd.readField, h1, h2, h3, h4, h5, if_false]

theorem CFInfoCmd_readField_unknown {σ : Type} (rd : Reader σ) (key : String) (r : CFInfo)
    (s : σ) (h : key ∉ CFInfo.keys) :
    CFInfoCmd.readField rd key r s
      = (.error (.other ("redis: CF.INFO unexpected key " ++ key)), s) := by
  simp only [CFInfo.keys, List.mem_cons, List.mem_singleton, List.not_mem_nil, not_or,
    or_false] at h
  obtain ⟨h1, h2, h3, h4, h5, h6, h7, h8⟩ := h
  simp only [CFInfoCmd.readField, h1, h2, h3, h4, h5, h6, h7, h8, if_false]

theorem CMSInfoCmd_readField_unknown {σ : Type} (rd : Reader σ) (key : String) (r : CMSInfo)
    (s : σ) (h : key ∉ CMSInfo.keys) :
    CMSInfoCmd.readField rd key r s
      = (.error (.other ("redis: CMS.INFO unexpected key " ++ key)), s) := by
  simp only [CMSInfo.keys, List.mem_cons, List.mem_singleton, List.not_mem_nil, not_or,
    or_false] at h
  obtain ⟨h1, h2, h3⟩ := h
  simp only [CMSInfoCmd.readField, h1, h2, h3, if_false]

theorem TopKInfoCmd_readField_unknown {σ : Type} (rd : Reader σ) (key : String) (r : TopKInfo)
    (s : σ) (h : key ∉ TopKInfo.keys) :
    TopKInfoCmd.readField rd key r s
      = (.error (.other ("redis: topk.info unexpected key " ++ key)), s) := by
  simp only [TopKInfo.keys, List.mem_cons, List.mem_singleton, List.not_mem_nil, not_or,
    or_false] at h
  obtain ⟨h1, h2, h3, h4⟩ := h
  simp only [TopKInfoCmd.readField, h1, h2, h3, h4, if_false]

theorem TDigestInfoCmd_readField_unknown {σ : Type} (rd : Reader σ) (key : String)
    (r : TDigestInfo) (s : σ) (h : key ∉ TDigestInfo.keys) :
    TDigestInfoCmd.readField rd key r s
      = (.error (.other ("redis: tdigest.info unexpected key " ++ key)), s) := by
  simp only [TDigestInfo.keys, List.mem_cons, List.mem_singleton, List.not_mem_nil, not_or,
    or_false] at h
  obtain ⟨h1, h2, h3, h4, h5, h6, h7, h8, h9⟩ := h
  simp only [TDigestInfoCmd.readField, h1, h2, h3, h4, h5, h6, h7, h8, h9, if_false]

theorem readInfoReply_len_fails {σ R : Type} (rd : Reader σ)
    (readField : String → R → σ → Except GoError R × σ) (zero val : R) (s0 s1 : σ)
    (e : GoError) (h : rd.ReadMapLen s0 = (.error e, s1)) :
    readInfoReply rd readField zero val s0 = ⟨some e, val, s1⟩ := by
  unfold readInfoReply
  rw [h]

/-- C15: for each of the composite decoders `BFInfoCmd`, `CFInfoCmd`,
`CMSInfoCmd`, `TopKInfoCmd` and `TDigestInfoCmd`, every reader and every reply:
whenever `readReply` returns an error, whichever read failed, the command's
`val` is exactly what it was before the call; in particular, if the read of the
map length fails, `readReply` returns that error with `val` unchanged; and if,
after the map length `n` and `j < n` pairs decoded without error, the next key
is one the decoder does not recognise, `readReply` returns the error
`unexpected key` for that key, again with `val` unchanged. -/
theorem info_decoders_all_or_nothing {σ : Type} (rd : Reader σ) (s0 : σ) :
    ((∀ cmd, (BFInfoCmd.readReply rd cmd s0).err ≠ none →
          (BFInfoCmd.readReply rd cmd s0).cmd = cmd)
        ∧ (∀ cmd e s1, rd.ReadMapLen s0 = (.error e, s1) →
            BFInfoCmd.readReply rd cmd s0 = ⟨some e, cmd, s1⟩)
        ∧ ∀ cmd (n : Int) (j : Nat) (key : String) (s1 s2 s3 : σ) r,
            rd.ReadMapLen s0 = (.ok n, s1) → j < n.toNat →
            readInfoFields rd (BFInfoCmd.readField rd) j ⟨0, 0, 0, 0, 0⟩ s1 = (.ok r, s2) →
            rd.ReadString s2 = (.ok key, s3) → key ∉ BFInfo.keys →
            BFInfoCmd.readReply rd cmd s0
              = ⟨some (.other ("redis: BLOOM.INFO unexpected key " ++ key)), cmd, s3⟩)
      ∧ ((∀ cmd, (CFInfoCmd.readReply rd cmd s0).err ≠ none →
          (CFInfoCmd.readReply rd cmd s0).cmd = cmd)
        ∧ (∀ cmd e s1, rd.ReadMapLen s0 = (.error e, s1) →
            CFInfoCmd.readReply rd cmd s0 = ⟨some e, cmd, s1⟩)
        ∧ ∀ cmd (n : Int) (j : Nat) (key : String) (s1 s2 s3 : σ) r,
            rd.ReadMapLen s0 = (.ok n, s1) → j < n.toNat →
            readInfoFields rd (CFInfoCmd.readField rd) j ⟨0, 0, 0, 0, 0, 0, 0, 0⟩ s1 = (.ok r, s2) →
            rd.ReadString s2 = (.ok key, s3) → key ∉ CFInfo.keys →
            CFInfoCmd.readReply rd cmd s0
              = ⟨some (.other ("redis: CF.INFO unexpected key " ++ key)), cmd, s3⟩)
      ∧ ((∀ cmd, (CMSInfoCmd.readReply rd cmd s0).err ≠ none →
          (CMSInfoCmd.readReply rd cmd s0).cmd = cmd)
        ∧ (∀ cmd e s1, rd.ReadMapLen s0 = (.error e, s1) →
            CMSInfoCmd.readReply rd cmd s0 = ⟨some e, cmd, s1⟩)
        ∧ ∀ cmd (n : Int) (j : Nat) (key : String) (s1 s2 s3 : σ) r,
            rd.ReadMapLen s0 = (.ok n, s1) → j < n.toNat →
            readInfoFields rd (CMSInfoCmd.readField rd) j ⟨0, 0, 0⟩ s1 = (.ok r, s2) →
            rd.ReadString s2 = (.ok key, s3) → key ∉ CMSInfo.keys →
            CMSInfoCmd.readReply rd cmd s0
              = ⟨some (.other ("redis: CMS.INFO unexpected key " ++ key)), cmd, s3⟩)
      ∧ ((∀ cmd, (TopKInfoCmd.readReply rd cmd s0).err ≠ none →
          (TopKInfoCmd.readReply rd cmd s0).cmd = cmd)
        ∧ (∀ cmd e s1, rd.ReadMapLen s0 = (.error e, s1) →
            TopKInfoCmd.readReply rd cmd s0 = ⟨some e, cmd, s1⟩)
        ∧ ∀ cmd (n : Int) (j : Nat) (key : String) (s1 s2 s3 : σ) r,
            rd.ReadMapLen s0 = (.ok n, s1) → j < n.toNat →
            readInfoFields rd (TopKInfoCmd.readField rd) j ⟨0, 0, 0, 0⟩ s1 = (.ok r, s2) →
            rd.ReadString s2 = (.ok key, s3) → key ∉ TopKInfo.keys →
            TopKInfoCmd.readReply rd cmd s0
              = ⟨some (.other ("redis: topk.info unexpected key " ++ key)), cmd, s3⟩)
      ∧ ((∀ cmd, (TDigestInfoCmd.readReply rd cmd s0).err ≠ none →
          (TDigestInfoCmd.readReply rd cmd s0).cmd = cmd)
        ∧ (∀ cmd e s1, rd.ReadMapLen s0 = (.error e, s1) →
            TDigestInfoCmd.readReply rd cmd s0 = ⟨some e, cmd, s1⟩)
        ∧ ∀ cmd (n : Int) (j : Nat) (key : String) (s1 s2 s3 : σ) r,
            rd.ReadMapLen s0 = (.ok n, s1) → j < n.toNat →
            readInfoFields rd (TDigestInfoCmd.readField rd) j ⟨0, 0, 0, 0, 0, 0, 0, 0, 0⟩ s1 = (.ok r, s2) →
            rd.ReadString s2 = (.ok key, s3) → key ∉ TDigestInfo.keys →
            TDigestInfoCmd.readReply rd cmd s0
              = ⟨some (.other ("redis: tdigest.info unexpected key " ++ key)), cmd, s3⟩) := by
  refine ⟨⟨?_, ?_, ?_⟩, ⟨?_, ?_, ?_⟩, ⟨?_, ?_, ?_⟩, ⟨?_, ?_, ?_⟩, ⟨?_, ?_, ?_⟩⟩
  · intro cmd h
    have := readInfoReply_err rd (BFInfoCmd.readField rd) ⟨0, 0, 0, 0, 0⟩ cmd.val s0 h
    simp only [BFInfoCmd.readReply, this]
  · intro cmd e s1 hfail
    simp only [BFInfoCmd.readReply]
    rw [readInfoReply_len_fails rd _ _ cmd.val s0 s1 e hfail]
  · intro cmd n j key s1 s2 s3 r hlen hj hpre hkey hbad
    simp only [BFInfoCmd.readReply]
    rw [readInfoReply_bad_key rd _ _ cmd.val r n j s0 s1 s2 s3 key _ hlen hj hpre hkey
      (BFInfoCmd_readField_unknown rd key r s3 hbad)]
  · intro cmd h
    have := readInfoReply_err rd (CFInfoCmd.readField rd) ⟨0, 0, 0, 0, 0, 0, 0, 0⟩ cmd.val s0 h
    simp only [CFInfoCmd.readReply, this]
  · intro cmd e s1 hfail
    simp only [CFInfoCmd.readReply]
    rw [readInfoReply_len_fails rd _ _ cmd.val s0 s1 e hfail]
  · intro cmd n j key s1 s2 s3 r hlen hj hpre hkey hbad
    simp only [CFInfoCmd.readReply]
    rw [readInfoReply_bad_key rd _ _ cmd.val r n j s0 s1 s2 s3 key _ hlen hj hpre hkey
      (CFInfoCmd_readField_unknown rd key r s3 hbad)]
  · intro cmd h
    have := readInfoReply_err rd (CMSInfoCmd.readField rd) ⟨0, 0, 0⟩ cmd.val s0 h
    simp only [CMSInfoCmd.readReply, this]
  · intro cmd e s1 hfail
    simp only [CMSInfoCmd.readReply]
    rw [readInfoReply_len_fails rd _ _ cmd.val s0 s1 e hfail]
  · intro cmd n j key s1 s2 s3 r hlen hj hpre hkey hbad
    simp only [CMSInfoCmd.readReply]
    rw [readInfoReply_bad_key rd _ _ cmd.val r n j s0 s1 s2 s3 key _ hlen hj hpre hkey
      (CMSInfoCmd_readField_unknown rd key r s3 hbad)]
  · intro cmd h
    have := readInfoReply_err rd (TopKInfoCmd.readField rd) ⟨0, 0, 0, 0⟩ cmd.val s0 h
    simp only [TopKInfoCmd.readReply, this]
  · intro cmd e s1 hfail
    simp only [TopKInfoCmd.readReply]
    rw [readInfoReply_len_fails rd _ _ cmd.val s0 s1 e hfail]
  · intro cmd n j key s1 s2 s3 r hlen hj hpre hkey hbad
    simp only [TopKInfoCmd.readReply]
    rw [readInfoReply_bad_key rd _ _ cmd.val r n j s0 s1 s2 s3 key _ hlen hj hpre hkey
      (TopKInfoCmd_readField_unknown rd key r s3 hbad)]
  · intro cmd h
    have := readInfoReply_err rd (TDigestInfoCmd.readField rd) ⟨0, 0, 0, 0, 0, 0, 0, 0, 0⟩ cmd.val s0 h
    simp only [TDigestInfoCmd.readReply, this]
  · intro cmd e s1 hfail
    simp only [TDigestInfoCmd.readReply]
    rw [readInfoReply_len_fails rd _ _ cmd.val s0 s1 e hfail]
  · intro cmd n j key s1 s2 s3 r hlen hj hpre hkey hbad
    simp only [TDigestInfoCmd.readReply]
    rw [readInfoReply_bad_key rd _ _ cmd.val r n j s0 s1 s2 s3 key _ hlen hj hpre hkey
      (TDigestInfoCmd_readField_unknown rd key r s3 hbad)]

/-- Example for C15: a `BF.INFO` map reply of two pairs whose second key is
`Foo`; the command keeps the `val` it had. -/
theorem info_decoders_all_or_nothing_witness :
    BFInfoCmd.readReply scriptReader ⟨⟨9, 8, 7, 6, 5⟩⟩
        [.mapLen 2, .text "Capacity", .int 100, .text "Foo", .int 1]
      = ⟨some (.other "redis: BLOOM.INFO unexpected key Foo"), ⟨⟨9, 8, 7, 6, 5⟩⟩, [.int 1]⟩ :=
  (info_decoders_all_or_nothing scriptReader
    [.mapLen 2, .text "Capacity", .int 100, .text "Foo", .int 1]).1.2.2
    ⟨⟨9, 8, 7, 6, 5⟩⟩ 2 1 "Foo" [.text "Capacity", .int 100, .text "Foo", .int 1]
    [.text "Foo", .int 1] [.int 1] ⟨100, 0, 0, 0, 0⟩ rfl (by decide) rfl rfl (by decide)

/-- The record `BFInfoCmd` builds from `result` and the pairs `ps`. -/
theorem BFInfoCmd.readInfoFields_pairs {σ : Type} (rd : Reader σ) (ps : List (String × Int))
    (r : BFInfo) (s : σ) (hkeys : ∀ p ∈ ps, p.1 ∈ BFInfo.keys) (hd : deliversPairs rd ps s) :
    ∃ s1, readInfoFields rd (BFInfoCmd.readField rd) ps.length r s
      = (.ok ⟨ps.foldl (fun acc p => if p.1 = "Capacity" then p.2 else acc) r.Capacity,
          ps.foldl (fun acc p => if p.1 = "Size" then p.2 else acc) r.Size,
          ps.foldl (fun acc p => if p.1 = "Number of filters" then p.2 else acc) r.Filters,
          ps.foldl (fun acc p => if p.1 = "Number of items inserted" then p.2 else acc)
            r.ItemsInserted,
          ps.foldl (fun acc p => if p.1 = "Expansion rate" then p.2 else acc)
            r.ExpansionRate⟩, s1) := by
  induction ps generalizing r s with
  | nil => exact ⟨s, rfl⟩
  | cons p ps ih =>
    obtain ⟨k, v⟩ := p
    obtain ⟨hk, hv, hrest⟩ := hd
    have hmem : k ∈ BFInfo.keys := hkeys (k, v) (List.mem_cons_self _ _)
    have hkeys1 : ∀ p ∈ ps, p.1 ∈ BFInfo.keys := fun p hp =>
      hkeys p (List.mem_cons_of_mem _ hp)
    rcases hrs : rd.ReadString s with ⟨a, sa⟩
    rw [hrs] at hk hv hrest
    simp only at hk hv hrest
    subst hk
    rcases hri : rd.ReadInt sa with ⟨b, sb⟩
    rw [hri] at hv hrest
    simp only at hv hrest
    subst hv
    simp only [List.length_cons, readInfoFields, hrs, List.foldl_cons]
    simp only [BFInfo.keys, List.mem_cons, List.mem_singleton, List.not_mem_nil,
      or_false] at hmem
    rcases hmem with rfl | rfl | rfl | rfl | rfl
    all_goals
      simp only [BFInfoCmd.readField, assignField, hri, String.reduceEq, if_true, if_false]
      obtain ⟨s1, h1⟩ := ih _ _ hkeys1 hrest
      exact ⟨s1, h1⟩

/-- C16: for every map reply of `n` (key, integer) pairs `ps` whose keys all
belong to `Capacity`, `Size`, `Number of filters`, `Number of items inserted`,
`Expansion rate`, `BFInfoCmd.readReply` succeeds and sets `val` so that each of
`Capacity`, `Size`, `Filters`, `ItemsInserted`, `ExpansionRate` is the integer
of the last pair carrying its key, and 0 when its key is absent. -/
theorem BFInfoCmd_readReply_pairs {σ : Type} (rd : Reader σ) (cmd : BFInfoCmd) (s0 : σ)
    (ps : List (String × Int))
    (hlen : (rd.ReadMapLen s0).1 = .ok (ps.length : Int))
    (hkeys : ∀ p ∈ ps, p.1 ∈ BFInfo.keys)
    (hd : deliversPairs rd ps (rd.ReadMapLen s0).2) :
    (BFInfoCmd.readReply rd cmd s0).err = none
      ∧ (BFInfoCmd.readReply rd cmd s0).cmd.val
        = ⟨lastValue "Capacity" ps, lastValue "Size" ps, lastValue "Number of filters" ps,
            lastValue "Number of items inserted" ps, lastValue "Expansion rate" ps⟩ := by
  rcases hml : rd.ReadMapLen s0 with ⟨a, sa⟩
  rw [hml] at hlen hd
  simp only at hlen hd
  subst hlen
  obtain ⟨s1, h1⟩ := BFInfoCmd.readInfoFields_pairs rd ps ⟨0, 0, 0, 0, 0⟩ sa hkeys hd
  simp only [BFInfoCmd.readReply, readInfoReply, hml, Int.toNat_ofNat, h1, lastValue]
  exact ⟨trivial, trivial⟩

/-- Witness for C16: `Capacity=100, Size=200, Number of filters=3, Number of
items inserted=50, Expansion rate=2` gives `BFInfo{100, 200, 3, 50, 2}`; with
`Foo=1` added the decoder returns an error. -/
theorem BFInfoCmd_readReply_pairs_witness :
    ((BFInfoCmd.readReply scriptReader ⟨⟨0, 0, 0, 0, 0⟩⟩
          [.mapLen 5, .text "Capacity", .int 100, .text "Size", .int 200,
            .text "Number of filters", .int 3, .text "Number of items inserted", .int 50,
            .text "Expansion rate", .int 2]).err = none
        ∧ (BFInfoCmd.readReply scriptReader ⟨⟨0, 0, 0, 0, 0⟩⟩
          [.mapLen 5, .text "Capacity", .int 100, .text "Size", .int 200,
            .text "Number of filters", .int 3, .text "Number of items inserted", .int 50,
            .text "Expansion rate", .int 2]).cmd.val = ⟨100, 200, 3, 50, 2⟩)
      ∧ (BFInfoCmd.readReply scriptReader ⟨⟨0, 0, 0, 0, 0⟩⟩
          [.mapLen 6, .text "Capacity", .int 100, .text "Size", .int 200,
            .text "Number of filters", .int 3, .text "Number of items inserted", .int 50,
            .text "Expansion rate", .int 2, .text "Foo", .int 1]).err
        = some (.other "redis: BLOOM.INFO unexpected key Foo") :=
  ⟨BFInfoCmd_readReply_pairs scriptReader ⟨⟨0, 0, 0, 0, 0⟩⟩
      [.mapLen 5, .text "Capacity", .int 100, .text "Size", .int 200,
        .text "Number of filters", .int 3, .text "Number of items inserted", .int 50,
        .text "Expansion rate", .int 2]
      [("Capacity", 100), ("Size", 200), ("Number of filters", 3),
        ("Number of items inserted", 50), ("Expansion rate", 2)]
      rfl (by decide) ⟨rfl, rfl, rfl, rfl, rfl, rfl, rfl, rfl, rfl, rfl, trivial⟩, rfl⟩

/-! ## Nullable integer arrays -/

theorem list_set_length_append {α : Type} (done rest : List α) (x y : α) :
    (done ++ x :: rest).set done.length y = done ++ y :: rest := by
  induction done with
  | nil => rfl
  | cons d done ih => simp [ih]

theorem IntPointerSliceCmd.loop_delivers {σ : Type} (rd : Reader σ) (es done : List (Option Int))
    (s : σ) (hd : deliversInts rd es s) :
    ∃ s1, IntPointerSliceCmd.loop rd es.length done.length
        (done ++ List.replicate es.length none) s = (none, done ++ es, s1) := by
  induction es generalizing done s with
  | nil => exact ⟨s, by simp [IntPointerSliceCmd.loop]⟩
  | cons e es ih =>
    rcases hri : rd.ReadInt s with ⟨a, sa⟩
    cases e with
    | none =>
      obtain ⟨h1, hrest⟩ := hd
      rw [hri] at h1 hrest
      simp only at h1 hrest
      subst h1
      obtain ⟨s1, h⟩ := ih (done ++ [none]) sa hrest
      refine ⟨s1, ?_⟩
      simp only [List.length_cons, IntPointerSliceCmd.loop, hri, ne_eq, not_true_eq_false,
        if_false, List.replicate_succ]
      simpa using h
    | some v =>
      obtain ⟨h1, hrest⟩ := hd
      rw [hri] at h1 hrest
      simp only at h1 hrest
      subst h1
      obtain ⟨s1, h⟩ := ih (done ++ [some v]) sa hrest
      refine ⟨s1, ?_⟩
      simp only [List.length_cons, IntPointerSliceCmd.loop, hri, List.replicate_succ,
        list_set_length_append]
      simpa using h

/-- C17: for every array reply of `n` elements `elems`, each an integer or a
protocol nil, `IntPointerSliceCmd.readReply` succeeds with a result of exactly
`n` entries in wire order: `val` is the list `elems` itself, entry `i` is absent
exactly when element `i` was a protocol nil and otherwise holds element `i`;
a present 0 differs from an absent entry. -/
theorem IntPointerSliceCmd_readReply_elements {σ : Type} (rd : Reader σ)
    (cmd : IntPointerSliceCmd) (s0 : σ) (elems : List (Option Int))
    (hlen : (rd.ReadArrayLen s0).1 = .ok (elems.length : Int))
    (hd : deliversInts rd elems (rd.ReadArrayLen s0).2) :
    ∃ out, IntPointerSliceCmd.readReply rd cmd s0 = .ok out
      ∧ out.err = none
      ∧ out.cmd.val = some elems
      ∧ (Slice.elems out.cmd.val).length = elems.length
      ∧ (∀ i : Nat, (Slice.elems out.cmd.val)[i]? = some none ↔ elems[i]? = some none)
      ∧ (∀ (i : Nat) (v : Int), (Slice.elems out.cmd.val)[i]? = some (some v) ↔ elems[i]? = some (some v))
      ∧ (some 0 : Option Int) ≠ none := by
  rcases hal : rd.ReadArrayLen s0 with ⟨a, sa⟩
  rw [hal] at hlen hd
  simp only at hlen hd
  subst hlen
  obtain ⟨s1, h1⟩ := IntPointerSliceCmd.loop_delivers rd elems [] sa hd
  simp only [List.length_nil, List.nil_append] at h1
  refine ⟨⟨none, { cmd with val := some elems }, s1⟩, ?_, rfl, rfl, rfl, fun _ => Iff.rfl,
    fun _ _ => Iff.rfl, by simp⟩
  have hneg : ¬ ((elems.length : Int) < 0) := by omega
  simp only [IntPointerSliceCmd.readReply, hal, hneg, if_false, Int.toNat_ofNat,
    List.length_replicate, h1]

/-- Witness for C17: `[7, nil, 3]` decodes to `[Some 7, None, Some 3]`, not to
`[7, 0, 3]`. -/
theorem IntPointerSliceCmd_readReply_elements_witness :
    ∃ out, IntPointerSliceCmd.readReply scriptReader ⟨none⟩
          [.arrayLen 3, .int 7, .null, .int 3] = .ok out
      ∧ out.err = none
      ∧ out.cmd.val = some [some 7, none, some 3]
      ∧ out.cmd.val ≠ some [some 7, some 0, some 3] := by
  obtain ⟨out, h1, h2, h3, -⟩ := IntPointerSliceCmd_readReply_elements scriptReader ⟨none⟩
    [.arrayLen 3, .int 7, .null, .int 3] [some 7, none, some 3] rfl ⟨rfl, rfl, rfl, trivial⟩
  exact ⟨out, h1, h2, h3, by rw [h3]; decide⟩

/-! ## Protocol nil in `JSONCmd` -/

/-- C18, as stated, fails: for a `JSONCmd` with no error set beforehand, the
null reply and the empty string give the same outcome, the same returned error
and `val = ""`; the null reply is not told apart from the empty string. -/
theorem JSONCmd_null_reads_as_empty_string :
    JSONCmd.readReply scriptReader ⟨none, "old", .nil⟩ [.null]
        = .ok ⟨none, ⟨none, "", .nil⟩, []⟩
      ∧ JSONCmd.readReply scriptReader ⟨none, "old", .nil⟩ [.text ""]
        = .ok ⟨none, ⟨none, "", .nil⟩, []⟩ :=
  ⟨rfl, rfl⟩

/-- C18, amended: for a `JSONCmd` whose error is not `Nil` beforehand, decoding
a non-array reply whose string read signals the wire-level null (state `sn`)
gives the same outcome as decoding the empty string (state `se`): the same
returned error, and `val = ""` with `expanded` untouched in both cases.  A
command whose error is already `Nil` before the call returns `Nil` with
`val = ""` without reading the reply. -/
theorem JSONCmd_null_same_as_empty {σ : Type} (rd : Reader σ) (cmd : JSONCmd) (sn se : σ)
    (tn te : ReplyShape) (herr : cmd.err ≠ some .Nil)
    (hpn : (rd.PeekReplyType sn).1 = .ok tn) (htn : tn ≠ .array)
    (hpe : (rd.PeekReplyType se).1 = .ok te) (hte : te ≠ .array)
    (hnull : (rd.ReadString (rd.PeekReplyType sn).2).1 = .error .Nil)
    (hempty : (rd.ReadString (rd.PeekReplyType se).2).1 = .ok "") :
    (∃ err, JSONCmd.readReply rd cmd sn
          = .ok ⟨err, { cmd with val := "" }, (rd.ReadString (rd.PeekReplyType sn).2).2⟩
        ∧ JSONCmd.readReply rd cmd se
          = .ok ⟨err, { cmd with val := "" }, (rd.ReadString (rd.PeekReplyType se).2).2⟩)
      ∧ ∀ (c : JSONCmd) (s1 : σ), c.err = some .Nil →
          JSONCmd.readReply rd c s1 = .ok ⟨some .Nil, { c with val := "" }, s1⟩ := by
  constructor
  · refine ⟨none, ?_, ?_⟩
    · rcases hp : rd.PeekReplyType sn with ⟨a, sa⟩
      rw [hp] at hpn hnull
      simp only at hpn hnull
      subst hpn
      rcases hr : rd.ReadString sa with ⟨b, sb⟩
      rw [hr] at hnull
      simp only at hnull
      subst hnull
      simp [JSONCmd.readReply, herr, hp, htn, hr]
    · rcases hp : rd.PeekReplyType se with ⟨a, sa⟩
      rw [hp] at hpe hempty
      simp only at hpe hempty
      subst hpe
      rcases hr : rd.ReadString sa with ⟨b, sb⟩
      rw [hr] at hempty
      simp only at hempty
      subst hempty
      simp [JSONCmd.readReply, herr, hp, hte, hr]
  · intro c s1 hc
    simp [JSONCmd.readReply, hc]

/-- Witness for C18 (amended): the null reply and the empty string for a command
holding `"old"`. -/
theorem JSONCmd_null_same_as_empty_witness :
    ∃ err, JSONCmd.readReply scriptReader ⟨none, "old", .nil⟩ [.null]
          = .ok ⟨err, ⟨none, "", .nil⟩, []⟩
      ∧ JSONCmd.readReply scriptReader ⟨none, "old", .nil⟩ [.text ""]
          = .ok ⟨err, ⟨none, "", .nil⟩, []⟩ :=
  (JSONCmd_null_same_as_empty scriptReader ⟨none, "old", .nil⟩ [.null] [.text ""]
    .nil .scalarString (by decide) rfl (by decide) rfl (by decide) rfl rfl).1

/-! ## Decoders that fill `val` while reading -/

theorem ScanDumpCmd_loop_add {σ : Type} (rd : Reader σ) (j m : Nat) (val : ScanDump) (s : σ) :
    ScanDumpCmd.loop rd (j + m) val s
      = match ScanDumpCmd.loop rd j val s with
        | (none, v1, s1) => ScanDumpCmd.loop rd m v1 s1
        | (some e, v1, s1) => (some e, v1, s1) := by
  induction j generalizing val s with
  | zero => simp [ScanDumpCmd.loop]
  | succ j ih =>
    rw [Nat.add_right_comm]
    simp only [ScanDumpCmd.loop]
    split
    · rfl
    · split
      · rfl
      · exact ih _ _

theorem ScanDumpCmd_loop_fails {σ : Type} (rd : Reader σ) (k : Nat) (val : ScanDump) (s : σ)
    (e : GoError) (h : pairReadFails rd s e) :
    ∃ s1, ScanDumpCmd.loop rd (k + 1) val s = (some e, val, s1) := by
  rcases hri : rd.ReadInt s with ⟨a, sa⟩
  rcases hrs : rd.ReadString sa with ⟨b, sb⟩
  unfold pairReadFails at h
  rw [hri] at h
  simp only at h
  rcases h with rfl | ⟨⟨v, rfl⟩, h2⟩
  · exact ⟨sa, by simp [ScanDumpCmd.loop, hri]⟩
  · rw [hrs] at h2
    simp only at h2
    subst h2
    exact ⟨sb, by simp [ScanDumpCmd.loop, hri, hrs]⟩

theorem TSTimestampValueCmd_loop_add {σ : Type} (rd : Reader σ)
    (parseFloat : String → Float64 × Option GoError) (j m : Nat) (val : TSTimestampValue)
    (s : σ) :
    TSTimestampValueCmd.loop rd parseFloat (j + m) val s
      = match TSTimestampValueCmd.loop rd parseFloat j val s with
        | (none, v1, s1) => TSTimestampValueCmd.loop rd parseFloat m v1 s1
        | (some e, v1, s1) => (some e, v1, s1) := by
  induction j generalizing val s with
  | zero => simp [TSTimestampValueCmd.loop]
  | succ j ih =>
    rw [Nat.add_right_comm]
    simp only [TSTimestampValueCmd.loop]
    split
    · rfl
    · split
      · rfl
      · split
        · rfl
        · exact ih _ _

theorem TSTimestampValueCmd_loop_fails {σ : Type} (rd : Reader σ)
    (parseFloat : String → Float64 × Option GoError) (k : Nat) (val : TSTimestampValue)
    (s : σ) (e : GoError) (h : pairReadFails rd s e) :
    ∃ s1, TSTimestampValueCmd.loop rd parseFloat (k + 1) val s = (some e, val, s1) := by
  rcases hri : rd.ReadInt s with ⟨a, sa⟩
  rcases hrs : rd.ReadString sa with ⟨b, sb⟩
  unfold pairReadFails at h
  rw [hri] at h
  simp only at h
  rcases h with rfl | ⟨⟨v, rfl⟩, h2⟩
  · exact ⟨sa, by simp [TSTimestampValueCmd.loop, hri]⟩
  · rw [hrs] at h2
    simp only at h2
    subst h2
    exact ⟨sb, by simp [TSTimestampValueCmd.loop, hri, hrs]⟩

theorem TSTimestampValueCmd_loop_parse_fails {σ : Type} (rd : Reader σ)
    (parseFloat : String → Float64 × Option GoError) (k : Nat) (val : TSTimestampValue)
    (s : σ) (t : Int) (x : Float64) (e : GoError) (h : pairParseFails rd parseFloat s t x e) :
    ∃ s1, TSTimestampValueCmd.loop rd parseFloat (k + 1) val s = (some e, ⟨t, x⟩, s1) := by
  rcases hri : rd.ReadInt s with ⟨a, sa⟩
  rcases hrs : rd.ReadString sa with ⟨b, sb⟩
  obtain ⟨h1, text, h2, h3⟩ := h
  rw [hri] at h1 h2
  simp only at h1 h2
  subst h1
  rw [hrs] at h2
  simp only at h2
  subst h2
  exact ⟨sb, by simp [TSTimestampValueCmd.loop, hri, hrs, h3]⟩

theorem TSTimestampValueSliceCmd_loop_add {σ : Type} (rd : Reader σ)
    (parseFloat : String → Float64 × Option GoError) (j m i : Nat)
    (val : List TSTimestampValue) (s : σ) :
    TSTimestampValueSliceCmd.loop rd parseFloat (j + m) i val s
      = match TSTimestampValueSliceCmd.loop rd parseFloat j i val s with
        | (none, v1, s1) => TSTimestampValueSliceCmd.loop rd parseFloat m (i + j) v1 s1
        | (some e, v1, s1) => (some e, v1, s1) := by
  induction j generalizing i val s with
  | zero => simp [TSTimestampValueSliceCmd.loop]
  | succ j ih =>
    rw [Nat.add_right_comm]
    simp only [TSTimestampValueSliceCmd.loop]
    split
    · rfl
    · split
      · rfl
      · split
        · rfl
        · rw [ih]
          have hi : i + 1 + j = i + (j + 1) := by omega
          rw [hi]

theorem TSTimestampValueSliceCmd_loop_fails {σ : Type} (rd : Reader σ)
    (parseFloat : String → Float64 × Option GoError) (k i : Nat)
    (val : List TSTimestampValue) (s : σ) (e : GoError)
    (h : pairReadFails rd (rd.ReadArrayLen s).2 e) :
    ∃ s1, TSTimestampValueSliceCmd.loop rd parseFloat (k + 1) i val s = (some e, val, s1) := by
  rcases hri : rd.ReadInt (rd.ReadArrayLen s).2 with ⟨a, sa⟩
  rcases hrs : rd.ReadString sa with ⟨b, sb⟩
  unfold pairReadFails at h
  rw [hri] at h
  simp only at h
  rcases h with rfl | ⟨⟨v, rfl⟩, h2⟩
  · exact ⟨sa, by simp [TSTimestampValueSliceCmd.loop, hri]⟩
  · rw [hrs] at h2
    simp only at h2
    subst h2
    exact ⟨sb, by simp [TSTimestampValueSliceCmd.loop, hri, hrs]⟩

theorem list_set_twice_entry (val : List TSTimestampValue) (i : Nat) (t : Int) (x : Float64) :
    (val.set i { val.getD i ⟨0, 0⟩ with Timestamp := t }).set i
        { (val.set i { val.getD i ⟨0, 0⟩ with Timestamp := t }).getD i ⟨0, 0⟩ with Value := x }
      = val.set i ⟨t, x⟩ := by
  by_cases hi : i < val.length
  · rw [List.set_set]
    congr 1
    simp [List.getD_eq_getElem?_getD, List.getElem?_set, hi]
  · rw [List.set_set]
    have hle : val.length ≤ i := Nat.le_of_not_lt hi
    rw [List.set_eq_of_length_le hle, List.set_eq_of_length_le hle]

theorem TSTimestampValueSliceCmd_loop_parse_fails {σ : Type} (rd : Reader σ)
    (parseFloat : String → Float64 × Option GoError) (k i : Nat)
    (val : List TSTimestampValue) (s : σ) (t : Int) (x : Float64) (e : GoError)
    (h : pairParseFails rd parseFloat (rd.ReadArrayLen s).2 t x e) :
    ∃ s1, TSTimestampValueSliceCmd.loop rd parseFloat (k + 1) i val s
      = (some e, val.set i ⟨t, x⟩, s1) := by
  rcases hri : rd.ReadInt (rd.ReadArrayLen s).2 with ⟨a, sa⟩
  rcases hrs : rd.ReadString sa with ⟨b, sb⟩
  obtain ⟨h1, text, h2, h3⟩ := h
  rw [hri] at h1 h2
  simp only at h1 h2
  subst h1
  rw [hrs] at h2
  simp only at h2
  subst h2
  refine ⟨sb, ?_⟩
  simp only [TSTimestampValueSliceCmd.loop, hri, hrs, h3]
  rw [list_set_twice_entry]

/-- C19, as stated, fails for each of the three decoders: after a returned error
`val` holds data of the failed reply.  `TSTimestampValueCmd` keeps the
timestamp 1700 of the pair whose value `abc` does not parse; `ScanDumpCmd`
keeps the first pair when reading the second one fails; and
`TSTimestampValueSliceCmd` keeps the first entry when the second one fails. -/
theorem filling_decoders_keep_partial_data :
    TSTimestampValueCmd.readReply scriptReader sampleParseFloat ⟨⟨5, 0⟩⟩
        [.mapLen 1, .int 1700, .text "abc"]
      = ⟨some (.other "strconv.ParseFloat: parsing abc: invalid syntax"), ⟨⟨1700, 0⟩⟩, []⟩
      ∧ ScanDumpCmd.readReply scriptReader ⟨⟨0, ""⟩⟩
        [.mapLen 2, .int 1, .text "chunk", .broken .scalarInteger "i/o timeout"]
      = ⟨some (.other "i/o timeout"), ⟨⟨1, "chunk"⟩⟩, []⟩
      ∧ TSTimestampValueSliceCmd.readReply scriptReader sampleParseFloat ⟨none⟩
        [.arrayLen 2, .arrayLen 2, .int 10, .text "1.5", .arrayLen 2, .int 20,
          .broken .scalarString "i/o timeout"]
      = .ok ⟨some (.other "i/o timeout"),
          ⟨some [⟨10, 0x3FF8000000000000⟩, ⟨0, 0⟩]⟩, []⟩ :=
  ⟨rfl, rfl, rfl⟩

/-- C19, amended: for `ScanDumpCmd`, `TSTimestampValueCmd` and
`TSTimestampValueSliceCmd`, when `readReply` returns the error of the length
read, the command's `val` is exactly what it was before the call.  When, after
the length `n` and `j < n` pairs decoded without error, the next pair fails,
`readReply` returns that error and `val` has been reset and is left partially
populated from the reply: it holds what the `j` decoded pairs put there, and,
when the failure is the value text not parsing as a float, also the timestamp
of the failing pair together with the float `ParseFloat` returned. -/
theorem filling_decoders_on_error {σ : Type} (rd : Reader σ)
    (parseFloat : String → Float64 × Option GoError) (s0 s1 s2 : σ) (n : Int) (j : Nat)
    (e : GoError) (hj : j < n.toNat) :
    ((∀ cmd s, rd.ReadMapLen s0 = (.error e, s) →
          ScanDumpCmd.readReply rd cmd s0 = ⟨some e, cmd, s⟩)
        ∧ ∀ cmd val, rd.ReadMapLen s0 = (.ok n, s1) →
            ScanDumpCmd.loop rd j ⟨0, ""⟩ s1 = (none, val, s2) → pairReadFails rd s2 e →
            (ScanDumpCmd.readReply rd cmd s0).err = some e
              ∧ (ScanDumpCmd.readReply rd cmd s0).cmd.val = val)
      ∧ ((∀ cmd s, rd.ReadMapLen s0 = (.error e, s) →
          TSTimestampValueCmd.readReply rd parseFloat cmd s0 = ⟨some e, cmd, s⟩)
        ∧ ∀ cmd val, rd.ReadMapLen s0 = (.ok n, s1) →
            TSTimestampValueCmd.loop rd parseFloat j ⟨0, 0⟩ s1 = (none, val, s2) →
            (pairReadFails rd s2 e →
                (TSTimestampValueCmd.readReply rd parseFloat cmd s0).err = some e
                  ∧ (TSTimestampValueCmd.readReply rd parseFloat cmd s0).cmd.val = val)
              ∧ ∀ t x, pairParseFails rd parseFloat s2 t x e →
                (TSTimestampValueCmd.readReply rd parseFloat cmd s0).err = some e
                  ∧ (TSTimestampValueCmd.readReply rd parseFloat cmd s0).cmd.val = ⟨t, x⟩)
      ∧ ((∀ cmd s, rd.ReadArrayLen s0 = (.error e, s) →
          TSTimestampValueSliceCmd.readReply rd parseFloat cmd s0 = .ok ⟨some e, cmd, s⟩)
        ∧ ∀ cmd val, rd.ReadArrayLen s0 = (.ok n, s1) →
            TSTimestampValueSliceCmd.loop rd parseFloat j 0
              (List.replicate n.toNat ⟨0, 0⟩) s1 = (none, val, s2) →
            (pairReadFails rd (rd.ReadArrayLen s2).2 e →
                ∃ out, TSTimestampValueSliceCmd.readReply rd parseFloat cmd s0 = .ok out
                  ∧ out.err = some e ∧ out.cmd.val = some val)
              ∧ ∀ t x, pairParseFails rd parseFloat (rd.ReadArrayLen s2).2 t x e →
                ∃ out, TSTimestampValueSliceCmd.readReply rd parseFloat cmd s0 = .ok out
                  ∧ out.err = some e ∧ out.cmd.val = some (val.set j ⟨t, x⟩)) := by
  obtain ⟨m, hm⟩ : ∃ m, n.toNat = j + (m + 1) := ⟨n.toNat - j - 1, by omega⟩
  have hneg : ¬ n < 0 := by omega
  refine ⟨⟨?_, ?_⟩, ⟨?_, ?_⟩, ⟨?_, ?_⟩⟩
  · intro cmd s h
    simp [ScanDumpCmd.readReply, h]
  · intro cmd val hlen hpre hfail
    obtain ⟨s3, h3⟩ := ScanDumpCmd_loop_fails rd m val s2 e hfail
    have hfull : ScanDumpCmd.loop rd (j + (m + 1)) ⟨0, ""⟩ s1 = (some e, val, s3) := by
      rw [ScanDumpCmd_loop_add, hpre]
      exact h3
    simp [ScanDumpCmd.readReply, hlen, hm, hfull]
  · intro cmd s h
    simp [TSTimestampValueCmd.readReply, h]
  · intro cmd val hlen hpre
    constructor
    · intro hfail
      obtain ⟨s3, h3⟩ := TSTimestampValueCmd_loop_fails rd parseFloat m val s2 e hfail
      have hfull : TSTimestampValueCmd.loop rd parseFloat (j + (m + 1)) ⟨0, 0⟩ s1
          = (some e, val, s3) := by
        rw [TSTimestampValueCmd_loop_add, hpre]
        exact h3
      simp [TSTimestampValueCmd.readReply, hlen, hm, hfull]
    · intro t x hfail
      obtain ⟨s3, h3⟩ :=
        TSTimestampValueCmd_loop_parse_fails rd parseFloat m val s2 t x e hfail
      have hfull : TSTimestampValueCmd.loop rd parseFloat (j + (m + 1)) ⟨0, 0⟩ s1
          = (some e, ⟨t, x⟩, s3) := by
        rw [TSTimestampValueCmd_loop_add, hpre]
        exact h3
      simp [TSTimestampValueCmd.readReply, hlen, hm, hfull]
  · intro cmd s h
    simp [TSTimestampValueSliceCmd.readReply, h]
  · intro cmd val hlen hpre
    rw [hm] at hpre
    constructor
    · intro hfail
      obtain ⟨s3, h3⟩ :=
        TSTimestampValueSliceCmd_loop_fails rd parseFloat m (0 + j) val s2 e hfail
      have hfull : TSTimestampValueSliceCmd.loop rd parseFloat (j + (m + 1)) 0
          (List.replicate (j + (m + 1)) ⟨0, 0⟩) s1 = (some e, val, s3) := by
        rw [TSTimestampValueSliceCmd_loop_add, hpre]
        exact h3
      exact ⟨⟨some e, ⟨some val⟩, s3⟩, by
        simp [TSTimestampValueSliceCmd.readReply, hlen, hneg, hm, hfull], rfl, rfl⟩
    · intro t x hfail
      obtain ⟨s3, h3⟩ :=
        TSTimestampValueSliceCmd_loop_parse_fails rd parseFloat m (0 + j) val s2 t x e hfail
      have hfull : TSTimestampValueSliceCmd.loop rd parseFloat (j + (m + 1)) 0
          (List.replicate (j + (m + 1)) ⟨0, 0⟩) s1 = (some e, val.set j ⟨t, x⟩, s3) := by
        rw [TSTimestampValueSliceCmd_loop_add, hpre]
        rw [Nat.zero_add] at h3
        simpa using h3
      exact ⟨⟨some e, ⟨some (val.set j ⟨t, x⟩)⟩, s3⟩, by
        simp [TSTimestampValueSliceCmd.readReply, hlen, hneg, hm, hfull], rfl, rfl⟩

/-- Witness for C19 (amended): a `TS.GET` reply of two pairs; the first pair
`(1, "1.5")` decodes, the value `abc` of the second pair `(1700, "abc")` does
not parse, and `val` is left holding the timestamp 1700. -/
theorem filling_decoders_on_error_witness :
    (TSTimestampValueCmd.readReply scriptReader sampleParseFloat ⟨⟨5, 0⟩⟩
        [.mapLen 2, .int 1, .text "1.5", .int 1700, .text "abc"]).err
        = some (.other "strconv.ParseFloat: parsing abc: invalid syntax")
      ∧ (TSTimestampValueCmd.readReply scriptReader sampleParseFloat ⟨⟨5, 0⟩⟩
        [.mapLen 2, .int 1, .text "1.5", .int 1700, .text "abc"]).cmd.val = ⟨1700, 0⟩ :=
  ((filling_decoders_on_error scriptReader sampleParseFloat
    [.mapLen 2, .int 1, .text "1.5", .int 1700, .text "abc"]
    [.int 1, .text "1.5", .int 1700, .text "abc"] [.int 1700, .text "abc"] 2 1
    (.other "strconv.ParseFloat: parsing abc: invalid syntax") (by decide)).2.1.2
      ⟨⟨5, 0⟩⟩ ⟨1, 0x3FF8000000000000⟩ rfl rfl).2 1700 0 ⟨rfl, "abc", rfl, rfl⟩

/-! ## Reader failures in `JSONSliceCmd` -/

theorem JSONSliceCmd.readReply_array_failure {σ : Type} (rd : Reader σ) (cmd : JSONSliceCmd)
    (s s1 s2 : σ) (e : GoError) (herr : cmd.err ≠ some .Nil)
    (hpeek : rd.PeekReplyType s = (.ok .array, s1)) (hread : rd.ReadReply s1 = (.error e, s2)) :
    JSONSliceCmd.readReply rd cmd s = .ok ⟨none, cmd, s2⟩ := by
  simp [JSONSliceCmd.readReply, herr, hpeek, hread]

theorem JSONSliceCmd.readReply_list_failure {σ : Type} (rd : Reader σ) (cmd : JSONSliceCmd)
    (s s1 s2 : σ) (t : ReplyShape) (e : GoError) (herr : cmd.err ≠ some .Nil)
    (hpeek : rd.PeekReplyType s = (.ok t, s1)) (ht : t ≠ .array)
    (hread : rd.ReadArrayLen s1 = (.error e, s2)) :
    JSONSliceCmd.readReply rd cmd s = .ok ⟨some e, cmd, s2⟩ := by
  simp [JSONSliceCmd.readReply, herr, hpeek, ht, hread]

/-- C20 fails on the array path of `JSONSliceCmd.readReply`: for an array reply
whose reading breaks off with the I/O error `i/o timeout`, `ReadReply` fails
but `readReply` returns no error and leaves the command as it was; on the
string-list path the same failure of `ReadArrayLen` is returned. -/
theorem JSONSliceCmd_swallows_array_failure :
    scriptReader.ReadReply [.broken .array "i/o timeout"]
        = (.error (.other "i/o timeout"), [])
      ∧ JSONSliceCmd.readReply scriptReader ⟨none, none⟩ [.broken .array "i/o timeout"]
        = .ok ⟨none, ⟨none, none⟩, []⟩
      ∧ JSONSliceCmd.readReply scriptReader ⟨none, none⟩
          [.broken .scalarString "i/o timeout"]
        = .ok ⟨some (.other "i/o timeout"), ⟨none, none⟩, []⟩ :=
  ⟨rfl, JSONSliceCmd.readReply_array_failure scriptReader ⟨none, none⟩ _ _ _ _ (by decide)
    rfl rfl, JSONSliceCmd.readReply_list_failure scriptReader ⟨none, none⟩ _ _ _ _ _
    (by decide) rfl (by decide) rfl⟩

/-! ## Shape of the elements in `TSTimestampValueSliceCmd` -/

theorem TSTimestampValueSliceCmd_loop_delivers {σ : Type} (rd : Reader σ)
    (parseFloat : String → Float64 × Option GoError) (es done tail : List TSTimestampValue)
    (s t : σ) (hd : deliversSamples rd parseFloat es s t) :
    TSTimestampValueSliceCmd.loop rd parseFloat es.length done.length
        (done ++ (List.replicate es.length ⟨0, 0⟩ ++ tail)) s = (none, done ++ (es ++ tail), t) := by
  induction es generalizing done s with
  | nil =>
    have hst : s = t := hd
    simp [TSTimestampValueSliceCmd.loop, hst]
  | cons e es ih =>
    obtain ⟨h1, text, h2, h3, hrest⟩ := hd
    rcases hri : rd.ReadInt (rd.ReadArrayLen s).2 with ⟨a, sa⟩
    rw [hri] at h1 h2 hrest
    simp only at h1 h2 hrest
    subst h1
    rcases hrs : rd.ReadString sa with ⟨b, sb⟩
    rw [hrs] at h2 hrest
    simp only at h2 hrest
    subst h2
    have hstep := ih (done ++ [e]) sb hrest
    simp only [List.length_append, List.length_singleton, List.append_assoc,
      List.singleton_append] at hstep
    simp only [List.length_cons, TSTimestampValueSliceCmd.loop, hri, hrs, h3]
    rw [list_set_twice_entry]
    simp only [List.replicate_succ, List.cons_append, list_set_length_append]
    exact hstep

/-- C21, as stated, fails: the result of the inner `rd.ReadArrayLen()` is
discarded.  For an outer array of one element that is a map (the inner array
length read fails), and for one whose element is a three-element array,
`readReply` returns no error. -/
theorem TSTimestampValueSliceCmd_ignores_inner_length :
    (scriptReader.ReadArrayLen [.mapLen 1, .int 10, .text "1.5"]).1
        = .error (.other "redis: can't parse array reply")
      ∧ TSTimestampValueSliceCmd.readReply scriptReader sampleParseFloat ⟨none⟩
          [.arrayLen 1, .mapLen 1, .int 10, .text "1.5"]
        = .ok ⟨none, ⟨some [⟨10, 0x3FF8000000000000⟩]⟩, []⟩
      ∧ TSTimestampValueSliceCmd.readReply scriptReader sampleParseFloat ⟨none⟩
          [.arrayLen 1, .arrayLen 3, .int 10, .text "1.5", .text "x"]
        = .ok ⟨none, ⟨some [⟨10, 0x3FF8000000000000⟩]⟩, [.text "x"]⟩ :=
  ⟨rfl, rfl, rfl⟩

/-- C21, amended: for every outer array reply of `n` elements,
`TSTimestampValueSliceCmd.readReply` does not look at the outcome of reading an
element's inner array length.  When `es` are the elements that yield a
timestamp and a value text that parses: if they are all `n` elements,
`readReply` succeeds and the result has exactly `n` entries in wire order,
entry `i` holding the timestamp and parsed value of element `i`; if they are
fewer and the timestamp or the value of the next element cannot be read, or its
value does not parse, `readReply` returns that error. -/
theorem TSTimestampValueSliceCmd_readReply_samples {σ : Type} (rd : Reader σ)
    (parseFloat : String → Float64 × Option GoError) (cmd : TSTimestampValueSliceCmd)
    (s0 t : σ) (n : Nat) (es : List TSTimestampValue)
    (hlen : (rd.ReadArrayLen s0).1 = .ok (n : Int))
    (hd : deliversSamples rd parseFloat es (rd.ReadArrayLen s0).2 t) :
    (es.length = n →
        TSTimestampValueSliceCmd.readReply rd parseFloat cmd s0 = .ok ⟨none, ⟨some es⟩, t⟩
          ∧ (Slice.elems (some es : Slice TSTimestampValue)).length = n)
      ∧ (es.length < n → ∀ e,
          (pairReadFails rd (rd.ReadArrayLen t).2 e
              ∨ ∃ ts x, pairParseFails rd parseFloat (rd.ReadArrayLen t).2 ts x e) →
          ∃ out, TSTimestampValueSliceCmd.readReply rd parseFloat cmd s0 = .ok out
            ∧ out.err = some e) := by
  rcases hal : rd.ReadArrayLen s0 with ⟨a, sa⟩
  rw [hal] at hlen hd
  simp only at hlen hd
  subst hlen
  have hneg : ¬ ((n : Int) < 0) := by omega
  constructor
  · rintro rfl
    have h := TSTimestampValueSliceCmd_loop_delivers rd parseFloat es [] [] sa t hd
    simp only [List.length_nil, List.nil_append, List.append_nil] at h
    refine ⟨?_, rfl⟩
    simp only [TSTimestampValueSliceCmd.readReply, hal, hneg, if_false, Int.toNat_ofNat, h]
  · intro hlt e hfail
    obtain ⟨m, rfl⟩ : ∃ m, n = es.length + (m + 1) := ⟨n - es.length - 1, by omega⟩
    have hpre := TSTimestampValueSliceCmd_loop_delivers rd parseFloat es []
      (List.replicate (m + 1) ⟨0, 0⟩) sa t hd
    simp only [List.length_nil, List.nil_append, ← List.replicate_add] at hpre
    have hstop : ∃ val3 s3, TSTimestampValueSliceCmd.loop rd parseFloat (m + 1)
        (0 + es.length) (es ++ List.replicate (m + 1) ⟨0, 0⟩) t = (some e, val3, s3) := by
      rcases hfail with hf | ⟨ts, x, hf⟩
      · obtain ⟨s3, h3⟩ := TSTimestampValueSliceCmd_loop_fails rd parseFloat m
          (0 + es.length) (es ++ List.replicate (m + 1) ⟨0, 0⟩) t e hf
        exact ⟨_, s3, h3⟩
      · obtain ⟨s3, h3⟩ := TSTimestampValueSliceCmd_loop_parse_fails rd parseFloat m
          (0 + es.length) (es ++ List.replicate (m + 1) ⟨0, 0⟩) t ts x e hf
        exact ⟨_, s3, h3⟩
    obtain ⟨val3, s3, h3⟩ := hstop
    have hfull : TSTimestampValueSliceCmd.loop rd parseFloat (es.length + (m + 1)) 0
        (List.replicate (es.length + (m + 1)) ⟨0, 0⟩) sa = (some e, val3, s3) := by
      rw [TSTimestampValueSliceCmd_loop_add, hpre]
      exact h3
    exact ⟨⟨some e, ⟨some val3⟩, s3⟩, by
      simp only [TSTimestampValueSliceCmd.readReply, hal, hneg, if_false, Int.toNat_ofNat,
        hfull], rfl⟩

/-- Witness for C21 (amended): an outer array of two well-formed elements
`(10, "1.5")` and `(20, "1.5")`. -/
theorem TSTimestampValueSliceCmd_readReply_samples_witness :
    TSTimestampValueSliceCmd.readReply scriptReader sampleParseFloat ⟨none⟩
        [.arrayLen 2, .arrayLen 2, .int 10, .text "1.5", .arrayLen 2, .int 20, .text "1.5"]
      = .ok ⟨none, ⟨some [⟨10, 0x3FF8000000000000⟩, ⟨20, 0x3FF8000000000000⟩]⟩, []⟩ :=
  ((TSTimestampValueSliceCmd_readReply_samples scriptReader sampleParseFloat ⟨none⟩
    [.arrayLen 2, .arrayLen 2, .int 10, .text "1.5", .arrayLen 2, .int 20, .text "1.5"] []
    2 [⟨10, 0x3FF8000000000000⟩, ⟨20, 0x3FF8000000000000⟩] rfl
    ⟨rfl, "1.5", rfl, rfl, rfl, "1.5", rfl, rfl, rfl⟩).1 rfl).1

/-! ## Validation at encode time -/

/-- C22: for every `LibraryInfo`, `Validate` returns nil exactly when exactly
one of `LibName` and `LibVer` is non-nil; it returns an error when both are set
and when neither is set; and whenever `Validate` returns an error,
`ClientSetInfo` panics with the text of that error before any command is built
or dispatched, while otherwise it dispatches one command. -/
theorem LibraryInfo_validate_exactly_one (c : Dispatcher) (version : String)
    (info : LibraryInfo) :
    (info.Validate = none ↔
        (info.LibName ≠ none ∧ info.LibVer = none) ∨ (info.LibName = none ∧ info.LibVer ≠ none))
      ∧ (info.LibName ≠ none ∧ info.LibVer ≠ none → info.Validate
          = some (.other "both LibName and LibVer cannot be set at the same time"))
      ∧ (info.LibName = none ∧ info.LibVer = none → info.Validate
          = some (.other "at least one of LibName and LibVer should be set"))
      ∧ (∀ err, info.Validate = some err →
          statefulCmdable.ClientSetInfo c version info = .error err.Error)
      ∧ (info.Validate = none →
          ∃ sent, statefulCmdable.ClientSetInfo c version info = .ok sent
            ∧ sent.dispatched.length = 1) := by
  obtain ⟨name, ver⟩ := info
  cases name <;> cases ver <;>
    simp [LibraryInfo.Validate, statefulCmdable.ClientSetInfo, GoError.Error, dispatch]

/-- C23: `BitCount` returns a command already holding the error
`redis: invalid bitcount index` without calling the dispatcher exactly when the
options are non-nil and `Unit` is none of `""`, `"BYTE"`, `"BIT"`; otherwise
the dispatcher is called once, with the command `bitcount key` and the
arguments `Start, End`, followed by `Unit` when it is non-empty, or with no
arguments when the options are nil. -/
theorem BitCount_rejects_unknown_unit (c : Dispatcher) (key : String) (b : Option BitCount) :
    (((cmdable.BitCount c key b).cmd.err = some (.other "redis: invalid bitcount index")
          ∧ (cmdable.BitCount c key b).dispatched = [])
        ↔ ∃ bc, b = some bc ∧ bc.Unit ≠ "" ∧ bc.Unit ≠ "BYTE" ∧ bc.Unit ≠ "BIT")
      ∧ (¬ (∃ bc, b = some bc ∧ bc.Unit ≠ "" ∧ bc.Unit ≠ "BYTE" ∧ bc.Unit ≠ "BIT") →
          (cmdable.BitCount c key b).dispatched
              = [newCmd2 "bitcount" key (match b with
                  | none => none
                  | some bc => some ([.int64 bc.Start, .int64 bc.End]
                      ++ if bc.Unit = "" then [] else [.string bc.Unit]))]
            ∧ (cmdable.BitCount c key b).cmd
              = c (newCmd2 "bitcount" key (match b with
                  | none => none
                  | some bc => some ([.int64 bc.Start, .int64 bc.End]
                      ++ if bc.Unit = "" then [] else [.string bc.Unit])))) := by
  cases b with
  | none => simp [cmdable.BitCount, dispatch]
  | some bc =>
    by_cases h1 : bc.Unit = ""
    · simp [cmdable.BitCount, dispatch, h1, Slice.append, Slice.elems]
    · by_cases h2 : bc.Unit = "BYTE"
      · simp [cmdable.BitCount, dispatch, h2, Slice.append, Slice.elems, BitCountIndexByte,
          BitCountIndexBit]
      · by_cases h3 : bc.Unit = "BIT"
        · simp [cmdable.BitCount, dispatch, h3, Slice.append, Slice.elems, BitCountIndexByte,
            BitCountIndexBit]
        · simp [cmdable.BitCount, reject, newCmd, h1, h2, h3, BitCountIndexByte,
            BitCountIndexBit]

theorem BitFieldRO_loop_spec (values : List Value) (m j fuel : Nat) (acc : List Value)
    (hlen : values.length = 2 * (j + m)) (hfuel : m ≤ fuel) :
    cmdable.BitFieldRO.loop values fuel (2 * j) (some acc)
      = some (acc ++ (List.range' j m).flatMap fun i =>
          [.string "GET", values.getD (2 * i) .nil, values.getD (2 * i + 1) .nil]) := by
  induction m generalizing j fuel acc with
  | zero =>
    have hnot : ¬ 2 * j < values.length := by omega
    cases fuel <;> simp [cmdable.BitFieldRO.loop, hnot]
  | succ m ih =>
    obtain ⟨fuel, rfl⟩ : ∃ f, fuel = f + 1 := ⟨fuel - 1, by omega⟩
    have hlt : 2 * j < values.length := by omega
    have hstep := ih (j + 1) fuel
      (acc ++ [.string "GET", values.getD (2 * j) .nil, values.getD (2 * j + 1) .nil])
      (by omega) (by omega)
    have h2 : 2 * (j + 1) = 2 * j + 2 := by ring
    rw [h2] at hstep
    simp only [cmdable.BitFieldRO.loop, hlt, if_true]
    have happ : Slice.append (some acc)
        [.string "GET", values.getD (2 * j) .nil, values.getD (2 * j + 1) .nil]
        = some (acc ++ [.string "GET", values.getD (2 * j) .nil,
            values.getD (2 * j + 1) .nil]) := rfl
    rw [happ, hstep, List.range'_succ, List.flatMap_cons]
    simp

theorem length_flatMap_three {α : Type} (l : List Nat) (f g h : Nat → α) :
    (l.flatMap fun i => [f i, g i, h i]).length = 3 * l.length := by
  induction l with
  | nil => rfl
  | cons a l ih => simp [List.flatMap_cons, ih]; ring

/-- C24: `BitFieldRO` panics, before any dispatch, exactly when the number of
values is odd; for an even number `2k` of values it dispatches once the command
`BITFIELD_RO key` whose argument list is, for `i = 0..k-1` in order, the three
tokens `GET`, `values[2i]`, `values[2i+1]`, so it has exactly `3k` tokens. -/
theorem BitFieldRO_get_triples (c : Dispatcher) (key : String) (values : List Value) :
    ((∃ msg, cmdable.BitFieldRO c key values = .error msg) ↔ values.length % 2 = 1)
      ∧ ∀ k, values.length = 2 * k →
          ∃ args, cmdable.BitFieldRO c key values
              = .ok (dispatch c (newCmd2 "BITFIELD_RO" key (some args)))
            ∧ args = (List.range k).flatMap (fun i =>
                [.string "GET", values.getD (2 * i) .nil, values.getD (2 * i + 1) .nil])
            ∧ args.length = 3 * k := by
  constructor
  · by_cases h : values.length % 2 = 1
    · have h0 : ¬ values.length % 2 = 0 := by omega
      simp [cmdable.BitFieldRO, h0, h]
    · have h0 : values.length % 2 = 0 := by omega
      simp [cmdable.BitFieldRO, h0]
  · intro k hk
    have h0 : values.length % 2 = 0 := by omega
    have hloop := BitFieldRO_loop_spec values k 0 values.length [] (by omega) (by omega)
    simp only [Nat.mul_zero, List.nil_append] at hloop
    refine ⟨_, ?_, rfl, ?_⟩
    · simp only [cmdable.BitFieldRO, h0, ne_eq, not_true_eq_false, if_false, hloop,
        List.range_eq_range']
    · rw [length_flatMap_three, List.length_range]

/-- C25: the optional-count commands panic, before any dispatch, exactly when
too many values are given, and otherwise append the values in order: `BitPos`
with more than 2 positions (with 0, 1 or 2 its arguments are `bit` followed by
the positions); `MemoryUsage` with more than 1 sample count (with one its
arguments are `SAMPLES`, `n`, with none it has no arguments); `ZPopMax` and
`ZPopMin` with more than 1 count (with one its argument is the count). -/
theorem optional_count_commands (c : Dispatcher) (key : String) (bit : Int)
    (pos samples count : List Int) :
    (((∃ msg, cmdable.BitPos c key bit pos = .error msg) ↔ 2 < pos.length)
        ∧ (pos.length ≤ 2 → cmdable.BitPos c key bit pos
            = .ok (dispatch c (newCmd2 "bitpos" key (some (.int64 bit :: pos.map .int64))))))
      ∧ (((∃ msg, cmdable.MemoryUsage c key samples = .error msg) ↔ 1 < samples.length)
        ∧ (∀ n, samples = [n] → cmdable.MemoryUsage c key samples
            = .ok (dispatch c { newCmd3 "memory" "usage" key
                (some [.string "SAMPLES", .int .Int n]) with keyPos := 2 }))
        ∧ (samples = [] → cmdable.MemoryUsage c key samples
            = .ok (dispatch c { newCmd3 "memory" "usage" key none with keyPos := 2 })))
      ∧ (((∃ msg, cmdable.ZPopMax c key count = .error msg) ↔ 1 < count.length)
        ∧ (∀ n, count = [n] → cmdable.ZPopMax c key count
            = .ok (dispatch c (newCmd2 "zpopmax" key (some [.int64 n]))))
        ∧ (count = [] → cmdable.ZPopMax c key count
            = .ok (dispatch c (newCmd2 "zpopmax" key none))))
      ∧ (((∃ msg, cmdable.ZPopMin c key count = .error msg) ↔ 1 < count.length)
        ∧ (∀ n, count = [n] → cmdable.ZPopMin c key count
            = .ok (dispatch c (newCmd2 "zpopmin" key (some [.int64 n]))))
        ∧ (count = [] → cmdable.ZPopMin c key count
            = .ok (dispatch c (newCmd2 "zpopmin" key none)))) := by
  refine ⟨⟨?_, ?_⟩, ⟨?_, ?_, ?_⟩, ⟨?_, ?_, ?_⟩, ⟨?_, ?_, ?_⟩⟩
  · rcases pos with _ | ⟨p0, _ | ⟨p1, _ | ⟨p2, rest⟩⟩⟩ <;> simp [cmdable.BitPos]
  · rcases pos with _ | ⟨p0, _ | ⟨p1, _ | ⟨p2, rest⟩⟩⟩ <;>
      simp [cmdable.BitPos, Slice.append, Slice.elems]
  · rcases samples with _ | ⟨n, _ | ⟨n1, rest⟩⟩ <;> simp [cmdable.MemoryUsage]
  · rintro n rfl
    simp [cmdable.MemoryUsage, Slice.append, Slice.elems]
  · rintro rfl
    simp [cmdable.MemoryUsage]
  · rcases count with _ | ⟨n, _ | ⟨n1, rest⟩⟩ <;> simp [cmdable.ZPopMax]
  · rintro n rfl
    simp [cmdable.ZPopMax, Slice.append, Slice.elems]
  · rintro rfl
    simp [cmdable.ZPopMax]
  · rcases count with _ | ⟨n, _ | ⟨n1, rest⟩⟩ <;> simp [cmdable.ZPopMin]
  · rintro n rfl
    simp [cmdable.ZPopMin, Slice.append, Slice.elems]
  · rintro rfl
    simp [cmdable.ZPopMin]

/-- C26: for every key and value, `Set` with expiration 0 dispatches the
argument list `[value]` with no expiry token; with expiration `KeepTTL` (-1)
it dispatches `[value, "keepttl"]`; and for every expiration above 0 the list is
`[value, unit, n]` with `unit` either `px` or `ex`. -/
theorem Set_expiration_tokens (c : Dispatcher) (key : String) (value : Value) :
    (cmdable.Set c key value 0).dispatched = [newCmd2 "set" key (some [value])]
      ∧ (cmdable.Set c key value KeepTTL).dispatched
        = [newCmd2 "set" key (some [value, .string "keepttl"])]
      ∧ ∀ expiration : Int, 0 < expiration →
          ∃ unit n, (cmdable.Set c key value expiration).dispatched
              = [newCmd2 "set" key (some [value, .string unit, .int64 n])]
            ∧ (unit = "px" ∨ unit = "ex") := by
  refine ⟨rfl, rfl, ?_⟩
  intro expiration hpos
  by_cases hp : usePrecise expiration = true
  · exact ⟨"px", formatMs expiration, by
      simp [cmdable.Set, dispatch, hpos, hp, Slice.append, Slice.elems], Or.inl rfl⟩
  · exact ⟨"ex", formatSec expiration, by
      simp [cmdable.Set, dispatch, hpos, hp, Slice.append, Slice.elems], Or.inr rfl⟩

/-! ## Option tokens of the sorted-set commands -/

theorem elems_foldl_members (ms : List Z) (a : Slice Value) :
    Slice.elems (ms.foldl
        (fun a m => Slice.append (Slice.append a [.float .Float64 m.Score]) [m.Member]) a)
      = Slice.elems a ++ ms.flatMap fun m => [.float .Float64 m.Score, m.Member] := by
  induction ms generalizing a with
  | nil => simp
  | cons m ms ih => simp [ih]

theorem length_flatMap_members (ms : List Z) :
    (ms.flatMap fun m => [Value.float .Float64 m.Score, m.Member]).length = 2 * ms.length := by
  induction ms with
  | nil => rfl
  | cons m ms ih => simp [List.flatMap_cons, ih]; ring

/-- C27: for every `ZAddArgs` value and every combination of its flags, the
output of `zAddArgs` is a list `opts` of option tokens followed, for each member
in order, by its score and then its member.  `opts` holds at most one of `nx`,
`gt`, `lt` and never both `nx` and `xx`, and the output has
`len(opts) + 2*len(Members)` tokens. -/
theorem zAddArgs_options (args : ZAddArgs) (incr : Bool) :
    ∃ opts : List String,
      Slice.elems (cmdable.zAddArgs args incr)
          = opts.map Value.string
            ++ args.Members.flatMap (fun m => [.float .Float64 m.Score, m.Member])
        ∧ (opts.filter fun o => decide (o = "nx" ∨ o = "gt" ∨ o = "lt")).length ≤ 1
        ∧ ¬ ("nx" ∈ opts ∧ "xx" ∈ opts)
        ∧ (∀ o ∈ opts, o ∈ ["nx", "xx", "gt", "lt", "ch", "incr"])
        ∧ (Slice.elems (cmdable.zAddArgs args incr)).length
          = opts.length + 2 * args.Members.length := by
  obtain ⟨nx, xx, lt, gt, ch, ms⟩ := args
  refine ⟨((if nx then ["nx"] else (if xx then ["xx"] else [])
      ++ (if gt then ["gt"] else if lt then ["lt"] else []))
      ++ (if ch then ["ch"] else [])) ++ (if incr then ["incr"] else []), ?_, ?_, ?_, ?_, ?_⟩
  · simp only [cmdable.zAddArgs, elems_foldl_members]
    cases nx <;> cases xx <;> cases lt <;> cases gt <;> cases ch <;> cases incr <;> rfl
  · cases nx <;> cases xx <;> cases lt <;> cases gt <;> cases ch <;> cases incr <;> decide
  · cases nx <;> cases xx <;> cases lt <;> cases gt <;> cases ch <;> cases incr <;> decide
  · cases nx <;> cases xx <;> cases lt <;> cases gt <;> cases ch <;> cases incr <;> decide
  · simp only [cmdable.zAddArgs, elems_foldl_members, List.length_append,
      length_flatMap_members]
    cases nx <;> cases xx <;> cases lt <;> cases gt <;> cases ch <;> cases incr <;> rfl

/-- C28: for every `ZRangeArgs` `z`, `z.appendArgs(args)` is `args` followed by
`Key`; then `Stop, Start` if `Rev` is set together with `ByScore` or `ByLex`
and `Start, Stop` otherwise; then `byscore` if `ByScore`, else `bylex` if
`ByLex`; then `rev` if `Rev`; then `limit, Offset, Count` exactly when `Offset`
or `Count` is non-zero. -/
theorem ZRangeArgs_appendArgs_layout (z : ZRangeArgs) (args : Slice Value) :
    Slice.elems (z.appendArgs args)
      = Slice.elems args ++ [.string z.Key]
        ++ (if z.Rev = true ∧ (z.ByScore = true ∨ z.ByLex = true) then [z.Stop, z.Start]
            else [z.Start, z.Stop])
        ++ (if z.ByScore = true then [.string "byscore"]
            else if z.ByLex = true then [.string "bylex"] else [])
        ++ (if z.Rev = true then [.string "rev"] else [])
        ++ (if z.Offset ≠ 0 ∨ z.Count ≠ 0 then [.string "limit", .int64 z.Offset, .int64 z.Count]
            else []) := by
  obtain ⟨key, start, stop, byScore, byLex, rev, offset, count⟩ := z
  by_cases h : offset ≠ 0 ∨ count ≠ 0
  · cases byScore <;> cases byLex <;> cases rev <;> simp [ZRangeArgs.appendArgs, h]
  · cases byScore <;> cases byLex <;> cases rev <;> simp [ZRangeArgs.appendArgs, h]

/-! ## `GeoRadius` and its writing variants, `JSONSetMode` -/

theorem dispatch_not_rejected (c : Dispatcher) (cmd : Command) : ¬ (dispatch c cmd).rejected := by
  intro h
  exact absurd h.1 (by simp [dispatch])

theorem reject_rejected (cmd : Command) (err : GoError) : (reject cmd err).rejected := by
  simp [Sent.rejected, reject]

/-- C29: for every `GeoRadiusQuery` `q`, the read-only `GeoRadius` returns a
command that holds an error and was not dispatched if and only if `q.Store` or
`q.StoreDist` is non-empty, the writing `GeoRadiusStore` does so if and only if
both are empty, so exactly one of the two is rejected; the one that is not
rejected is dispatched exactly once.  The same holds for `GeoRadiusByMember` and
`GeoRadiusByMemberStore`. -/
theorem GeoRadius_store_exclusive (c : Dispatcher)
    (geoLocationArgs : GeoRadiusQuery → Slice Value → Slice Value) (key member : String)
    (longitude latitude : Float64) (q : GeoRadiusQuery) :
    (∃ ro st, cmdable.GeoRadius c key longitude latitude (some q) = .ok ro
        ∧ cmdable.GeoRadiusStore c geoLocationArgs key longitude latitude (some q) = .ok st
        ∧ (ro.rejected ↔ q.Store ≠ "" ∨ q.StoreDist ≠ "")
        ∧ (st.rejected ↔ q.Store = "" ∧ q.StoreDist = "")
        ∧ (ro.rejected ↔ ¬ st.rejected)
        ∧ (¬ ro.rejected → ro.dispatched.length = 1)
        ∧ (¬ st.rejected → st.dispatched.length = 1))
      ∧ ∃ ro st, cmdable.GeoRadiusByMember c key member (some q) = .ok ro
        ∧ cmdable.GeoRadiusByMemberStore c geoLocationArgs key member (some q) = .ok st
        ∧ (ro.rejected ↔ q.Store ≠ "" ∨ q.StoreDist ≠ "")
        ∧ (st.rejected ↔ q.Store = "" ∧ q.StoreDist = "")
        ∧ (ro.rejected ↔ ¬ st.rejected)
        ∧ (¬ ro.rejected → ro.dispatched.length = 1)
        ∧ (¬ st.rejected → st.dispatched.length = 1) := by
  by_cases h : q.Store = "" ∧ q.StoreDist = ""
  · have h2 : ¬ (q.Store ≠ "" ∨ q.StoreDist ≠ "") := by
      rintro (h1 | h1)
      · exact h1 h.1
      · exact h1 h.2
    constructor
    · refine ⟨_, _, by simp only [cmdable.GeoRadius, if_neg h2]; rfl,
        by simp only [cmdable.GeoRadiusStore, if_pos h]; rfl, ?_, ?_, ?_, ?_, ?_⟩
      · exact ⟨fun hr => absurd hr (dispatch_not_rejected _ _), fun hq => absurd hq h2⟩
      · exact ⟨fun _ => h, fun _ => reject_rejected _ _⟩
      · exact ⟨fun hr => absurd hr (dispatch_not_rejected _ _),
          fun hn => absurd (reject_rejected _ _) hn⟩
      · intro _; rfl
      · intro hn; exact absurd (reject_rejected _ _) hn
    · refine ⟨_, _, by simp only [cmdable.GeoRadiusByMember, if_neg h2]; rfl,
        by simp only [cmdable.GeoRadiusByMemberStore, if_pos h]; rfl, ?_, ?_, ?_, ?_, ?_⟩
      · exact ⟨fun hr => absurd hr (dispatch_not_rejected _ _), fun hq => absurd hq h2⟩
      · exact ⟨fun _ => h, fun _ => reject_rejected _ _⟩
      · exact ⟨fun hr => absurd hr (dispatch_not_rejected _ _),
          fun hn => absurd (reject_rejected _ _) hn⟩
      · intro _; rfl
      · intro hn; exact absurd (reject_rejected _ _) hn
  · have h2 : q.Store ≠ "" ∨ q.StoreDist ≠ "" := by
      by_cases h1 : q.Store = ""
      · exact Or.inr fun h3 => h ⟨h1, h3⟩
      · exact Or.inl h1
    constructor
    · refine ⟨_, _, by simp only [cmdable.GeoRadius, if_pos h2]; rfl,
        by simp only [cmdable.GeoRadiusStore, if_neg h]; rfl, ?_, ?_, ?_, ?_, ?_⟩
      · exact ⟨fun _ => h2, fun _ => reject_rejected _ _⟩
      · exact ⟨fun hr => absurd hr (dispatch_not_rejected _ _), fun hq => absurd hq h⟩
      · exact ⟨fun _ => dispatch_not_rejected _ _, fun _ => reject_rejected _ _⟩
      · intro hn; exact absurd (reject_rejected _ _) hn
      · intro _; rfl
    · refine ⟨_, _, by simp only [cmdable.GeoRadiusByMember, if_pos h2]; rfl,
        by simp only [cmdable.GeoRadiusByMemberStore, if_neg h]; rfl, ?_, ?_, ?_, ?_, ?_⟩
      · exact ⟨fun _ => h2, fun _ => reject_rejected _ _⟩
      · exact ⟨fun hr => absurd hr (dispatch_not_rejected _ _), fun hq => absurd hq h⟩
      · exact ⟨fun _ => dispatch_not_rejected _ _, fun _ => reject_rejected _ _⟩
      · intro hn; exact absurd (reject_rejected _ _) hn
      · intro _; rfl

/-- C30, the claim fails: `JSONSetMode` with the empty mode and a value that
`json.Marshal` rejects (a function) returns a command that holds the marshalling
error with the argument list `[""]` and is not dispatched, an encode-time
failure with an empty mode. -/
theorem JSONSetMode_marshal_failure_rejected :
    cmdable.JSONSetMode sampleDispatcher sampleMarshal sampleToUpper "doc" "$"
        (.other (.func false)) ""
      = .ok ⟨{ newCmd3S "JSON.SET" "doc" "$" (some [""]) with
                err := some (.other "json: unsupported type: func()") }, []⟩
      ∧ cmdable.JSONSet sampleDispatcher sampleMarshal sampleToUpper "doc" "$"
          (.other (.func false))
        = .ok (reject (newCmd3S "JSON.SET" "doc" "$" (some [""]))
            (.other "json: unsupported type: func()"))
      ∧ (reject (newCmd3S "JSON.SET" "doc" "$" (some [""]))
            (.other "json: unsupported type: func()")).rejected :=
  ⟨rfl, rfl, reject_rejected _ _⟩

/-- C30, amended: `JSONSetMode` panics if and only if `mode` is non-empty and
its upper-case form is neither `XX` nor `NX`.  Otherwise it returns a command
with the argument list `[json, upper-case mode]` for a non-empty mode and
`[json]` for the empty mode: when `value` is a string or a byte slice, `json` is
that value unchanged and the command is dispatched once; when `value` is of
another type and `json.Marshal` gives `json`, the command is dispatched once;
and when `json.Marshal` fails, `json` is the empty text and the command is
returned holding the marshalling error without being dispatched. -/
theorem JSONSetMode_outcomes (c : Dispatcher) (marshal : Value → Except GoError String)
    (toUpper : String → String) (key path : String) (value : JSONArg) (mode : String) :
    ((∃ msg, cmdable.JSONSetMode c marshal toUpper key path value mode = .error msg)
        ↔ mode ≠ "" ∧ toUpper mode ≠ "XX" ∧ toUpper mode ≠ "NX")
      ∧ (∀ json, (value = .str json ∨ value = .bytes json
            ∨ ∃ v, value = .other v ∧ marshal v = .ok json) →
          (mode = "" → cmdable.JSONSetMode c marshal toUpper key path value mode
              = .ok (dispatch c (newCmd3S "JSON.SET" key path (some [json]))))
          ∧ (mode ≠ "" → (toUpper mode = "XX" ∨ toUpper mode = "NX") →
              cmdable.JSONSetMode c marshal toUpper key path value mode
                = .ok (dispatch c (newCmd3S "JSON.SET" key path (some [json, toUpper mode])))))
      ∧ ∀ v e, value = .other v → marshal v = .error e →
          (mode = "" → cmdable.JSONSetMode c marshal toUpper key path value mode
              = .ok (reject (newCmd3S "JSON.SET" key path (some [""])) e))
          ∧ (mode ≠ "" → (toUpper mode = "XX" ∨ toUpper mode = "NX") →
              cmdable.JSONSetMode c marshal toUpper key path value mode
                = .ok (reject (newCmd3S "JSON.SET" key path (some ["", toUpper mode])) e)) := by
  refine ⟨?_, ?_, ?_⟩
  · by_cases hm : mode = ""
    · subst hm
      constructor
      · rintro ⟨msg, h⟩
        simp only [cmdable.JSONSetMode, ne_eq, not_true_eq_false, if_false] at h
        split at h <;> cases h
      · intro h; exact absurd rfl h.1
    · by_cases hu : toUpper mode = "XX" ∨ toUpper mode = "NX"
      · constructor
        · rintro ⟨msg, h⟩
          simp only [cmdable.JSONSetMode, ne_eq, hm, not_false_eq_true, if_true, if_pos hu] at h
          split at h <;> cases h
        · intro h
          rcases hu with hu | hu
          · exact absurd hu h.2.1
          · exact absurd hu h.2.2
      · constructor
        · intro _
          exact ⟨hm, fun h => hu (Or.inl h), fun h => hu (Or.inr h)⟩
        · intro _
          exact ⟨"redis: JSON.SET mode must be NX or XX", by
            simp only [cmdable.JSONSetMode, ne_eq, hm, not_false_eq_true, if_true, if_neg hu]⟩
  · intro json hv
    constructor
    · intro hm
      subst hm
      rcases hv with rfl | rfl | ⟨v, rfl, hv⟩
      · rfl
      · rfl
      · simp [cmdable.JSONSetMode, hv]
    · intro hm hu
      rcases hv with rfl | rfl | ⟨v, rfl, hv⟩
      · simp [cmdable.JSONSetMode, hm, hu, Slice.append, Slice.elems]
      · simp [cmdable.JSONSetMode, hm, hu, Slice.append, Slice.elems]
      · simp [cmdable.JSONSetMode, hm, hu, hv, Slice.append, Slice.elems]
  · intro v e hv he
    subst hv
    constructor
    · intro hm
      subst hm
      simp [cmdable.JSONSetMode, he]
    · intro hm hu
      simp [cmdable.JSONSetMode, hm, hu, he, Slice.append, Slice.elems]

/-! ## Expiry tokens -/

theorem tdiv_of_nonneg (d k : Int) (hd : 0 ≤ d) (hk : 0 ≤ k) : d.tdiv k = d / k :=
  Int.tdiv_eq_ediv hd hk

theorem tdiv_of_neg (d k : Int) (hd : d < 0) (hk : 0 ≤ k) : d.tdiv k = -((-d) / k) := by
  have h : (-(-d)).tdiv k = -((-d).tdiv k) := Int.neg_tdiv (-d) k
  rw [Int.neg_neg] at h
  rw [h, Int.tdiv_eq_ediv (by omega) hk]

theorem usePrecise_of_pos (d : Int) (hd : 0 < d) :
    usePrecise d = true ↔ ¬ (Second ≤ d ∧ d % Second = 0) := by
  have hm : d.tmod Second = d % Second :=
    Int.tmod_eq_emod (by omega) (by simp [Second])
  simp only [usePrecise, hm, Bool.or_eq_true, decide_eq_true_eq, bne_iff_ne, ne_eq]
  constructor
  · rintro (h | h) ⟨h1, h2⟩
    · omega
    · exact h h2
  · intro h
    by_cases h1 : d < Second
    · exact Or.inl h1
    · exact Or.inr fun h2 => h ⟨by omega, h2⟩

/-- C31, evaluated: with the negative expiration `-2ns`, `SetNX` and `SetXX`
take the `default` case of their `switch` and send `px 0`, and with `-5ms`
they send `px -5`; `Set` and `GetEx`, which test `expiration > 0`, send no
expiry token for the same expirations. -/
theorem SetNX_SetXX_negative_expiry :
    (cmdable.SetNX sampleDispatcher "k" (.string "v") (-2)).dispatched
        = [newCmd2 "set" "k" (some [.string "v", .string "px", .int64 0, .string "nx"])]
      ∧ (cmdable.SetXX sampleDispatcher "k" (.string "v") (-2)).dispatched
        = [newCmd2 "set" "k" (some [.string "v", .string "px", .int64 0, .string "xx"])]
      ∧ (cmdable.SetNX sampleDispatcher "k" (.string "v") (-5 * Millisecond)).dispatched
        = [newCmd2 "set" "k" (some [.string "v", .string "px", .int64 (-5), .string "nx"])]
      ∧ (cmdable.SetXX sampleDispatcher "k" (.string "v") (-5 * Millisecond)).dispatched
        = [newCmd2 "set" "k" (some [.string "v", .string "px", .int64 (-5), .string "xx"])]
      ∧ (cmdable.Set sampleDispatcher "k" (.string "v") (-2)).dispatched
        = [newCmd2 "set" "k" (some [.string "v"])]
      ∧ (cmdable.GetEx sampleDispatcher "k" (-2)).dispatched = [newCmd2 "getex" "k" none] :=
  ⟨rfl, rfl, rfl, rfl, rfl, rfl⟩

/-- C32: for every expiration `d > 0` in nanoseconds, `Set` sends the tokens
`unit`, `n` after the value, where `unit` is `ex` exactly when `d` is at least
one second and a whole number of seconds, and then `n = d/1s`, reached without
the round-up case of `formatSec`; otherwise `unit` is `px` and `n` is 1 if
`d < 1ms` and `d/1ms` rounded down if not.  The duration the tokens denote is
`max(1ms, d rounded down to a whole millisecond)`, so a whole-millisecond
expiration is transmitted exactly. -/
theorem Set_expiry_denotes (c : Dispatcher) (key : String) (value : Value) (d : Int)
    (hd : 0 < d) :
    ∃ unit n, (cmdable.Set c key value d).dispatched
          = [newCmd2 "set" key (some [value, .string unit, .int64 n])]
      ∧ (unit = "ex" ↔ Second ≤ d ∧ d % Second = 0)
      ∧ (unit = "ex" → n = d / Second ∧ formatSec d = d.tdiv Second
          ∧ ¬ (0 < d ∧ d < Second))
      ∧ (unit ≠ "ex" → unit = "px" ∧ n = if d < Millisecond then 1 else d / Millisecond)
      ∧ expiryNanos unit n = max Millisecond (d / Millisecond * Millisecond)
      ∧ (d % Millisecond = 0 → expiryNanos unit n = d) := by
  by_cases hp : usePrecise d = true
  · have hnot := (usePrecise_of_pos d hd).1 hp
    have hn : formatMs d = if d < Millisecond then 1 else d / Millisecond := by
      by_cases hlt : d < Millisecond
      · simp [formatMs, hd, hlt]
      · have hno : ¬ (d > 0 ∧ d < Millisecond) := fun h => hlt h.2
        simp only [formatMs, if_neg hno, if_neg hlt]
        exact Int.tdiv_eq_ediv (by omega) (by simp [Millisecond])
    refine ⟨"px", formatMs d, ?_, ?_, ?_, ?_, ?_, ?_⟩
    · simp [cmdable.Set, dispatch, hd, hp, Slice.append, Slice.elems]
    · exact ⟨fun h => absurd h (by decide), fun h => absurd h hnot⟩
    · intro h; exact absurd h (by decide)
    · intro _; exact ⟨rfl, hn⟩
    · rw [hn]
      simp only [expiryNanos, Millisecond]
      rw [if_neg (by decide)]
      by_cases hlt : d < 1000000
      · rw [if_pos hlt]; omega
      · rw [if_neg hlt]; omega
    · intro hz
      rw [hn]
      simp only [expiryNanos, Millisecond] at hz ⊢
      rw [if_neg (by decide)]
      by_cases hlt : d < 1000000
      · omega
      · rw [if_neg hlt]; omega
  · have hw : Second ≤ d ∧ d % Second = 0 := by
      by_contra hcon
      exact hp ((usePrecise_of_pos d hd).2 hcon)
    have hno : ¬ (d > 0 ∧ d < Second) := fun h => by omega
    have hn : formatSec d = d / Second := by
      simp only [formatSec, if_neg hno]
      exact Int.tdiv_eq_ediv (by omega) (by simp [Second])
    have hn2 : formatSec d = d.tdiv Second := by
      simp only [formatSec, if_neg hno]
    refine ⟨"ex", formatSec d, ?_, ?_, ?_, ?_, ?_, ?_⟩
    · simp [cmdable.Set, dispatch, hd, hp, Slice.append, Slice.elems]
    · exact ⟨fun _ => hw, fun _ => rfl⟩
    · intro _; exact ⟨hn, hn2, fun h => by omega⟩
    · intro h; exact absurd rfl h
    · rw [hn]
      simp only [expiryNanos, Millisecond, Second] at hw ⊢
      rw [if_pos trivial]
      omega
    · intro _
      rw [hn]
      simp only [expiryNanos, Second] at hw ⊢
      rw [if_pos trivial]
      omega

/-- Witness for C32: 1500 ms is sent as `px 1500`, which denotes 1500 ms. -/
theorem Set_expiry_denotes_witness :
    ∃ unit n, (cmdable.Set sampleDispatcher "k" (.string "v") 1500000000).dispatched
          = [newCmd2 "set" "k" (some [.string "v", .string unit, .int64 n])]
      ∧ (unit = "ex" ↔ Second ≤ 1500000000 ∧ (1500000000 : Int) % Second = 0)
      ∧ (unit = "ex" → n = 1500000000 / Second ∧ formatSec 1500000000
            = (1500000000 : Int).tdiv Second
          ∧ ¬ ((0 : Int) < 1500000000 ∧ 1500000000 < Second))
      ∧ (unit ≠ "ex" → unit = "px"
          ∧ n = if (1500000000 : Int) < Millisecond then 1 else 1500000000 / Millisecond)
      ∧ expiryNanos unit n = max Millisecond (1500000000 / Millisecond * Millisecond)
      ∧ ((1500000000 : Int) % Millisecond = 0 → expiryNanos unit n = 1500000000) :=
  Set_expiry_denotes sampleDispatcher "k" (.string "v") 1500000000 (by decide)

/-- C33: for every duration `d`, `formatMs(d)` is 1 when `0 < d < 1ms` and
otherwise `d` divided by 1 ms truncated toward zero, and `formatSec(d)` is 1
when `0 < d < 1s` and otherwise `d` divided by 1 s truncated toward zero (the
quotient rounded down for `d ≥ 0` and the negated quotient of `-d` for
`d < 0`); every positive duration formats to a value of at least 1, the zero
duration formats to 0, and both functions are monotone non-decreasing. -/
theorem formatMs_formatSec_truncate :
    (∀ d : Int, formatMs d
        = if 0 < d ∧ d < Millisecond then 1
          else if 0 ≤ d then d / Millisecond else -((-d) / Millisecond))
      ∧ (∀ d : Int, formatSec d
        = if 0 < d ∧ d < Second then 1
          else if 0 ≤ d then d / Second else -((-d) / Second))
      ∧ (∀ d : Int, 0 < d → 1 ≤ formatMs d ∧ 1 ≤ formatSec d)
      ∧ formatMs 0 = 0 ∧ formatSec 0 = 0
      ∧ ∀ a b : Int, a ≤ b → formatMs a ≤ formatMs b ∧ formatSec a ≤ formatSec b := by
  have hms : ∀ d : Int, formatMs d
      = if 0 < d ∧ d < Millisecond then 1
        else if 0 ≤ d then d / Millisecond else -((-d) / Millisecond) := by
    intro d
    by_cases h : d > 0 ∧ d < Millisecond
    · have h2 : 0 < d ∧ d < Millisecond := h
      rw [formatMs, if_pos h, if_pos h2]
    · have h2 : ¬ (0 < d ∧ d < Millisecond) := h
      rw [formatMs, if_neg h, if_neg h2]
      by_cases h0 : 0 ≤ d
      · rw [if_pos h0]; exact tdiv_of_nonneg d _ h0 (by simp [Millisecond])
      · rw [if_neg h0]; exact tdiv_of_neg d _ (by omega) (by simp [Millisecond])
  have hsec : ∀ d : Int, formatSec d
      = if 0 < d ∧ d < Second then 1
        else if 0 ≤ d then d / Second else -((-d) / Second) := by
    intro d
    by_cases h : d > 0 ∧ d < Second
    · have h2 : 0 < d ∧ d < Second := h
      rw [formatSec, if_pos h, if_pos h2]
    · have h2 : ¬ (0 < d ∧ d < Second) := h
      rw [formatSec, if_neg h, if_neg h2]
      by_cases h0 : 0 ≤ d
      · rw [if_pos h0]; exact tdiv_of_nonneg d _ h0 (by simp [Second])
      · rw [if_neg h0]; exact tdiv_of_neg d _ (by omega) (by simp [Second])
  refine ⟨hms, hsec, ?_, by rfl, by rfl, ?_⟩
  · intro d hd
    rw [hms d, hsec d]
    simp only [Millisecond, Second]
    constructor
    · split_ifs <;> omega
    · split_ifs <;> omega
  · intro a b hab
    rw [hms a, hms b, hsec a, hsec b]
    simp only [Millisecond, Second]
    constructor
    · split_ifs <;> omega
    · split_ifs <;> omega

/-! ## Argument lists of `JSON.GET`, `CF.RESERVE`, `MODULE LOADEX` -/

theorem elems_foldl_paths (paths : List String) (a : Slice Value) :
    Slice.elems (paths.foldl (fun a path => Slice.append a [.string path]) a)
      = Slice.elems a ++ paths.map Value.string := by
  induction paths generalizing a with
  | nil => simp
  | cons p paths ih => simp [ih]

theorem JSONGetWithArgs_with_options (c : Dispatcher) (key : String) (o : JSONGetArgs)
    (paths : List String) :
    ∃ cmd, (cmdable.JSONGetWithArgs c key (some o) paths).dispatched = [cmd]
      ∧ cmd.tail
        = (if o.Indent = "" then [] else [.string "INDENT", .string o.Indent])
          ++ (if o.Newline = "" then [] else [.string "NEWLINE", .string o.Newline])
          ++ (if o.Space = "" then [] else [.string "SPACE", .string o.Space])
          ++ paths.map Value.string := by
  refine ⟨_, rfl, ?_⟩
  by_cases h1 : o.Indent = "" <;> by_cases h2 : o.Newline = "" <;> by_cases h3 : o.Space = "" <;>
    simp [Command.tail, newCmd2Both, elems_foldl_paths, h1, h2, h3]

/-- C34, evaluated: `JSONGetWithArgs` with nil options and the paths `$.a`,
`$.b` dispatches `JSON.GET doc` with no path at all, because the loop over the
paths stands inside `if options != nil`; `JSONGet` with the same key and paths,
and `JSONGetWithArgs` with non-nil empty options, both carry the two paths. -/
theorem JSONGetWithArgs_nil_options_drops_paths :
    (cmdable.JSONGetWithArgs sampleDispatcher "doc" none ["$.a", "$.b"]).dispatched
        = [newCmd2Both "JSON.GET" "doc" none none]
      ∧ (newCmd2Both "JSON.GET" "doc" none none).tail = []
      ∧ (cmdable.JSONGet sampleDispatcher "doc" ["$.a", "$.b"]).dispatched
        = [newCmd2Both "JSON.GET" "doc" none (some ["$.a", "$.b"])]
      ∧ (newCmd2Both "JSON.GET" "doc" none (some ["$.a", "$.b"])).tail
        = [.string "$.a", .string "$.b"]
      ∧ (cmdable.JSONGetWithArgs sampleDispatcher "doc" (some ⟨"", "", ""⟩)
            ["$.a", "$.b"]).dispatched
        = [newCmd2Both "JSON.GET" "doc" (some [.string "$.a", .string "$.b"]) none] :=
  ⟨rfl, rfl, rfl, rfl, rfl⟩

/-- C35, evaluated: `CFReserveMaxIterations` hands the variadic constructor
three arguments, so the command is `CF.RESERVE`, `cf` and one token that is
itself the list `[100, "MAXITERATIONS", 20]`, of kind `Slice`, while
`CFReserveBucketSize` and `CFReserveExpansion` build the command `CF.RESERVE`
with first argument `cf` and three scalar tokens. -/
theorem CFReserveMaxIterations_nested_list :
    (cmdable.CFReserveMaxIterations sampleDispatcher "cf" 100 20).dispatched
        = [newCmd (some [.string "CF.RESERVE", .string "cf",
            .ifaceSlice (some [.int64 100, .string "MAXITERATIONS", .int64 20])])]
      ∧ ((cmdable.CFReserveMaxIterations sampleDispatcher "cf" 100 20).dispatched.flatMap
            Command.tail).map Value.kind = [.String, .String, .Slice]
      ∧ ((cmdable.CFReserveMaxIterations sampleDispatcher "cf" 100 20).dispatched.flatMap
            Command.tail).map Value.isScalar = [true, true, false]
      ∧ (cmdable.CFReserveBucketSize sampleDispatcher "cf" 100 20).dispatched
        = [newCmd2 "CF.RESERVE" "cf" (some [.int64 100, .string "BUCKETSIZE", .int64 20])]
      ∧ (cmdable.CFReserveExpansion sampleDispatcher "cf" 100 20).dispatched
        = [newCmd2 "CF.RESERVE" "cf" (some [.int64 100, .string "EXPANSION", .int64 20])]
      ∧ ((cmdable.CFReserveBucketSize sampleDispatcher "cf" 100 20).dispatched.flatMap
            Command.tail).map Value.isScalar = [true, true, true] :=
  ⟨rfl, rfl, rfl, rfl, rfl, rfl⟩

theorem elems_foldl_conf (conf : List (String × Value)) (a : Slice Value) :
    Slice.elems (conf.foldl (fun a kv => Slice.append a [.string "CONFIG", .string kv.1, kv.2]) a)
      = Slice.elems a ++ conf.flatMap fun kv => [.string "CONFIG", .string kv.1, kv.2] := by
  induction conf generalizing a with
  | nil => simp
  | cons kv conf ih => simp [ih]

theorem elems_foldl_ARGS (xs : List Value) (a : Slice Value) :
    Slice.elems (xs.foldl (fun a arg => Slice.append a [.string "ARGS", arg]) a)
      = Slice.elems a ++ xs.flatMap fun arg => [.string "ARGS", arg] := by
  induction xs generalizing a with
  | nil => simp
  | cons x xs ih => simp [ih]

theorem ModuleLoadexConfig_toArgs_elems (c : ModuleLoadexConfig) :
    Slice.elems c.toArgs
      = [.string "MODULE", .string "LOADEX", .string c.Path]
        ++ (c.Conf.flatMap fun kv => [.string "CONFIG", .string kv.1, kv.2])
        ++ (Slice.elems c.Args).flatMap fun arg => [.string "ARGS", arg] := by
  simp [ModuleLoadexConfig.toArgs, elems_foldl_conf, elems_foldl_ARGS]

/-- C36, evaluated: for `Path = /m.so`, `Conf = \x7bname: v\x7d` and
`Args = [a, b]`, `toArgs` gives `MODULE LOADEX /m.so CONFIG name v ARGS a ARGS b`
with the keyword `ARGS` before each element (10 tokens), where the documented
grammar has `MODULE LOADEX /m.so CONFIG name v ARGS a b` (9 tokens). -/
theorem ModuleLoadex_repeats_ARGS :
    Slice.elems (ModuleLoadexConfig.toArgs
        ⟨"/m.so", [("name", .string "v")], some [.string "a", .string "b"]⟩)
        = [.string "MODULE", .string "LOADEX", .string "/m.so",
            .string "CONFIG", .string "name", .string "v",
            .string "ARGS", .string "a", .string "ARGS", .string "b"]
      ∧ ModuleLoadexConfig.grammar
          ⟨"/m.so", [("name", .string "v")], some [.string "a", .string "b"]⟩
        = [.string "MODULE", .string "LOADEX", .string "/m.so",
            .string "CONFIG", .string "name", .string "v",
            .string "ARGS", .string "a", .string "b"]
      ∧ Slice.elems (ModuleLoadexConfig.toArgs
          ⟨"/m.so", [("name", .string "v")], some [.string "a", .string "b"]⟩)
        ≠ ModuleLoadexConfig.grammar
          ⟨"/m.so", [("name", .string "v")], some [.string "a", .string "b"]⟩ :=
  ⟨rfl, rfl, fun h => absurd (congrArg List.length h) (by decide)⟩

/-! ## `shutdown` -/

/-- C37: for every dispatcher, with `out` the command as the dispatcher left
it, the command returned by `shutdown` has no error if and only if `out` holds
the error `io.EOF`, and then it is `out` with the error cleared; if `out` holds
no error, the returned command holds an error whose message is the reply text
`out.val` and its `val` is the empty string; any other error is returned
unchanged, with the whole command.  The command `shutdown modifier` is
dispatched exactly once, and `Shutdown`, `ShutdownSave` and `ShutdownNoSave`
are `shutdown` with the modifiers `""`, `save` and `nosave`. -/
theorem shutdown_error_mapping (c : Dispatcher) (modifier : String) :
    ((cmdable.shutdown c modifier).cmd.err = none
        ↔ (c (newCmd2 "shutdown" modifier none)).err = some .EOF)
      ∧ ((c (newCmd2 "shutdown" modifier none)).err = some .EOF →
          (cmdable.shutdown c modifier).cmd
            = { c (newCmd2 "shutdown" modifier none) with err := none })
      ∧ ((c (newCmd2 "shutdown" modifier none)).err = none →
          ∃ e, (cmdable.shutdown c modifier).cmd.err = some e
            ∧ e.Error = (c (newCmd2 "shutdown" modifier none)).val
            ∧ (cmdable.shutdown c modifier).cmd.val = "")
      ∧ (∀ e, (c (newCmd2 "shutdown" modifier none)).err = some e → e ≠ .EOF →
          (cmdable.shutdown c modifier).cmd = c (newCmd2 "shutdown" modifier none))
      ∧ (cmdable.shutdown c modifier).dispatched = [newCmd2 "shutdown" modifier none]
      ∧ cmdable.Shutdown c = cmdable.shutdown c ""
      ∧ cmdable.ShutdownSave c = cmdable.shutdown c "save"
      ∧ cmdable.ShutdownNoSave c = cmdable.shutdown c "nosave" := by
  rcases hout : (c (newCmd2 "shutdown" modifier none)).err with _ | e
  · refine ⟨?_, ?_, ?_, ?_, rfl, rfl, rfl, rfl⟩
    · simp [cmdable.shutdown, dispatch, hout]
    · intro h; cases h
    · intro _
      exact ⟨.other (c (newCmd2 "shutdown" modifier none)).val,
        by simp [cmdable.shutdown, dispatch, hout], rfl,
        by simp [cmdable.shutdown, dispatch, hout]⟩
    · intro e h; cases h
  · by_cases he : e = .EOF
    · subst he
      refine ⟨?_, ?_, ?_, ?_, rfl, rfl, rfl, rfl⟩
      · simp [cmdable.shutdown, dispatch, hout]
      · intro _; simp [cmdable.shutdown, dispatch, hout]
      · intro h; cases h
      · intro e h hne
        exact absurd (Option.some.inj h).symm hne
    · refine ⟨?_, ?_, ?_, ?_, rfl, rfl, rfl, rfl⟩
      · simp [cmdable.shutdown, dispatch, hout, he]
      · intro h; exact absurd (Option.some.inj h) he
      · intro h; cases h
      · intro e2 _ _
        simp [cmdable.shutdown, dispatch, hout, he]

/-! ## `CMSMergeWithWeight` -/

theorem CMSMergeWithWeight_loop_fills (n : Nat) (h w0 : Value) (es : List (String × Int))
    (ks vs : List Value) (hk : ks.length = vs.length) (hn : n = ks.length + es.length) :
    cmdable.CMSMergeWithWeight.loop n es ks.length
        (h :: (ks ++ List.replicate es.length Value.nil)
          ++ w0 :: (vs ++ List.replicate es.length Value.nil))
      = h :: (ks ++ es.map fun e => Value.string e.1)
          ++ w0 :: (vs ++ es.map fun e => Value.int64 e.2) := by
  induction es generalizing ks vs with
  | nil => simp [cmdable.CMSMergeWithWeight.loop]
  | cons e es ih =>
    obtain ⟨k, w⟩ := e
    have e1 : (h :: (ks ++ List.replicate (es.length + 1) Value.nil)
          ++ w0 :: (vs ++ List.replicate (es.length + 1) Value.nil)).set (1 + ks.length)
            (.string k)
        = h :: (ks ++ .string k :: List.replicate es.length Value.nil)
          ++ w0 :: (vs ++ List.replicate (es.length + 1) Value.nil) := by
      simp [List.replicate_succ, Nat.add_comm]
    have e2 : (h :: (ks ++ .string k :: List.replicate es.length Value.nil)
          ++ w0 :: (vs ++ List.replicate (es.length + 1) Value.nil)).set
            (1 + n + 1 + ks.length) (.int64 w)
        = h :: (ks ++ .string k :: List.replicate es.length Value.nil)
          ++ w0 :: (vs ++ .int64 w :: List.replicate es.length Value.nil) := by
      have hidx : 1 + n + 1 + ks.length
          = (h :: (ks ++ .string k :: List.replicate es.length Value.nil) ++ w0 :: vs).length := by
        simp only [List.length_cons, List.length_append, List.length_replicate] at hn ⊢
        omega
      rw [hidx]
      simp [List.replicate_succ]
    have hstep := ih (ks ++ [.string k]) (vs ++ [.int64 w]) (by simp [hk])
      (by simp only [List.length_cons, List.length_append, List.length_nil] at hn ⊢; omega)
    simp only [List.length_append, List.length_cons, List.length_nil, Nat.zero_add,
      List.append_assoc, List.singleton_append] at hstep
    simp only [List.length_cons, cmdable.CMSMergeWithWeight.loop, e1, e2, List.map_cons]
    exact hstep

/-- C38: let `m` be the map `sourceKeys` with `n` entries and `es` the order in
which its entries are visited.  If `m` is non-empty, the argument list built by
`CMSMergeWithWeight` has exactly `2n+2` tokens: token 0 is `n`, tokens `1..n`
are the keys in the order visited, token `n+1` is `WEIGHTS`, and for every
`i < n` token `n+2+i` is the weight of the entry whose key is token `1+i`, an
entry that `m` holds; the entries used are those of `m`, each exactly once.  If
`m` is empty the list is `[0]`. -/
theorem CMSMergeWithWeight_layout (c : Dispatcher) (destKey : String)
    (m es : List (String × Int)) (hperm : es.Perm m) :
    (m ≠ [] →
        ∃ args : List Value,
          (cmdable.CMSMergeWithWeight c destKey es).dispatched
              = [newCmd2 "CMS.MERGE" destKey (some args)]
            ∧ args.length = 2 * m.length + 2
            ∧ args = .int .Int m.length
                :: ((es.map fun e => Value.string e.1)
                  ++ .string "WEIGHTS" :: es.map fun e => Value.int64 e.2)
            ∧ args[0]? = some (.int .Int m.length)
            ∧ args[m.length + 1]? = some (.string "WEIGHTS")
            ∧ ∀ i, i < m.length → ∃ e ∈ m,
                args[1 + i]? = some (.string e.1) ∧ args[m.length + 2 + i]? = some (.int64 e.2))
      ∧ (m = [] →
          (cmdable.CMSMergeWithWeight c destKey es).dispatched
            = [newCmd2 "CMS.MERGE" destKey (some [.int .Int 0])]) := by
  have hlen : es.length = m.length := hperm.length_eq
  constructor
  · intro hne
    have hpos : es.length > 0 := by
      rw [hlen]; exact List.length_pos.2 hne
    have hfill := CMSMergeWithWeight_loop_fills es.length (.int .Int es.length)
      (.string "WEIGHTS") es [] [] rfl (by simp)
    simp only [List.nil_append, List.length_nil] at hfill
    have hinit : ((List.replicate (1 + es.length + 1 + es.length) Value.nil).set 0
          (.int .Int es.length)).set (1 + es.length) (.string "WEIGHTS")
        = .int .Int es.length :: List.replicate es.length Value.nil
            ++ .string "WEIGHTS" :: List.replicate es.length Value.nil := by
      have hrep : List.replicate (1 + es.length + 1 + es.length) Value.nil
          = Value.nil :: (List.replicate es.length Value.nil
              ++ Value.nil :: List.replicate es.length Value.nil) := by
        have h1 : 1 + es.length + 1 + es.length = (es.length + (es.length + 1)) + 1 := by omega
        rw [h1, List.replicate_succ, List.replicate_add, List.replicate_succ]
      rw [hrep, List.set_cons_zero]
      simp [Nat.add_comm]
    refine ⟨.int .Int m.length :: ((es.map fun e => Value.string e.1)
        ++ .string "WEIGHTS" :: es.map fun e => Value.int64 e.2), ?_, ?_, rfl,
      List.getElem?_cons_zero, ?_, ?_⟩
    · simp only [cmdable.CMSMergeWithWeight, dispatch, if_pos hpos, hinit, hfill]
      rw [hlen]
      rfl
    · simp only [List.length_cons, List.length_append, List.length_map, hlen]
      omega
    · have : m.length = (es.map fun e => Value.string e.1).length := by simp [hlen]
      rw [List.getElem?_cons_succ, this, List.getElem?_append_right (Nat.le_refl _)]
      simp
    · intro i hi
      have hi2 : i < es.length := by omega
      refine ⟨es[i], hperm.subset (List.getElem_mem hi2), ?_, ?_⟩
      · rw [Nat.add_comm 1 i, List.getElem?_cons_succ, List.getElem?_append_left (by simpa using hi2)]
        simp [List.getElem?_eq_getElem hi2]
      · have hidx : m.length + 2 + i = ((es.map fun e => Value.string e.1).length + (i + 1)) + 1 := by
          simp only [List.length_map]; omega
        rw [hidx, List.getElem?_cons_succ, List.getElem?_append_right (Nat.le_add_right _ _)]
        simp [List.getElem?_eq_getElem hi2]
  · intro hm
    subst hm
    have : es = [] := List.Perm.eq_nil hperm
    subst this
    rfl

/-- Witness for C38: the map `\x7ba: 1, b: 2\x7d` visited in the order `b`, `a`
gives `2, b, a, WEIGHTS, 2, 1`. -/
theorem CMSMergeWithWeight_layout_witness :
    ∃ args : List Value,
      (cmdable.CMSMergeWithWeight sampleDispatcher "dst" [("b", 2), ("a", 1)]).dispatched
          = [newCmd2 "CMS.MERGE" "dst" (some args)]
        ∧ args.length = 2 * [(("a" : String), (1 : Int)), ("b", 2)].length + 2
        ∧ args = .int .Int [(("a" : String), (1 : Int)), ("b", 2)].length
            :: (([(("b" : String), (2 : Int)), ("a", 1)].map fun e => Value.string e.1)
              ++ .string "WEIGHTS" :: [(("b" : String), (2 : Int)), ("a", 1)].map
                  fun e => Value.int64 e.2)
        ∧ args[0]? = some (.int .Int [(("a" : String), (1 : Int)), ("b", 2)].length)
        ∧ args[[(("a" : String), (1 : Int)), ("b", 2)].length + 1]? = some (.string "WEIGHTS")
        ∧ ∀ i, i < [(("a" : String), (1 : Int)), ("b", 2)].length →
            ∃ e ∈ [(("a" : String), (1 : Int)), ("b", 2)],
              args[1 + i]? = some (.string e.1)
                ∧ args[[(("a" : String), (1 : Int)), ("b", 2)].length + 2 + i]?
                  = some (.int64 e.2) :=
  (CMSMergeWithWeight_layout sampleDispatcher "dst" [("a", 1), ("b", 2)] [("b", 2), ("a", 1)]
    (List.Perm.swap _ _ _)).1 (by decide)

end Redis
